import Mathlib

/-!
Upipe: PSI section merging, trick play, the output helper, and the codec
and scaler stages

A shallow embedding of

* `include/upipe/upipe_helper_output.h` (the `UPIPE_HELPER_OUTPUT` functions),
* `lib/upipe-ts/upipe_ts_psi_merge.c` (the `ts_psim` pipe),
* `lib/upipe-modules/upipe_trickplay.c` (the `trickp` pipe and its subpipes),
* `lib/upipe-av/upipe_avcodec_decode.c` (the open of the codec and the held
  queue of the `avcdec` pipe),
* `lib/upipe-swscale/upipe_sws.c` (the input of the `sws` pipe),

followed by theorems about them.

Conventions of the embedding.

* A pipe is a value of a structure with the fields of the C private context;
  a C function that mutates the pipe returns the new value.
* Everything a function does to the outside world is returned as a list of
  `Action`s, in program order: events thrown to the probes, records passed to
  `upipe_input` of the output, records freed, and records handed to the
  output helper.
* Calls that would stop the program (a failed `assert`, a null dereference, a
  division by zero) make the function return `Except.error`.
* Bytes and 64-bit quantities are natural numbers; 64-bit arithmetic is
  written with an explicit `% 2 ^ 64`.
* Log messages (`upipe_warn`, `upipe_err`) are not recorded.
* The foreign codec and rescaler libraries, the allocator and the probes are
  parameters of the functions (`Env`, `AvEnv`, `SwsEnv`): they fix the outcome
  of each foreign call.
* A C loop with no bound of its own takes a bound on its iterations and
  returns `Fault.fuel` when the bound is reached.
-/

namespace Upipe

deriving instance DecidableEq for Except

/-! ## Records, events and actions -/

/-- Modelled from the spec: `struct urational` (`ubase.h` is not among the
sources), a rational `num/den` of 64-bit integers. The numerator is an integer
so that a signed and an unsigned 64-bit numerator are both covered. -/
structure urational where
  num : Int
  den : Nat
deriving DecidableEq, Repr

/-- Modelled from the spec: a flow definition, "a record carrying only
attributes (no payload)" (`uref_flow.h` is not among the sources). Only the
definition string is interpreted; `tag` stands for the remaining attributes. -/
structure FlowDef where
  def_str : Option String
  tag : Nat
deriving DecidableEq, Repr

/-- Modelled from the spec: a data record (`struct uref` with a block buffer;
`uref.h` and the attribute headers are not among the sources), restricted to
the attributes the three modules read or write. -/
structure Uref where
  /-- attribute `f.disc` (`uref_flow_get_discontinuity`) -/
  discontinuity : Bool
  /-- attribute `b.start` (`uref_block_get_start`) -/
  start : Bool
  /-- octets visible through the block buffer -/
  block : List Nat
  /-- attribute read by `uref_clock_get_pts` -/
  pts : Option Nat
  /-- attribute read by `uref_clock_get_dts` -/
  dts : Option Nat
  /-- attribute written by `uref_clock_set_pts_sys` -/
  pts_sys : Option Nat
  /-- attribute written by `uref_clock_set_dts_sys` -/
  dts_sys : Option Nat
  /-- attribute written by `uref_clock_set_rate` -/
  rate : Option urational
deriving DecidableEq, Repr

/-- Events thrown to the probe hierarchy. -/
inductive Event where
  | sync_acquired
  | sync_lost
  | fatal
  | aerror
  | need_output (flow_def : FlowDef)
  | need_uclock
  | dead
deriving DecidableEq, Repr

/-- Observable effects, in program order. Pipes and pumps are named by
numbers. -/
inductive Action where
  /-- `upipe_throw_*` -/
  | throw (e : Event)
  /-- a record handed to `STRUCTURE##_output` -/
  | output (u : Uref)
  /-- `upipe_input(output, uref, upump)` with a data record -/
  | input (o : Nat) (u : Uref)
  /-- `upipe_input(output, uref_dup(flow_def), upump)` -/
  | flow_def (o : Nat) (f : FlowDef)
  /-- `uref_free` of a data record -/
  | free (u : Uref)
  /-- `uref_free` of a flow definition -/
  | free_flow_def (f : FlowDef)
  /-- `upipe_use` -/
  | use (o : Nat)
  /-- `upipe_release` -/
  | release (o : Nat)
  /-- a pump blocked by `block_sink` -/
  | block (p : Nat)
  /-- the blockers of a sink released by `unblock_sink` -/
  | unblock (ps : List Nat)
deriving DecidableEq, Repr

/-- Ways in which a call does not return. -/
inductive Fault where
  | assert
  | null_deref
  | div_by_zero
  | fuel
deriving DecidableEq, Repr

/-- What the surroundings of a call decide: whether allocations succeed, which
output (if any) the probes wire when `need_output` is thrown, which clock (if
any) they attach when `need_uclock` is thrown, and the value `uclock_now`
returns. -/
structure Env where
  alloc : Bool
  need_output : FlowDef → Option Nat
  need_uclock : Option Nat
  now : Nat

/-- Payloads of the data records passed to `upipe_input` of an output, in
order. -/
def delivered : List Action → List (List Nat)
  | [] => []
  | Action.input _ u :: as => u.block :: delivered as
  | _ :: as => delivered as

/-- Payloads of the records handed to the output helper, in order. -/
def emitted : List Action → List (List Nat)
  | [] => []
  | Action.output u :: as => u.block :: emitted as
  | _ :: as => emitted as

/-- Events thrown, in order. -/
def thrown : List Action → List Event
  | [] => []
  | Action.throw e :: as => e :: thrown as
  | _ :: as => thrown as

/-- What output `o` receives, in order: flow definitions and data records. -/
def received (o : Nat) : List Action → List (FlowDef ⊕ Uref)
  | [] => []
  | Action.input p u :: as =>
      if p = o then Sum.inr u :: received o as else received o as
  | Action.flow_def p f :: as =>
      if p = o then Sum.inl f :: received o as else received o as
  | _ :: as => received o as

/-! ## `upipe_helper_output.h` -/

/-- The three members `UPIPE_HELPER_OUTPUT` asks for. -/
structure OutputHelper where
  /-- pipe acting as output -/
  output : Option Nat
  /-- output flow definition packet -/
  flow_def : Option FlowDef
  /-- true if the flow definition has already been sent -/
  flow_def_sent : Bool
deriving DecidableEq, Repr

/-- `STRUCTURE##_init_output` -/
def helper_init_output : OutputHelper :=
  { output := none, flow_def := none, flow_def_sent := false }

/-- `STRUCTURE##_flow_def`: outputs a flow definition control packet. -/
def helper_flow_def (env : Env) (h : OutputHelper) :
    Except Fault (OutputHelper × List Action) :=
  match h.flow_def with
  | none => .ok (h, [])
  | some f =>
    if env.alloc then
      match h.output with
      | none => .error Fault.null_deref
      | some o => .ok ({ h with flow_def_sent := true }, [Action.flow_def o f])
    else .ok (h, [Action.throw Event.aerror])

/-- `STRUCTURE##_set_output` (it always returns true). -/
def helper_set_output (h : OutputHelper) (output : Option Nat) :
    OutputHelper × List Action :=
  let a1 := match h.output with
    | some old => [Action.release old]
    | none => []
  let a2 := match output with
    | some o => [Action.use o]
    | none => []
  ({ h with output := output }, a1 ++ a2)

/-- `STRUCTURE##_store_flow_def` -/
def helper_store_flow_def (h : OutputHelper) (flow_def : Option FlowDef) :
    OutputHelper × List Action :=
  match h.flow_def with
  | some old =>
    ({ h with flow_def := flow_def, flow_def_sent := false },
     [Action.free_flow_def old])
  | none => ({ h with flow_def := flow_def }, [])

/-- `upipe_throw_need_output`: the event reaches the probes, which may answer
by a `set_output` control on the pipe. -/
def helper_throw_need_output (env : Env) (h : OutputHelper) (f : FlowDef) :
    OutputHelper × List Action :=
  match env.need_output f with
  | none => (h, [Action.throw (Event.need_output f)])
  | some o =>
    let r := helper_set_output h (some o)
    (r.1, Action.throw (Event.need_output f) :: r.2)

/-- `STRUCTURE##_output`: sends a uref to the output. -/
def helper_output (env : Env) (h : OutputHelper) (uref : Uref) :
    Except Fault (OutputHelper × List Action) :=
  let r1 : OutputHelper × List Action :=
    match h.output, h.flow_def with
    | none, some f => helper_throw_need_output env h f
    | _, _ => (h, [])
  match r1.1.output with
  | none => .ok (r1.1, Action.output uref :: (r1.2 ++ [Action.free uref]))
  | some o =>
    match (if r1.1.flow_def_sent then .ok (r1.1, [])
           else helper_flow_def env r1.1) with
    | .error e => .error e
    | .ok r2 =>
      if r2.1.flow_def_sent then
        .ok (r2.1, Action.output uref :: (r1.2 ++ r2.2 ++ [Action.input o uref]))
      else
        .ok (r2.1, Action.output uref :: (r1.2 ++ r2.2 ++ [Action.free uref]))

/-- Operations a pipe built on the helper offers to its surroundings. -/
inductive HelperOp where
  | set_output (output : Option Nat)
  | store_flow_def (flow_def : Option FlowDef)
  | output (uref : Uref)
deriving DecidableEq, Repr

/-- One operation on the helper. -/
def helper_step (env : Env) (h : OutputHelper) :
    HelperOp → Except Fault (OutputHelper × List Action)
  | HelperOp.set_output o => .ok (helper_set_output h o)
  | HelperOp.store_flow_def f => .ok (helper_store_flow_def h f)
  | HelperOp.output u => helper_output env h u

/-- A sequence of operations on the helper, effects concatenated. -/
def helper_run (env : Env) (h : OutputHelper) :
    List HelperOp → Except Fault (OutputHelper × List Action)
  | [] => .ok (h, [])
  | op :: ops =>
    match helper_step env h op with
    | .error e => .error e
    | .ok r1 =>
      match helper_run env r1.1 ops with
      | .error e => .error e
      | .ok r2 => .ok (r2.1, r1.2 ++ r2.2)

/-! ## Block buffers and PSI headers -/

/-- Modelled from the spec: `uref_block_extract` (`uref_block.h` is not among
the sources) copies `size` octets found at `offset`; it fails when the block
does not hold them. -/
def uref_block_extract (u : Uref) (offset size : Nat) : Option (List Nat) :=
  if offset + size ≤ u.block.length then some ((u.block.drop offset).take size)
  else none

/-- Modelled from the spec: `uref_block_resize` (`uref_block.h` is not among the
sources). "resize(skip, new-size) adjusts the view; cannot grow beyond
underlying storage; fails otherwise"; a `new_size` of -1 keeps the end of the
block. The storage under a view is not modelled, so a view never grows. -/
def uref_block_resize (u : Uref) (skip : Int) (new_size : Int) : Option Uref :=
  if skip < 0 ∨ (u.block.length : Int) < skip then none
  else if new_size = -1 then some { u with block := u.block.drop skip.toNat }
  else if new_size < 0 ∨ ((u.block.length : Int) - skip) < new_size then none
  else some { u with block := (u.block.drop skip.toNat).take new_size.toNat }

/-- Modelled from the spec: `uref_block_append` (`uref_block.h` is not among the
sources) "logically concatenates two block buffers". -/
def uref_block_append (u : Uref) (ubuf : List Nat) : Uref :=
  { u with block := u.block ++ ubuf }

/-- Modelled from the spec: `uref_block_delete_start` (`uref_block.h` is not
among the sources) strips the unit-start flag of the record. -/
def uref_block_delete_start (u : Uref) : Uref :=
  { u with start := false }

/-- Modelled from the spec: `PSI_HEADER_SIZE` (`bitstream/mpeg/psi.h` is not
among the sources), "the 3-byte PSI header". -/
def PSI_HEADER_SIZE : Nat := 3

/-- Modelled from the spec: `PSI_PRIVATE_MAX_SIZE` (`bitstream/mpeg/psi.h` is
not among the sources), "total section size is `length + 3`; maximum 4096". -/
def PSI_PRIVATE_MAX_SIZE : Nat := 4096

/-- Modelled from the spec: `psi_get_length` (`bitstream/mpeg/psi.h` is not
among the sources), "bytes 1-2 encode section syntax indicator and a 12-bit
`length`": `((p_section[1] & 0xf) << 8) | p_section[2]`. -/
def psi_get_length (psi_header : List Nat) : Nat :=
  ((psi_header.getD 1 0 &&& 0xf) <<< 8) ||| psi_header.getD 2 0

/-! ## `upipe_ts_psi_merge.c` -/

/-- Private context of a ts_psim pipe. -/
structure upipe_ts_psim extends OutputHelper where
  /-- next uref to be processed -/
  next_uref : Option Uref
  /-- true if we have thrown the sync_acquired event -/
  acquired : Bool
deriving DecidableEq, Repr

/-- `upipe_ts_psim_alloc`: a fresh pipe. -/
def upipe_ts_psim_alloc : upipe_ts_psim :=
  { toOutputHelper := helper_init_output, next_uref := none, acquired := false }

/-- Modelled from the spec: `upipe_ts_psim_sync_lost` of `UPIPE_HELPER_SYNC`
(`upipe_helper_sync.h` is not among the sources): leaves the acquired state and
throws sync-lost, once. -/
def upipe_ts_psim_sync_lost (s : upipe_ts_psim) : upipe_ts_psim × List Action :=
  if s.acquired then ({ s with acquired := false }, [Action.throw Event.sync_lost])
  else (s, [])

/-- Modelled from the spec: `upipe_ts_psim_sync_acquired` of `UPIPE_HELPER_SYNC`
(`upipe_helper_sync.h` is not among the sources): enters the acquired state and
throws sync-acquired, once. -/
def upipe_ts_psim_sync_acquired (s : upipe_ts_psim) :
    upipe_ts_psim × List Action :=
  if s.acquired then (s, [])
  else ({ s with acquired := true }, [Action.throw Event.sync_acquired])

/-- `upipe_ts_psim_output`: `STRUCTURE##_output` on the members of the pipe. -/
def upipe_ts_psim_output (env : Env) (s : upipe_ts_psim) (uref : Uref) :
    Except Fault (upipe_ts_psim × List Action) :=
  match helper_output env s.toOutputHelper uref with
  | .error e => .error e
  | .ok r => .ok ({ s with toOutputHelper := r.1 }, r.2)

/-- `upipe_ts_psim_flush`: flushes all input buffers. -/
def upipe_ts_psim_flush (s : upipe_ts_psim) : upipe_ts_psim × List Action :=
  match s.next_uref with
  | some acc =>
    let r := upipe_ts_psim_sync_lost { s with next_uref := none }
    (r.1, Action.free acc :: r.2)
  | none => upipe_ts_psim_sync_lost s

/-- Lines 155-196 of `upipe_ts_psim_merge`, entered with `next_uref` set to
`acc`. The result carries the pipe, the input record as the call leaves it,
the effects, and the returned boolean. -/
def upipe_ts_psim_merge_section (env : Env) (s : upipe_ts_psim) (acc uref : Uref) :
    Except Fault (upipe_ts_psim × Uref × List Action × Bool) :=
  let size := acc.block.length
  if size < PSI_HEADER_SIZE then
    .ok ({ s with next_uref := some acc }, uref, [], false)
  else
    let length := psi_get_length (acc.block.take PSI_HEADER_SIZE)
    if length + PSI_HEADER_SIZE > PSI_PRIVATE_MAX_SIZE then
      let r := upipe_ts_psim_flush { s with next_uref := some acc }
      .ok (r.1, uref, r.2, false)
    else if length + PSI_HEADER_SIZE > size then
      .ok ({ s with next_uref := some acc }, uref, [], false)
    else
      match uref_block_resize acc 0 (length + PSI_HEADER_SIZE : Nat) with
      | none => .error Fault.assert
      | some out =>
        match upipe_ts_psim_output env { s with next_uref := some out } out with
        | .error e => .error e
        | .ok r =>
          if length + PSI_HEADER_SIZE = size then
            .ok ({ r.1 with next_uref := none }, uref, r.2, false)
          else
            let uref_size := uref.block.length
            match uref_block_resize uref
                (((length + PSI_HEADER_SIZE : Nat) : Int) -
                  (((size : Int) - (uref_size : Int)))) (-1) with
            | none => .error Fault.assert
            | some rest => .ok ({ r.1 with next_uref := none }, rest, r.2, true)

/-- `upipe_ts_psim_merge`: merges a PSI section. The boolean is false if the
uref has been entirely consumed. -/
def upipe_ts_psim_merge (env : Env) (s : upipe_ts_psim) (uref : Uref) :
    Except Fault (upipe_ts_psim × Uref × List Action × Bool) :=
  match s.next_uref with
  | some acc =>
    if env.alloc then
      upipe_ts_psim_merge_section env s (uref_block_append acc uref.block) uref
    else
      let r := upipe_ts_psim_flush s
      .ok (r.1, uref, r.2 ++ [Action.throw Event.fatal], false)
  | none =>
    match uref_block_extract uref 0 1 with
    | some (table_id :: _) =>
      if table_id = 0xff then .ok (s, uref, [], false)
      else if env.alloc then upipe_ts_psim_merge_section env s uref uref
      else .ok (s, uref, [Action.throw Event.fatal], false)
    | _ => .ok (s, uref, [], false)

/-- `while (upipe_ts_psim_merge(upipe, uref, upump));` with a bound on the
number of iterations. -/
def upipe_ts_psim_merge_loop (env : Env) :
    Nat → upipe_ts_psim → Uref → Except Fault (upipe_ts_psim × Uref × List Action)
  | 0, _, _ => .error Fault.fuel
  | fuel + 1, s, uref =>
    match upipe_ts_psim_merge env s uref with
    | .error e => .error e
    | .ok (s1, uref1, a1, false) => .ok (s1, uref1, a1)
    | .ok (s1, uref1, a1, true) =>
      match upipe_ts_psim_merge_loop env fuel s1 uref1 with
      | .error e => .error e
      | .ok (s2, uref2, a2) => .ok (s2, uref2, a1 ++ a2)

/-- Lines 238-239 of `upipe_ts_psim_input`: the merge loop, then the input
record is freed. Every iteration but the first shortens the record, so its
size plus two bounds the number of iterations. -/
def upipe_ts_psim_input_sections (env : Env) (s : upipe_ts_psim) (uref : Uref) :
    Except Fault (upipe_ts_psim × List Action) :=
  match upipe_ts_psim_merge_loop env (uref.block.length + 2) s uref with
  | .error e => .error e
  | .ok (s1, uref1, a1) => .ok (s1, a1 ++ [Action.free uref1])

/-- Lines 212-240 of `upipe_ts_psim_input`, after the discontinuity test. -/
def upipe_ts_psim_input_start (env : Env) (s : upipe_ts_psim) (uref : Uref) :
    Except Fault (upipe_ts_psim × List Action) :=
  if uref.start then
    if s.acquired then
      match uref_block_resize uref 1 (-1) with
      | none =>
        let r := upipe_ts_psim_flush s
        .ok (r.1, Action.free uref :: r.2)
      | some u1 =>
        upipe_ts_psim_input_sections env s (uref_block_delete_start u1)
    else
      match uref_block_extract uref 0 1 with
      | some (pointer_field :: _) =>
        match uref_block_resize uref (1 + (pointer_field : Int)) (-1) with
        | none => .ok (s, [Action.free uref])
        | some u1 =>
          let r := upipe_ts_psim_sync_acquired s
          match upipe_ts_psim_input_sections env r.1 (uref_block_delete_start u1) with
          | .error e => .error e
          | .ok r2 => .ok (r2.1, r.2 ++ r2.2)
      | _ => .ok (s, [Action.free uref])
  else if s.next_uref = none then
    let r := upipe_ts_psim_flush s
    .ok (r.1, Action.free uref :: r.2)
  else upipe_ts_psim_input_sections env s uref

/-- `upipe_ts_psim_input`: takes the payload of a TS packet and finds PSI
sections inside it. -/
def upipe_ts_psim_input (env : Env) (s : upipe_ts_psim) (uref : Uref) :
    Except Fault (upipe_ts_psim × List Action) :=
  if uref.discontinuity then
    let r := upipe_ts_psim_flush s
    match upipe_ts_psim_input_start env r.1 uref with
    | .error e => .error e
    | .ok r2 => .ok (r2.1, r.2 ++ r2.2)
  else upipe_ts_psim_input_start env s uref

/-- The pipe fed a sequence of records, effects concatenated. -/
def upipe_ts_psim_run (env : Env) (s : upipe_ts_psim) :
    List Uref → Except Fault (upipe_ts_psim × List Action)
  | [] => .ok (s, [])
  | uref :: urefs =>
    match upipe_ts_psim_input env s uref with
    | .error e => .error e
    | .ok r1 =>
      match upipe_ts_psim_run env r1.1 urefs with
      | .error e => .error e
      | .ok r2 => .ok (r2.1, r1.2 ++ r2.2)

/-- A record holding `block`, with the given flags and no other attribute. -/
def mk_uref (discontinuity start : Bool) (block : List Nat) : Uref :=
  { discontinuity := discontinuity, start := start, block := block, pts := none,
    dts := none, pts_sys := none, dts_sys := none, rate := none }

/-! ## `upipe_trickplay.c` -/

/-- Modelled from the spec: `UCLOCK_FREQ` (`uclock.h` is not among the sources),
"one second = 27,000,000 ticks". -/
def UCLOCK_FREQ : Nat := 27000000

/-- `UPIPE_TRICKP_PTS_DELAY`: the minimum amount of time before presenting a
flow. -/
def UPIPE_TRICKP_PTS_DELAY : Nat := UCLOCK_FREQ / 10

/-- `UINT64_MAX` -/
def UINT64_MAX : Nat := 2 ^ 64 - 1

/-- Conversion of a 64-bit integer to `uint64_t`, as the usual arithmetic
conversions do when it meets a `uint64_t` operand. -/
def u64_of_int (i : Int) : Nat := (i % 2 ^ 64).toNat

/-- Type of the flow (different behaviours). -/
inductive upipe_trickp_sub_type where
  | UPIPE_TRICKP_PIC
  | UPIPE_TRICKP_SOUND
  | UPIPE_TRICKP_SUBPIC
deriving DecidableEq, Repr

/-- Private context of an output of a trickp pipe. -/
structure upipe_trickp_sub extends OutputHelper where
  /-- type of the flow -/
  type : upipe_trickp_sub_type
  /-- temporary uref storage -/
  urefs : List Uref
  /-- list of blockers (the pumps they block) -/
  blockers : List Nat
deriving DecidableEq, Repr

/-- Private context of a trickp pipe. -/
structure upipe_trickp where
  /-- uclock structure -/
  uclock : Option Nat
  /-- origins of timestamps -/
  ts_origin : Nat
  /-- offset of systimes -/
  systime_offset : Nat
  /-- current rate -/
  rate : urational
  /-- list of subs -/
  subs : List upipe_trickp_sub
deriving DecidableEq, Repr

/-- `upipe_trickp_alloc` -/
def upipe_trickp_alloc : upipe_trickp :=
  { uclock := none, ts_origin := 0, systime_offset := 0,
    rate := { num := 1, den := 1 }, subs := [] }

/-- Modelled from the spec: `upipe_trickp_sub_hold_sink` of `UPIPE_HELPER_SINK`
(`upipe_helper_sink.h` is not among the sources) appends the record to the held
queue. -/
def upipe_trickp_sub_hold_sink (sub : upipe_trickp_sub) (uref : Uref) :
    upipe_trickp_sub :=
  { sub with urefs := sub.urefs ++ [uref] }

/-- Modelled from the spec: `upipe_trickp_sub_block_sink` of `UPIPE_HELPER_SINK`
(`upipe_helper_sink.h` is not among the sources) blocks the producing pump, if
there is one and it is not blocked yet. -/
def upipe_trickp_sub_block_sink (sub : upipe_trickp_sub) (upump : Option Nat) :
    upipe_trickp_sub × List Action :=
  match upump with
  | none => (sub, [])
  | some p =>
    if p ∈ sub.blockers then (sub, [])
    else ({ sub with blockers := sub.blockers ++ [p] }, [Action.block p])

/-- Modelled from the spec: `upipe_trickp_sub_unblock_sink` of
`UPIPE_HELPER_SINK` (`upipe_helper_sink.h` is not among the sources) releases
every blocker. -/
def upipe_trickp_sub_unblock_sink (sub : upipe_trickp_sub) :
    upipe_trickp_sub × List Action :=
  ({ sub with blockers := [] }, [Action.unblock sub.blockers])

/-- Modelled from the spec: `upipe_trickp_sub_check_sink` of `UPIPE_HELPER_SINK`
(`upipe_helper_sink.h` is not among the sources) tells whether the held queue
is empty. -/
def upipe_trickp_sub_check_sink (sub : upipe_trickp_sub) : Bool :=
  sub.urefs.isEmpty

/-- `upipe_trickp_get_systime`: returns a systime converted from a timestamp. -/
def upipe_trickp_get_systime (t : upipe_trickp) (ts : Nat) : Except Fault Nat :=
  let ts := if ts < t.ts_origin then t.ts_origin else ts
  if u64_of_int t.rate.num = 0 then .error Fault.div_by_zero
  else
    .ok (((ts - t.ts_origin) * t.rate.den % 2 ^ 64 / u64_of_int t.rate.num
          + t.systime_offset) % 2 ^ 64)

/-- `upipe_trickp_sub_output`: `STRUCTURE##_output` on the members of the
subpipe. -/
def upipe_trickp_sub_output (env : Env) (sub : upipe_trickp_sub) (uref : Uref) :
    Except Fault (upipe_trickp_sub × List Action) :=
  match helper_output env sub.toOutputHelper uref with
  | .error e => .error e
  | .ok r => .ok ({ sub with toOutputHelper := r.1 }, r.2)

/-- The record after the three attribute writes of `upipe_trickp_sub_process`
(lines 183-193). -/
def upipe_trickp_sub_stamp (t : upipe_trickp) (uref : Uref) : Except Fault Uref :=
  let u1 : Uref := { uref with rate := some t.rate }
  let r2 : Except Fault Uref :=
    match u1.pts with
    | some pts =>
      match upipe_trickp_get_systime t pts with
      | .error e => .error e
      | .ok v => .ok { u1 with pts_sys := some v }
    | none => .ok u1
  match r2 with
  | .error e => .error e
  | .ok u2 =>
    match u2.dts with
    | some dts =>
      match upipe_trickp_get_systime t dts with
      | .error e => .error e
      | .ok v => .ok { u2 with dts_sys := some v }
    | none => .ok u2

/-- `upipe_trickp_sub_process`: processes data. The boolean is true if the uref
was processed. -/
def upipe_trickp_sub_process (env : Env) (t : upipe_trickp)
    (sub : upipe_trickp_sub) (uref : Uref) :
    Except Fault (upipe_trickp_sub × List Action × Bool) :=
  if t.rate.num = 0 ∨ t.rate.den = 0 then .ok (sub, [], false)
  else
    match upipe_trickp_sub_stamp t uref with
    | .error e => .error e
    | .ok u =>
      match upipe_trickp_sub_output env sub u with
      | .error e => .error e
      | .ok r => .ok (r.1, r.2, true)

/-- The loop of `upipe_trickp_sub_output_sink` over the held queue: the result
carries the records still held. -/
def upipe_trickp_sub_output_sink_loop (env : Env) (t : upipe_trickp) :
    upipe_trickp_sub → List Uref →
      Except Fault (upipe_trickp_sub × List Uref × List Action × Bool)
  | sub, [] => .ok (sub, [], [], true)
  | sub, uref :: urefs =>
    match upipe_trickp_sub_process env t sub uref with
    | .error e => .error e
    | .ok (sub1, a1, false) => .ok (sub1, uref :: urefs, a1, false)
    | .ok (sub1, a1, true) =>
      match upipe_trickp_sub_output_sink_loop env t sub1 urefs with
      | .error e => .error e
      | .ok (sub2, held, a2, b) => .ok (sub2, held, a1 ++ a2, b)

/-- Modelled from the spec: `upipe_trickp_sub_output_sink` of `UPIPE_HELPER_SINK`
(`upipe_helper_sink.h` is not among the sources) drains the held queue through
`upipe_trickp_sub_process`, stopping at the first record it refuses; it returns
true when the queue has been emptied. -/
def upipe_trickp_sub_output_sink (env : Env) (t : upipe_trickp)
    (sub : upipe_trickp_sub) : Except Fault (upipe_trickp_sub × List Action × Bool) :=
  match upipe_trickp_sub_output_sink_loop env t sub sub.urefs with
  | .error e => .error e
  | .ok (sub1, held, a, b) => .ok ({ sub1 with urefs := held }, a, b)

/-- The date `upipe_trickp_check_start` reads on a record: its dts, otherwise
its pts (lines 346-347). -/
def upipe_trickp_uref_ts (uref : Uref) : Option Nat :=
  match uref.dts with
  | some dts => some dts
  | none => uref.pts

/-- The `for ( ; ; )` loop of `upipe_trickp_check_start` (lines 339-356) on one
held queue: the queue it leaves, the records it frees, and the date of the
first dated record, if there is one. -/
def upipe_trickp_peek_dated : List Uref → List Uref × List Action × Option Nat
  | [] => ([], [], none)
  | uref :: urefs =>
    match upipe_trickp_uref_ts uref with
    | some ts => (uref :: urefs, [], some ts)
    | none =>
      let r := upipe_trickp_peek_dated urefs
      (r.1, Action.free uref :: r.2.1, r.2.2)

/-- The first `ulist_foreach` of `upipe_trickp_check_start` (lines 333-357),
started with `earliest_ts`: the subpipes as it leaves them, the records freed,
and the final `earliest_ts`, or `none` when it returned ("not ready"). -/
def upipe_trickp_scan :
    List upipe_trickp_sub → Nat → List upipe_trickp_sub × List Action × Option Nat
  | [], earliest_ts => ([], [], some earliest_ts)
  | sub :: subs, earliest_ts =>
    if sub.type = upipe_trickp_sub_type.UPIPE_TRICKP_SUBPIC then
      let r := upipe_trickp_scan subs earliest_ts
      (sub :: r.1, r.2.1, r.2.2)
    else
      let p := upipe_trickp_peek_dated sub.urefs
      match p.2.2 with
      | none => ({ sub with urefs := p.1 } :: subs, p.2.1, none)
      | some ts =>
        let r := upipe_trickp_scan subs (if ts < earliest_ts then ts else earliest_ts)
        ({ sub with urefs := p.1 } :: r.1, p.2.1 ++ r.2.1, r.2.2)

/-- The second `ulist_foreach` of `upipe_trickp_check_start` (lines 363-370). -/
def upipe_trickp_drain (env : Env) (t : upipe_trickp) :
    List upipe_trickp_sub → Except Fault (List upipe_trickp_sub × List Action)
  | [] => .ok ([], [])
  | sub :: subs =>
    match upipe_trickp_sub_output_sink env t sub with
    | .error e => .error e
    | .ok (sub1, a1, b) =>
      let r := if b then upipe_trickp_sub_unblock_sink sub1 else (sub1, [])
      match upipe_trickp_drain env t subs with
      | .error e => .error e
      | .ok (subs2, a2) => .ok (r.1 :: subs2, a1 ++ r.2 ++ a2)

/-- `upipe_trickp_check_start`: checks if we have got packets on video and
audio inputs, so we are ready to output them. -/
def upipe_trickp_check_start (env : Env) (t : upipe_trickp) :
    Except Fault (upipe_trickp × List Action) :=
  let r := upipe_trickp_scan t.subs UINT64_MAX
  match r.2.2 with
  | none => .ok ({ t with subs := r.1 }, r.2.1)
  | some earliest_ts =>
    match t.uclock with
    | none => .error Fault.null_deref
    | some _ =>
      let t1 : upipe_trickp :=
        { t with subs := r.1, ts_origin := earliest_ts,
                 systime_offset := (env.now + UPIPE_TRICKP_PTS_DELAY) % 2 ^ 64 }
      match upipe_trickp_drain env t1 t1.subs with
      | .error e => .error e
      | .ok (subs2, a2) => .ok ({ t1 with subs := subs2 }, r.2.1 ++ a2)

/-- `upipe_trickp_reset_uclock`: resets uclock-related fields. -/
def upipe_trickp_reset_uclock (t : upipe_trickp) : upipe_trickp :=
  { t with systime_offset := 0, ts_origin := 0 }

/-- `_upipe_trickp_get_rate`: returns the current playing rate. -/
def _upipe_trickp_get_rate (t : upipe_trickp) : urational × Bool :=
  (t.rate, true)

/-- `_upipe_trickp_set_rate`: sets the playing rate. -/
def _upipe_trickp_set_rate (env : Env) (t : upipe_trickp) (rate : urational) :
    Except Fault (upipe_trickp × List Action × Bool) :=
  match upipe_trickp_check_start env
      (upipe_trickp_reset_uclock { t with rate := rate }) with
  | .error e => .error e
  | .ok r => .ok (r.1, r.2, false)

/-- The subpipe `i` of the pipe replaced by `sub`. -/
def upipe_trickp_set_sub (t : upipe_trickp) (i : Nat) (sub : upipe_trickp_sub) :
    upipe_trickp :=
  { t with subs := t.subs.set i sub }

/-- Lines 217-228 of `upipe_trickp_sub_input`, on subpipe `i`, once a clock is
attached. -/
def upipe_trickp_sub_input_clocked (env : Env) (t : upipe_trickp) (i : Nat)
    (sub : upipe_trickp_sub) (uref : Uref) (upump : Option Nat) :
    Except Fault (upipe_trickp × List Action) :=
  if t.rate.num = 0 ∨ t.rate.den = 0 then
    let r := upipe_trickp_sub_block_sink (upipe_trickp_sub_hold_sink sub uref) upump
    .ok (upipe_trickp_set_sub t i r.1, r.2)
  else if t.systime_offset = 0 then
    upipe_trickp_check_start env
      (upipe_trickp_set_sub t i (upipe_trickp_sub_hold_sink sub uref))
  else if upipe_trickp_sub_check_sink sub then
    match upipe_trickp_sub_process env t sub uref with
    | .error e => .error e
    | .ok (sub1, a1, true) => .ok (upipe_trickp_set_sub t i sub1, a1)
    | .ok (sub1, a1, false) =>
      let r := upipe_trickp_sub_block_sink (upipe_trickp_sub_hold_sink sub1 uref) upump
      .ok (upipe_trickp_set_sub t i r.1, a1 ++ r.2)
  else
    let r := upipe_trickp_sub_block_sink (upipe_trickp_sub_hold_sink sub uref) upump
    .ok (upipe_trickp_set_sub t i r.1, r.2)

/-- `upipe_trickp_sub_input`: receives data on subpipe `i`. -/
def upipe_trickp_sub_input (env : Env) (t : upipe_trickp) (i : Nat) (uref : Uref)
    (upump : Option Nat) : Except Fault (upipe_trickp × List Action) :=
  match t.subs.get? i with
  | none => .error Fault.null_deref
  | some sub =>
    match t.uclock with
    | some _ => upipe_trickp_sub_input_clocked env t i sub uref upump
    | none =>
      match env.need_uclock with
      | none => .ok (t, [Action.throw Event.need_uclock, Action.free uref])
      | some c =>
        match upipe_trickp_sub_input_clocked env
            { upipe_trickp_reset_uclock t with uclock := some c } i sub uref upump with
        | .error e => .error e
        | .ok r => .ok (r.1, Action.throw Event.need_uclock :: r.2)

/-! ## Definitions used to state the theorems -/

/-- The surroundings used in the examples: allocations succeed, the probes wire
nothing, the clock reads 10000. -/
def example_env : Env :=
  { alloc := true, need_output := fun _ => none, need_uclock := none, now := 10000 }

/-- The conversion of a timestamp as the specification writes it: clamp to
`ts_origin`, scale by `rate.den / rate.num`, add `systime_offset`, in unsigned
64-bit arithmetic. -/
def systime_spec (t : upipe_trickp) (ts : Nat) : Nat :=
  ((max ts t.ts_origin - t.ts_origin) * t.rate.den % 2 ^ 64 / u64_of_int t.rate.num
    + t.systime_offset) % 2 ^ 64

/-- The record `upipe_trickp_sub_process` emits for `uref`, as the specification
describes it: rate set, pts-sys and dts-sys computed from pts and dts when
present, everything else untouched. -/
def stamped_spec (t : upipe_trickp) (uref : Uref) : Uref :=
  { uref with
    rate := some t.rate
    pts_sys := match uref.pts with
      | some pts => some (systime_spec t pts)
      | none => uref.pts_sys
    dts_sys := match uref.dts with
      | some dts => some (systime_spec t dts)
      | none => uref.dts_sys }

/-- A started pipe at rate 1/2, used to illustrate C3. -/
def C3_pipe : upipe_trickp :=
  { uclock := some 0, ts_origin := 1000, systime_offset := 2710000,
    rate := { num := 1, den := 2 }, subs := [] }

/-- A picture subpipe with its output wired and its flow definition sent. -/
def C3_sub : upipe_trickp_sub :=
  { output := some 1, flow_def := some ⟨some "pic.", 0⟩, flow_def_sent := true,
    type := upipe_trickp_sub_type.UPIPE_TRICKP_PIC, urefs := [], blockers := [] }

/-- A record with pts 3000 and dts 500. -/
def C3_uref : Uref :=
  { discontinuity := false, start := false, block := [], pts := some 3000, dts := some 500,
    pts_sys := none, dts_sys := none, rate := none }

/-- The date of the first dated record of a held queue. -/
def first_dated (urefs : List Uref) : Option Nat :=
  (urefs.filterMap upipe_trickp_uref_ts).head?

/-- The dates `ts_origin` is chosen among: for every subpipe that is not a
subpicture, in order, the date of the first dated record it holds. -/
def anchor_dates (subs : List upipe_trickp_sub) : List Nat :=
  (subs.filter (fun sub => sub.type ≠ upipe_trickp_sub_type.UPIPE_TRICKP_SUBPIC)).filterMap
    (fun sub => first_dated sub.urefs)

/-- A pipe waiting to start: a picture subpipe holding an undated record and a
record with pts 1000, a sound subpipe holding a record with dts 1500 and pts
900, a subpicture subpipe holding a record with pts 5. -/
def C4_pipe : upipe_trickp :=
  { uclock := some 0, ts_origin := 0, systime_offset := 0, rate := { num := 1, den := 1 },
    subs := [
      { output := some 1, flow_def := some ⟨some "pic.", 0⟩, flow_def_sent := false,
        type := upipe_trickp_sub_type.UPIPE_TRICKP_PIC,
        urefs := [mk_uref false false [], { mk_uref false false [] with pts := some 1000 }],
        blockers := [] },
      { output := some 2, flow_def := some ⟨some "sound.", 0⟩, flow_def_sent := false,
        type := upipe_trickp_sub_type.UPIPE_TRICKP_SOUND,
        urefs := [{ mk_uref false false [] with pts := some 900, dts := some 1500 }],
        blockers := [] },
      { output := some 3, flow_def := some ⟨some "pic.sub.", 0⟩, flow_def_sent := false,
        type := upipe_trickp_sub_type.UPIPE_TRICKP_SUBPIC,
        urefs := [{ mk_uref false false [] with pts := some 5 }],
        blockers := [] }] }

/-- The flow definition used in the examples about the output helper. -/
def C5_flow_def : FlowDef := { def_str := some "block.mpegtspsi.", tag := 0 }

/-- Store a flow definition, wire output 1, send a record, wire output 2, send
another record. -/
def C5_ops : List HelperOp :=
  [HelperOp.store_flow_def (some C5_flow_def),
   HelperOp.set_output (some 1),
   HelperOp.output (mk_uref false false [1]),
   HelperOp.set_output (some 2),
   HelperOp.output (mk_uref false false [2])]

/-- The trick-play pipe fed a sequence of records, each on the subpipe of the
given index, with no pump; effects concatenated. -/
def upipe_trickp_run (env : Env) (t : upipe_trickp) :
    List (Nat × Uref) → Except Fault (upipe_trickp × List Action)
  | [] => .ok (t, [])
  | (i, uref) :: rest =>
    match upipe_trickp_sub_input env t i uref none with
    | .error e => .error e
    | .ok r1 =>
      match upipe_trickp_run env r1.1 rest with
      | .error e => .error e
      | .ok r2 => .ok (r2.1, r1.2 ++ r2.2)

/-- The pts-sys of the data records output `o` receives, in order. -/
def received_pts_sys (o : Nat) (acts : List Action) : List (Option Nat) :=
  (received o acts).filterMap (fun x =>
    match x with
    | Sum.inr u => some u.pts_sys
    | Sum.inl _ => none)

/-- A pipe at rate 1/1 with a clock and one picture subpipe, output wired. -/
def C10_pipe : upipe_trickp :=
  { uclock := some 0, ts_origin := 0, systime_offset := 0, rate := { num := 1, den := 1 },
    subs := [
      { output := some 1, flow_def := some ⟨some "pic.", 0⟩, flow_def_sent := false,
        type := upipe_trickp_sub_type.UPIPE_TRICKP_PIC, urefs := [], blockers := [] }] }

/-- A complete, well-formed PSI section: its first octet is not the stuffing
octet 0xFF, it holds a header, its size is `length + 3` for the `length` of its
own header, and that size is at most 4096. -/
def valid_section (sec : List Nat) : Prop :=
  sec.head? ≠ some 0xff ∧ PSI_HEADER_SIZE ≤ sec.length ∧
  sec.length = psi_get_length (sec.take PSI_HEADER_SIZE) + PSI_HEADER_SIZE ∧
  sec.length ≤ PSI_PRIVATE_MAX_SIZE

instance (sec : List Nat) : Decidable (valid_section sec) := by
  unfold valid_section; infer_instance

/-- The sections of `secs` that end within the first `k` octets of their
concatenation. -/
def completed : List (List Nat) → Nat → List (List Nat)
  | [], _ => []
  | sec :: rest, k => if sec.length ≤ k then sec :: completed rest (k - sec.length) else []

/-- The sections of `secs` that do not end within the first `k` octets of their
concatenation, and the number of octets of the first of them that lie within
these `k` octets. -/
def pending : List (List Nat) → Nat → List (List Nat) × Nat
  | [], _ => ([], 0)
  | sec :: rest, k => if sec.length ≤ k then pending rest (k - sec.length) else (sec :: rest, k)

/-- The accumulator of the pipe holds exactly the octets `acc` (and is empty
when there is none). -/
def acc_matches (s : upipe_ts_psim) (acc : List Nat) : Prop :=
  (acc = [] ∧ s.next_uref = none) ∨ (acc ≠ [] ∧ ∃ a, s.next_uref = some a ∧ a.block = acc)

/-- Offsets at which the sections of `secs` start in their concatenation, the
first section starting at `pos`. -/
def section_starts : List (List Nat) → Nat → List Nat
  | [], _ => []
  | sec :: rest, pos => pos :: section_starts rest (pos + sec.length)

/-- Section starts seen from `n` octets further: the starts below `n` are left
behind, the others are counted from `n`. -/
def shift_starts (n : Nat) (starts : List Nat) : List Nat :=
  (starts.filter (fun b => n ≤ b)).map (fun b => b - n)

/-- The TS payload record that carries `data`, given the section starts that fall
inside `data` (in increasing order): without unit-start when no section starts
in it, otherwise with unit-start and, before the data, a pointer_field giving
the offset of the first section start. -/
def cut_record (data : List Nat) (inside : List Nat) : Uref :=
  match inside with
  | [] => mk_uref false false data
  | pointer_field :: _ => mk_uref false true (pointer_field :: data)

/-- The stream `S`, whose sections start at the offsets `starts`, cut into
consecutive records carrying `sizes` octets of it each, with the unit-start flag
and pointer_field each record must have. -/
def cut_records (S : List Nat) (starts : List Nat) : List Nat → List Uref
  | [] => []
  | n :: sizes =>
    cut_record (S.take n) (starts.filter (fun b => b < n))
      :: cut_records (S.drop n) (shift_starts n starts) sizes

/-- The helper has an output wired and a flow definition stored. -/
def wired (h : OutputHelper) : Prop :=
  ∃ o f, h.output = some o ∧ h.flow_def = some f

/-- A synchronised ts_psim pipe with an empty accumulator, its output wired and
its flow definition stored. -/
def wired_psim : upipe_ts_psim :=
  { output := some 1, flow_def := some C5_flow_def, flow_def_sent := false,
    next_uref := none, acquired := true }

/-- In the desync state the accumulator is empty: a partial section is only
held while sync is acquired. -/
def desync_is_empty (s : upipe_ts_psim) : Prop :=
  s.acquired = true ∨ s.next_uref = none

/-- A held queue without its leading records that have neither dts nor pts. -/
def drop_undated (urefs : List Uref) : List Uref :=
  urefs.dropWhile (fun u => (upipe_trickp_uref_ts u).isNone)

/-- Some subpipe that is not a subpicture holds no dated record: its held queue
is empty or holds only records with neither dts nor pts. -/
def not_ready (subs : List upipe_trickp_sub) : Prop :=
  ∃ sub ∈ subs, sub.type ≠ upipe_trickp_sub_type.UPIPE_TRICKP_SUBPIC ∧
    ∀ u ∈ sub.urefs, upipe_trickp_uref_ts u = none

/-- A subpipe once the first loop of `upipe_trickp_check_start` has gone over it,
as the specification describes it: a subpicture subpipe is skipped, any other
has lost the leading undated records of its held queue. -/
def scanned_spec (sub : upipe_trickp_sub) : upipe_trickp_sub :=
  if sub.type = upipe_trickp_sub_type.UPIPE_TRICKP_SUBPIC then sub
  else { sub with urefs := drop_undated sub.urefs }

/-- The releases the first loop of `upipe_trickp_check_start` makes when it goes
over the subpipes `subs`, as the specification describes them: for every subpipe
that is not a subpicture, in order, the leading undated records of its held
queue, in queue order. -/
def dropped_spec : List upipe_trickp_sub → List Action
  | [] => []
  | sub :: subs =>
    (if sub.type = upipe_trickp_sub_type.UPIPE_TRICKP_SUBPIC then []
     else (sub.urefs.takeWhile (fun u => (upipe_trickp_uref_ts u).isNone)).map Action.free)
      ++ dropped_spec subs

/-- Modelled from the spec: `ubase_ncmp` (`ubase.h` is not among the sources),
"matching uses prefix equality": like `strncmp(string, start, strlen(start))`,
it is non-zero (here `true`) exactly when `string` does not begin with
`start`. -/
def ubase_ncmp (string start : String) : Bool :=
  string.toList.take start.toList.length != start.toList

/-- Lines 149 and 156-163 of `upipe_trickp_sub_alloc`: the type given to the new
subpipe. -/
def upipe_trickp_sub_alloc_type (flow_def : FlowDef) : upipe_trickp_sub_type :=
  match flow_def.def_str with
  | some d =>
    if ubase_ncmp d "pic.sub." then
      if !ubase_ncmp d "pic." then upipe_trickp_sub_type.UPIPE_TRICKP_PIC
      else upipe_trickp_sub_type.UPIPE_TRICKP_SOUND
    else upipe_trickp_sub_type.UPIPE_TRICKP_SUBPIC
  | none => upipe_trickp_sub_type.UPIPE_TRICKP_SUBPIC

/-- `upipe_trickp_sub_alloc`: allocates an output subpipe of a trickp pipe, for
the flow definition `upipe_trickp_sub_alloc_flow` hands back; the new subpipe is
added to the list of subs. When the allocation fails nothing changes. The
`ready` event and the reference taken on the trickp pipe are not recorded. -/
def upipe_trickp_sub_alloc (env : Env) (t : upipe_trickp) (flow_def : FlowDef) :
    upipe_trickp × List Action :=
  if env.alloc then
    let r := helper_store_flow_def helper_init_output (some flow_def)
    ({ t with subs := t.subs ++ [{ toOutputHelper := r.1,
                                   type := upipe_trickp_sub_alloc_type flow_def,
                                   urefs := [], blockers := [] }] }, r.2)
  else (t, [])

/-- The definition string `d` begins with `start`. -/
def begins_with (d start : String) : Prop :=
  ∃ rest : List Char, d.toList = start.toList ++ rest

/-- Modelled from the spec: `UPIPE_TRICKP_SIGNATURE` (`upipe_trickplay.h` is not
among the sources), the "four-byte tag" of the trickp manager,
`UBASE_FOURCC('t','r','c','k')`. -/
def UPIPE_TRICKP_SIGNATURE : Nat := 0x6b637274

/-- Control commands a trickp pipe is sent: the four it handles, with their
arguments, and any other one. -/
inductive upipe_trickp_command where
  | UPIPE_GET_UCLOCK
  | UPIPE_SET_UCLOCK (uclock : Option Nat)
  | UPIPE_TRICKP_GET_RATE (signature : Nat)
  | UPIPE_TRICKP_SET_RATE (signature : Nat) (rate : urational)
  | other
deriving DecidableEq, Repr

/-- What a control command hands back: the returned boolean and what it wrote
through its pointer argument, if anything. -/
structure upipe_trickp_reply where
  ret : Bool
  uclock_p : Option (Option Nat)
  rate_p : Option urational
deriving DecidableEq, Repr

/-- Modelled from the spec: `upipe_trickp_set_uclock` of `UPIPE_HELPER_UCLOCK`
(`upipe_helper_uclock.h` is not among the sources) replaces the clock; it
returns true. -/
def upipe_trickp_set_uclock (t : upipe_trickp) (uclock : Option Nat) : upipe_trickp × Bool :=
  ({ t with uclock := uclock }, true)

/-- Modelled from the spec: `upipe_trickp_get_uclock` of `UPIPE_HELPER_UCLOCK`
(`upipe_helper_uclock.h` is not among the sources) hands back the clock; it
returns true. -/
def upipe_trickp_get_uclock (t : upipe_trickp) : Option Nat × Bool :=
  (t.uclock, true)

/-- `upipe_trickp_control`: processes control commands on a trickp pipe. -/
def upipe_trickp_control (env : Env) (t : upipe_trickp) :
    upipe_trickp_command → Except Fault (upipe_trickp × List Action × upipe_trickp_reply)
  | upipe_trickp_command.UPIPE_GET_UCLOCK =>
    let r := upipe_trickp_get_uclock t
    .ok (t, [], { ret := r.2, uclock_p := some r.1, rate_p := none })
  | upipe_trickp_command.UPIPE_SET_UCLOCK uclock =>
    let r := upipe_trickp_set_uclock (upipe_trickp_reset_uclock t) uclock
    .ok (r.1, [], { ret := r.2, uclock_p := none, rate_p := none })
  | upipe_trickp_command.UPIPE_TRICKP_GET_RATE signature =>
    if signature = UPIPE_TRICKP_SIGNATURE then
      let r := _upipe_trickp_get_rate t
      .ok (t, [], { ret := r.2, uclock_p := none, rate_p := some r.1 })
    else .error Fault.assert
  | upipe_trickp_command.UPIPE_TRICKP_SET_RATE signature rate =>
    if signature = UPIPE_TRICKP_SIGNATURE then
      match _upipe_trickp_set_rate env t rate with
      | .error e => .error e
      | .ok r => .ok (r.1, r.2.1, { ret := r.2.2, uclock_p := none, rate_p := none })
    else .error Fault.assert
  | upipe_trickp_command.other =>
    .ok (t, [], { ret := false, uclock_p := none, rate_p := none })

/-- The `UPIPE_SET_OUTPUT` branch of `upipe_trickp_sub_control` on subpipe `i`:
`upipe_trickp_sub_set_output`. -/
def upipe_trickp_sub_set_output (t : upipe_trickp) (i : Nat) (output : Option Nat) :
    upipe_trickp × List Action :=
  match t.subs.get? i with
  | none => (t, [])
  | some sub =>
    let r := helper_set_output sub.toOutputHelper output
    (upipe_trickp_set_sub t i { sub with toOutputHelper := r.1 }, r.2)

/-- What the surroundings do to a trickp pipe in the scenarios: feed a record
to the subpipe of the given index (with no pump), or set the rate. -/
inductive TrickpOp where
  | sub_input (i : Nat) (uref : Uref)
  | set_rate (rate : urational)
deriving DecidableEq, Repr

/-- A sequence of operations on a trickp pipe, effects concatenated. -/
def upipe_trickp_steps (env : Env) (t : upipe_trickp) :
    List TrickpOp → Except Fault (upipe_trickp × List Action)
  | [] => .ok (t, [])
  | op :: ops =>
    match (match op with
           | TrickpOp.sub_input i uref => upipe_trickp_sub_input env t i uref none
           | TrickpOp.set_rate rate =>
             match upipe_trickp_control env t
                 (upipe_trickp_command.UPIPE_TRICKP_SET_RATE UPIPE_TRICKP_SIGNATURE rate) with
             | .error e => .error e
             | .ok r => .ok (r.1, r.2.1)) with
    | .error e => .error e
    | .ok r1 =>
      match upipe_trickp_steps env r1.1 ops with
      | .error e => .error e
      | .ok r2 => .ok (r2.1, r1.2 ++ r2.2)

/-- The pipe of scenario S4: a trickp pipe at rate 1/1 with a clock, a picture
subpipe wired to output 1 and a sound subpipe wired to output 2. -/
def S4_pipe : upipe_trickp :=
  let t0 : upipe_trickp := { upipe_trickp_alloc with uclock := some 0 }
  let t1 := (upipe_trickp_sub_alloc example_env t0 ⟨some "pic.", 0⟩).1
  let t2 := (upipe_trickp_sub_alloc example_env t1 ⟨some "sound.", 0⟩).1
  let t3 := (upipe_trickp_sub_set_output t2 0 (some 1)).1
  (upipe_trickp_sub_set_output t3 1 (some 2)).1

/-- A record with the given pts and nothing else. -/
def uref_with_pts (pts : Nat) : Uref :=
  { mk_uref false false [] with pts := some pts }

/-- The operations of scenario S4: picture pts 1000, then sound pts 1500. -/
def S4_ops : List TrickpOp :=
  [TrickpOp.sub_input 0 (uref_with_pts 1000), TrickpOp.sub_input 1 (uref_with_pts 1500)]

/-- The data records output `o` receives, in order. -/
def received_data (o : Nat) (acts : List Action) : List Uref :=
  (received o acts).filterMap (fun x =>
    match x with
    | Sum.inr u => some u
    | Sum.inl _ => none)

/-- What is observed of an emitted record: its pts, its pts-sys and its rate
attribute. -/
structure Stamp where
  pts : Option Nat
  sys : Option Nat
  rate : Option urational
deriving DecidableEq, Repr

/-- What S4 and its continuations observe of the stage: `ts_origin`,
`systime_offset`, and the data records the picture output (1) and the sound
output (2) received. -/
structure Observed where
  ts_origin : Nat
  systime_offset : Nat
  picture : List Stamp
  sound : List Stamp
deriving DecidableEq, Repr

/-- What S4 and its continuations observe after the given operations on the
S4 pipe. -/
def S4_outcome (ops : List TrickpOp) : Option Observed :=
  match upipe_trickp_steps example_env S4_pipe ops with
  | .ok r =>
    some { ts_origin := r.1.ts_origin, systime_offset := r.1.systime_offset,
           picture := (received_data 1 r.2).map (fun u => ⟨u.pts, u.pts_sys, u.rate⟩),
           sound := (received_data 2 r.2).map (fun u => ⟨u.pts, u.pts_sys, u.rate⟩) }
  | .error _ => none

/-- The operations of scenario S5 after S4: set-rate 1/2, then picture pts 2000. -/
def S5_ops : List TrickpOp :=
  [TrickpOp.set_rate ⟨1, 2⟩, TrickpOp.sub_input 0 (uref_with_pts 2000)]

/-- The records held by the subpipes after the given operations on the S4
pipe, as pts per subpipe. -/
def S4_held (ops : List TrickpOp) : Option (List (List (Option Nat))) :=
  match upipe_trickp_steps example_env S4_pipe ops with
  | .ok r => some (r.1.subs.map (fun sub => sub.urefs.map (fun u => u.pts)))
  | .error _ => none

/-- The stage of scenario S1: a freshly allocated ts_psim pipe whose flow
definition is stored and whose output is wired to output 1. -/
def S1_stage : upipe_ts_psim :=
  let h1 := (helper_store_flow_def upipe_ts_psim_alloc.toOutputHelper
    (some ⟨some "block.mpegtspsi.", 0⟩)).1
  { upipe_ts_psim_alloc with toOutputHelper := (helper_set_output h1 (some 1)).1 }

/-- The three records of scenario S1, each flagged unit-start. -/
def S1_urefs : List Uref :=
  [mk_uref false true [0x02, 0x00, 0x00, 0x0C, 0xAA, 0xBB, 0xCC],
   mk_uref false true [0xDD, 0xEE, 0xFF, 0x11, 0x22, 0x33],
   mk_uref false true [0x44, 0x55]]

/-- What a run of the merge stage shows: the payloads delivered to the
output, the events thrown, the payload of the accumulator and the acquired
state at the end. -/
structure PsimObserved where
  delivered : List (List Nat)
  thrown : List Event
  next_uref : Option (List Nat)
  acquired : Bool
deriving DecidableEq, Repr

/-- What the run of the merge stage on the given records shows. -/
def psim_outcome (s : upipe_ts_psim) (urefs : List Uref) : Option PsimObserved :=
  match upipe_ts_psim_run example_env s urefs with
  | .ok r =>
    some { delivered := delivered r.2, thrown := thrown r.2,
           next_uref := r.1.next_uref.map (fun u => u.block), acquired := r.1.acquired }
  | .error _ => none

/-! ## Ownership of records in `upipe_ts_psi_merge.c`

The functions of the merge stage once more, each `uref_free`, `uref_dup` and
handing over of a record labelled with the record's role: the input record of
the call, the accumulator `next_uref`, or a record inside
`STRUCTURE##_output`. -/

/-- What happens to the ownership of a record, or another effect. -/
inductive Own where
  /-- `upipe_ts_psim_input` is called with the record: the stage owns it -/
  | received (u : Uref)
  /-- `uref_free(uref)` in `upipe_ts_psim_input` -/
  | input_free (u : Uref)
  /-- `upipe_ts_psim->next_uref = uref_dup(uref)` in `upipe_ts_psim_merge` -/
  | acc_new (u : Uref)
  /-- `uref_free(upipe_ts_psim->next_uref)` in `upipe_ts_psim_flush` or in
  `upipe_ts_psim_free` -/
  | acc_free (u : Uref)
  /-- `upipe_ts_psim_output(upipe, upipe_ts_psim->next_uref, upump)` followed by
  `next_uref = NULL`: the accumulator enters `STRUCTURE##_output` -/
  | handed (u : Uref)
  /-- `upipe_input(STRUCTURE->OUTPUT, uref, upump)` in `STRUCTURE##_output` -/
  | forwarded (o : Nat) (u : Uref)
  /-- `uref_free(uref)` in `STRUCTURE##_output` -/
  | out_free (u : Uref)
  /-- an effect that moves no data record -/
  | other (a : Action)
deriving DecidableEq, Repr

/-- The effects behind a list of ownership events: the labels removed. -/
def own_erase : List Own → List Action
  | [] => []
  | Own.received _ :: es => own_erase es
  | Own.input_free u :: es => Action.free u :: own_erase es
  | Own.acc_new _ :: es => own_erase es
  | Own.acc_free u :: es => Action.free u :: own_erase es
  | Own.handed u :: es => Action.output u :: own_erase es
  | Own.forwarded o u :: es => Action.input o u :: own_erase es
  | Own.out_free u :: es => Action.free u :: own_erase es
  | Own.other a :: es => a :: own_erase es

/-- `STRUCTURE##_output`, labelled. -/
def helper_output_own (env : Env) (h : OutputHelper) (uref : Uref) :
    Except Fault (OutputHelper × List Own) :=
  let r1 : OutputHelper × List Action :=
    match h.output, h.flow_def with
    | none, some f => helper_throw_need_output env h f
    | _, _ => (h, [])
  match r1.1.output with
  | none => .ok (r1.1, Own.handed uref :: (r1.2.map Own.other ++ [Own.out_free uref]))
  | some o =>
    match (if r1.1.flow_def_sent then .ok (r1.1, [])
           else helper_flow_def env r1.1) with
    | .error e => .error e
    | .ok r2 =>
      if r2.1.flow_def_sent then
        .ok (r2.1, Own.handed uref ::
          (r1.2.map Own.other ++ r2.2.map Own.other ++ [Own.forwarded o uref]))
      else
        .ok (r2.1, Own.handed uref ::
          (r1.2.map Own.other ++ r2.2.map Own.other ++ [Own.out_free uref]))

/-- `upipe_ts_psim_output`, labelled. -/
def upipe_ts_psim_output_own (env : Env) (s : upipe_ts_psim) (uref : Uref) :
    Except Fault (upipe_ts_psim × List Own) :=
  match helper_output_own env s.toOutputHelper uref with
  | .error e => .error e
  | .ok r => .ok ({ s with toOutputHelper := r.1 }, r.2)

/-- `upipe_ts_psim_flush`, labelled. -/
def upipe_ts_psim_flush_own (s : upipe_ts_psim) : upipe_ts_psim × List Own :=
  match s.next_uref with
  | some acc =>
    let r := upipe_ts_psim_sync_lost { s with next_uref := none }
    (r.1, Own.acc_free acc :: r.2.map Own.other)
  | none =>
    let r := upipe_ts_psim_sync_lost s
    (r.1, r.2.map Own.other)

/-- Lines 155-196 of `upipe_ts_psim_merge`, labelled. -/
def upipe_ts_psim_merge_section_own (env : Env) (s : upipe_ts_psim) (acc uref : Uref) :
    Except Fault (upipe_ts_psim × Uref × List Own × Bool) :=
  let size := acc.block.length
  if size < PSI_HEADER_SIZE then
    .ok ({ s with next_uref := some acc }, uref, [], false)
  else
    let length := psi_get_length (acc.block.take PSI_HEADER_SIZE)
    if length + PSI_HEADER_SIZE > PSI_PRIVATE_MAX_SIZE then
      let r := upipe_ts_psim_flush_own { s with next_uref := some acc }
      .ok (r.1, uref, r.2, false)
    else if length + PSI_HEADER_SIZE > size then
      .ok ({ s with next_uref := some acc }, uref, [], false)
    else
      match uref_block_resize acc 0 (length + PSI_HEADER_SIZE : Nat) with
      | none => .error Fault.assert
      | some out =>
        match upipe_ts_psim_output_own env { s with next_uref := some out } out with
        | .error e => .error e
        | .ok r =>
          if length + PSI_HEADER_SIZE = size then
            .ok ({ r.1 with next_uref := none }, uref, r.2, false)
          else
            let uref_size := uref.block.length
            match uref_block_resize uref
                (((length + PSI_HEADER_SIZE : Nat) : Int) -
                  (((size : Int) - (uref_size : Int)))) (-1) with
            | none => .error Fault.assert
            | some rest => .ok ({ r.1 with next_uref := none }, rest, r.2, true)

/-- `upipe_ts_psim_merge`, labelled. -/
def upipe_ts_psim_merge_own (env : Env) (s : upipe_ts_psim) (uref : Uref) :
    Except Fault (upipe_ts_psim × Uref × List Own × Bool) :=
  match s.next_uref with
  | some acc =>
    if env.alloc then
      upipe_ts_psim_merge_section_own env s (uref_block_append acc uref.block) uref
    else
      let r := upipe_ts_psim_flush_own s
      .ok (r.1, uref, r.2 ++ [Own.other (Action.throw Event.fatal)], false)
  | none =>
    match uref_block_extract uref 0 1 with
    | some (table_id :: _) =>
      if table_id = 0xff then .ok (s, uref, [], false)
      else if env.alloc then
        match upipe_ts_psim_merge_section_own env s uref uref with
        | .error e => .error e
        | .ok r => .ok (r.1, r.2.1, Own.acc_new uref :: r.2.2.1, r.2.2.2)
      else .ok (s, uref, [Own.other (Action.throw Event.fatal)], false)
    | _ => .ok (s, uref, [], false)

/-- The merge loop, labelled. -/
def upipe_ts_psim_merge_loop_own (env : Env) :
    Nat → upipe_ts_psim → Uref → Except Fault (upipe_ts_psim × Uref × List Own)
  | 0, _, _ => .error Fault.fuel
  | fuel + 1, s, uref =>
    match upipe_ts_psim_merge_own env s uref with
    | .error e => .error e
    | .ok (s1, uref1, a1, false) => .ok (s1, uref1, a1)
    | .ok (s1, uref1, a1, true) =>
      match upipe_ts_psim_merge_loop_own env fuel s1 uref1 with
      | .error e => .error e
      | .ok (s2, uref2, a2) => .ok (s2, uref2, a1 ++ a2)

/-- Lines 238-239 of `upipe_ts_psim_input`, labelled. -/
def upipe_ts_psim_input_sections_own (env : Env) (s : upipe_ts_psim) (uref : Uref) :
    Except Fault (upipe_ts_psim × List Own) :=
  match upipe_ts_psim_merge_loop_own env (uref.block.length + 2) s uref with
  | .error e => .error e
  | .ok (s1, uref1, a1) => .ok (s1, a1 ++ [Own.input_free uref1])

/-- Lines 212-240 of `upipe_ts_psim_input`, labelled. -/
def upipe_ts_psim_input_start_own (env : Env) (s : upipe_ts_psim) (uref : Uref) :
    Except Fault (upipe_ts_psim × List Own) :=
  if uref.start then
    if s.acquired then
      match uref_block_resize uref 1 (-1) with
      | none =>
        let r := upipe_ts_psim_flush_own s
        .ok (r.1, Own.input_free uref :: r.2)
      | some u1 =>
        upipe_ts_psim_input_sections_own env s (uref_block_delete_start u1)
    else
      match uref_block_extract uref 0 1 with
      | some (pointer_field :: _) =>
        match uref_block_resize uref (1 + (pointer_field : Int)) (-1) with
        | none => .ok (s, [Own.input_free uref])
        | some u1 =>
          let r := upipe_ts_psim_sync_acquired s
          match upipe_ts_psim_input_sections_own env r.1 (uref_block_delete_start u1) with
          | .error e => .error e
          | .ok r2 => .ok (r2.1, r.2.map Own.other ++ r2.2)
      | _ => .ok (s, [Own.input_free uref])
  else if s.next_uref = none then
    let r := upipe_ts_psim_flush_own s
    .ok (r.1, Own.input_free uref :: r.2)
  else upipe_ts_psim_input_sections_own env s uref

/-- `upipe_ts_psim_input`, labelled: the call gives the record to the stage. -/
def upipe_ts_psim_input_own (env : Env) (s : upipe_ts_psim) (uref : Uref) :
    Except Fault (upipe_ts_psim × List Own) :=
  if uref.discontinuity then
    let r := upipe_ts_psim_flush_own s
    match upipe_ts_psim_input_start_own env r.1 uref with
    | .error e => .error e
    | .ok r2 => .ok (r2.1, Own.received uref :: (r.2 ++ r2.2))
  else
    match upipe_ts_psim_input_start_own env s uref with
    | .error e => .error e
    | .ok r2 => .ok (r2.1, Own.received uref :: r2.2)

/-- `STRUCTURE##_clean_output`: cleans up the private members of the helper. -/
def helper_clean_output (h : OutputHelper) : List Action :=
  (match h.output with
    | some o => [Action.release o]
    | none => []) ++
  (match h.flow_def with
    | some f => [Action.free_flow_def f]
    | none => [])

/-- `upipe_ts_psim_free`: frees a pipe. -/
def upipe_ts_psim_free (s : upipe_ts_psim) : List Action :=
  Action.throw Event.dead :: (helper_clean_output s.toOutputHelper ++
    (match s.next_uref with
      | some acc => [Action.free acc]
      | none => []))

/-- `upipe_ts_psim_free`, labelled. -/
def upipe_ts_psim_free_own (s : upipe_ts_psim) : List Own :=
  Own.other (Action.throw Event.dead) ::
    ((helper_clean_output s.toOutputHelper).map Own.other ++
    (match s.next_uref with
      | some acc => [Own.acc_free acc]
      | none => []))

/-- The pipe fed a sequence of records, labelled. -/
def upipe_ts_psim_run_own (env : Env) (s : upipe_ts_psim) :
    List Uref → Except Fault (upipe_ts_psim × List Own)
  | [] => .ok (s, [])
  | uref :: urefs =>
    match upipe_ts_psim_input_own env s uref with
    | .error e => .error e
    | .ok r1 =>
      match upipe_ts_psim_run_own env r1.1 urefs with
      | .error e => .error e
      | .ok r2 => .ok (r2.1, r1.2 ++ r2.2)

/-- The life of a pipe from state `s`: fed a sequence of records, then freed. -/
def upipe_ts_psim_life_own (env : Env) (s : upipe_ts_psim) (urefs : List Uref) :
    Except Fault (List Own) :=
  match upipe_ts_psim_run_own env s urefs with
  | .error e => .error e
  | .ok r => .ok (r.2 ++ upipe_ts_psim_free_own r.1)

/-- The records the stage owns at a point of its execution: whether it holds
the input record of the current call, whether it holds an accumulator, and
the record inside `STRUCTURE##_output`, if one is. -/
structure Ledger where
  input_live : Bool
  acc_live : Bool
  in_output : Option Uref
deriving DecidableEq, Repr

/-- One ownership event on the ledger; `none` when the event releases a
record that is not owned (a double free, or a record forwarded and freed) or
overwrites one that is (a leak). -/
def ledger_step (l : Ledger) : Own → Option Ledger
  | Own.received _ =>
    if l.input_live then none else some { l with input_live := true }
  | Own.input_free _ =>
    if l.input_live then some { l with input_live := false } else none
  | Own.acc_new _ =>
    if l.acc_live then none else some { l with acc_live := true }
  | Own.acc_free _ =>
    if l.acc_live then some { l with acc_live := false } else none
  | Own.handed u =>
    if l.acc_live ∧ l.in_output = none then
      some { l with acc_live := false, in_output := some u }
    else none
  | Own.forwarded _ u =>
    if l.in_output = some u then some { l with in_output := none } else none
  | Own.out_free u =>
    if l.in_output = some u then some { l with in_output := none } else none
  | Own.other _ => some l

/-- A list of ownership events on the ledger, in order. -/
def ledger (l : Ledger) : List Own → Option Ledger
  | [] => some l
  | e :: es =>
    match ledger_step l e with
    | none => none
    | some l1 => ledger l1 es

/-- The accumulator, if there is one, holds a strictly incomplete section:
fewer than 3 bytes, or fewer bytes than its header announces. -/
def acc_incomplete (s : upipe_ts_psim) : Prop :=
  ∀ acc, s.next_uref = some acc →
    acc.block.length < PSI_HEADER_SIZE ∨
    acc.block.length < psi_get_length (acc.block.take PSI_HEADER_SIZE) + PSI_HEADER_SIZE

/-- The kinds of ownership events. -/
inductive OwnKind where
  | received
  | input_free
  | acc_new
  | acc_free
  | handed
  | forwarded
  | out_free
  | other
deriving DecidableEq, Repr

/-- The kind of an ownership event. -/
def own_kind : Own → OwnKind
  | Own.received _ => OwnKind.received
  | Own.input_free _ => OwnKind.input_free
  | Own.acc_new _ => OwnKind.acc_new
  | Own.acc_free _ => OwnKind.acc_free
  | Own.handed _ => OwnKind.handed
  | Own.forwarded _ _ => OwnKind.forwarded
  | Own.out_free _ => OwnKind.out_free
  | Own.other _ => OwnKind.other

/-- How many events of a kind a list holds. -/
def own_count (k : OwnKind) (evs : List Own) : Nat :=
  (evs.map own_kind).count k

/-! ## `upipe_ts_psim_set_flow_def` -/

/-- `EXPECTED_FLOW_DEF` of `upipe_ts_psi_merge.c`: "we only accept formerly TS
packets that contain PSI sections". -/
def EXPECTED_FLOW_DEF : String := "block.mpegtspsi."

/-- Modelled from the spec: `uref_flow_match_def` (`uref_flow.h` is not among
the sources), "input flow definition must begin with" the expected string:
the flow definition carries a definition string and `ubase_ncmp` finds the
expected beginning in it. -/
def uref_flow_match_def (flow_def : FlowDef) (d : String) : Bool :=
  match flow_def.def_str with
  | some s => !ubase_ncmp s d
  | none => false

/-- `upipe_ts_psim_set_flow_def`: sets the input flow definition. The boolean
is false if the flow definition is not handled. -/
def upipe_ts_psim_set_flow_def (env : Env) (s : upipe_ts_psim) (flow_def : Option FlowDef) :
    upipe_ts_psim × List Action × Bool :=
  match flow_def with
  | none => (s, [], false)
  | some f =>
    if !uref_flow_match_def f EXPECTED_FLOW_DEF then (s, [], false)
    else if env.alloc then
      let r := helper_store_flow_def s.toOutputHelper (some f)
      ({ s with toOutputHelper := r.1 }, r.2, true)
    else (s, [Action.throw Event.fatal], false)

/-- The flow definition is non-null and its definition string begins with
"block.mpegtspsi.". -/
def psim_acceptable (flow_def : Option FlowDef) : Prop :=
  ∃ f d, flow_def = some f ∧ f.def_str = some d ∧ begins_with d "block.mpegtspsi."

/-- The accumulator, if there is one, is a strictly incomplete section: at
least one byte, the first one not 0xFF, and fewer than 3 bytes or fewer than
the `length + 3 ≤ 4096` bytes its header announces. -/
def acc_strict (s : upipe_ts_psim) : Prop :=
  ∀ acc, s.next_uref = some acc →
    0 < acc.block.length ∧ acc.block.head? ≠ some 0xff ∧
    (acc.block.length < PSI_HEADER_SIZE ∨
      (acc.block.length < psi_get_length (acc.block.take PSI_HEADER_SIZE) + PSI_HEADER_SIZE ∧
        psi_get_length (acc.block.take PSI_HEADER_SIZE) + PSI_HEADER_SIZE
          ≤ PSI_PRIVATE_MAX_SIZE))

/-! ## `upipe_avcodec_decode.c`

The open of the codec and the held queue of the decoder stage. The foreign
codec library is seen through its outcomes only. -/

/-- Modelled from the spec: the media types of the foreign codec library
(`libavutil/avutil.h` is not among the sources) the stage tells apart. -/
inductive AVMediaType where
  | AVMEDIA_TYPE_VIDEO
  | AVMEDIA_TYPE_AUDIO
  | AVMEDIA_TYPE_UNKNOWN
deriving DecidableEq, Repr

/-- Modelled from the spec: what the stage reads of the `AVCodecContext` of the
foreign codec library (`libavcodec/avcodec.h` is not among the sources): the
type of its codec, and what `avcodec_is_open` answers. -/
structure AVCodecContext where
  codec_type : AVMediaType
  is_open : Bool
deriving DecidableEq, Repr

/-- What the surroundings of an avcdec pipe decide: whether `malloc` succeeds,
whether `avcodec_open2` succeeds, the pump `upipe_av_deal_upump_alloc` returns
(if any) and whether `upipe_av_deal_grab` obtains the exclusive access. -/
structure AvEnv where
  malloc : Bool
  avcodec_open2 : Bool
  upipe_av_deal_upump_alloc : Option Nat
  upipe_av_deal_grab : Bool

/-- Effects of an avcdec pipe, in program order. Pumps are named by numbers. -/
inductive AvAction where
  /-- `upipe_throw_fatal` -/
  | throw_fatal
  /-- `upipe_throw_dead` -/
  | throw_dead
  /-- `uref_free` -/
  | free (u : Uref)
  /-- a pump blocked by `block_sink` -/
  | block (p : Nat)
  /-- the blockers of the sink released by `unblock_sink` -/
  | unblock (ps : List Nat)
  /-- `avcodec_open2` -/
  | avcodec_open2
  /-- `avcodec_close` -/
  | avcodec_close
  /-- `upipe_av_deal_start` -/
  | upipe_av_deal_start (p : Nat)
  /-- `upipe_av_deal_abort` -/
  | upipe_av_deal_abort (p : Nat)
  /-- `upipe_av_deal_yield` -/
  | upipe_av_deal_yield (p : Nat)
  /-- `upump_free` -/
  | upump_free (p : Nat)
  /-- the packet of a record given to `upipe_avcdec_decode_avpkt` -/
  | decode_avpkt (u : Uref)
deriving DecidableEq, Repr

/-- Private context of an avcdec pipe: the members the open of the codec and
the held queue use. -/
structure upipe_avcdec where
  /-- upump mgr -/
  upump_mgr : Option Nat
  /-- avcodec_open watcher -/
  upump_av_deal : Option Nat
  /-- temporary uref storage (used during udeal) -/
  urefs : List Uref
  /-- list of blockers (used during udeal) -/
  blockers : List Nat
  /-- frame counter -/
  counter : Nat
  /-- latest incoming uref -/
  uref : Option Uref
  /-- avcodec context -/
  context : Option AVCodecContext
  /-- true if the context will be closed -/
  close : Bool
deriving DecidableEq, Repr

/-- Modelled from the spec: `upipe_avcdec_hold_sink` of `UPIPE_HELPER_SINK`
(`upipe_helper_sink.h` is not among the sources): "incoming records are
appended to an internal queue". -/
def upipe_avcdec_hold_sink (s : upipe_avcdec) (uref : Uref) : upipe_avcdec :=
  { s with urefs := s.urefs ++ [uref] }

/-- Modelled from the spec: `upipe_avcdec_block_sink` of `UPIPE_HELPER_SINK`
(`upipe_helper_sink.h` is not among the sources): "the producing pump is asked
to pause", if there is one and it is not blocked yet. -/
def upipe_avcdec_block_sink (s : upipe_avcdec) (upump : Option Nat) :
    upipe_avcdec × List AvAction :=
  match upump with
  | none => (s, [])
  | some p =>
    if p ∈ s.blockers then (s, [])
    else ({ s with blockers := s.blockers ++ [p] }, [AvAction.block p])

/-- Modelled from the spec: `upipe_avcdec_unblock_sink` of `UPIPE_HELPER_SINK`
(`upipe_helper_sink.h` is not among the sources) releases every blocker. -/
def upipe_avcdec_unblock_sink (s : upipe_avcdec) : upipe_avcdec × List AvAction :=
  ({ s with blockers := [] }, [AvAction.unblock s.blockers])

/-- Modelled from the spec: `upipe_avcdec_flush_sink` of `UPIPE_HELPER_SINK`
(`upipe_helper_sink.h` is not among the sources): "the queue is flushed", every
held record is freed. -/
def upipe_avcdec_flush_sink (s : upipe_avcdec) : upipe_avcdec × List AvAction :=
  ({ s with urefs := [] }, s.urefs.map AvAction.free)

/-- `upipe_avcdec_decode`: decodes packets. It always returns true. -/
def upipe_avcdec_decode (env : AvEnv) (s : upipe_avcdec) (uref : Uref) :
    upipe_avcdec × List AvAction × Bool :=
  if uref.block.length = 0 then (s, [AvAction.free uref], true)
  else if env.malloc then
    ({ s with counter := (s.counter + 1) % 2 ^ 64, uref := some uref },
     [AvAction.decode_avpkt uref], true)
  else (s, [AvAction.free uref, AvAction.throw_fatal], true)

/-- The loop of `upipe_avcdec_output_sink` over the held queue: the result
carries the records still held. -/
def upipe_avcdec_output_sink_loop (env : AvEnv) :
    upipe_avcdec → List Uref → upipe_avcdec × List Uref × List AvAction
  | s, [] => (s, [], [])
  | s, uref :: urefs =>
    let r := upipe_avcdec_decode env s uref
    if r.2.2 then
      let r2 := upipe_avcdec_output_sink_loop env r.1 urefs
      (r2.1, r2.2.1, r.2.1 ++ r2.2.2)
    else (r.1, uref :: urefs, r.2.1)

/-- Modelled from the spec: `upipe_avcdec_output_sink` of `UPIPE_HELPER_SINK`
(`upipe_helper_sink.h` is not among the sources): "the queue is drained"
through `upipe_avcdec_decode`, stopping at the first record it refuses. -/
def upipe_avcdec_output_sink (env : AvEnv) (s : upipe_avcdec) :
    upipe_avcdec × List AvAction :=
  let r := upipe_avcdec_output_sink_loop env s s.urefs
  ({ r.1 with urefs := r.2.1 }, r.2.2)

/-- `upipe_avcdec_abort_av_deal`: aborts and frees an existing upump watching
for exclusive access to `avcodec_open()`. -/
def upipe_avcdec_abort_av_deal (s : upipe_avcdec) : upipe_avcdec × List AvAction :=
  match s.upump_av_deal with
  | some p =>
    ({ s with upump_av_deal := none },
     [AvAction.upipe_av_deal_abort p, AvAction.upump_free p])
  | none => (s, [])

/-- `upipe_avcdec_free`: frees a upipe, as far as the members above go. The
held records are released ("in-flight records in held queues are freed",
`upipe_avcdec_clean_sink` modelled from the spec). -/
def upipe_avcdec_free (s : upipe_avcdec) : upipe_avcdec × List AvAction :=
  let r := upipe_avcdec_abort_av_deal { s with context := none }
  ({ r.1 with urefs := [], blockers := [] },
   AvAction.throw_dead :: (r.2 ++ r.1.urefs.map AvAction.free))

/-- `upipe_avcdec_do_av_deal`: actually calls `avcodec_open()`. The boolean is
false if the buffers mustn't be dequeued. -/
def upipe_avcdec_do_av_deal (env : AvEnv) (s : upipe_avcdec) :
    Except Fault (upipe_avcdec × List AvAction × Bool) :=
  match s.context with
  | none => .error Fault.null_deref
  | some context =>
    if s.close then
      .ok ({ s with context := some { context with is_open := false } },
           [AvAction.avcodec_close], false)
    else if context.codec_type = AVMediaType.AVMEDIA_TYPE_UNKNOWN then .ok (s, [], false)
    else if env.avcodec_open2 then
      .ok ({ s with context := some { context with is_open := true } },
           [AvAction.avcodec_open2], true)
    else .ok (s, [AvAction.avcodec_open2, AvAction.throw_fatal], false)

/-- `upipe_avcdec_cb_av_deal`: called to try an exclusive access on
`avcodec_open()` or `avcodec_close()`, by the pump `upump`. The pump freed is
the one stored in `upump_av_deal`; the callback running with none stored is
outside what the sources show and is rendered as a fault. -/
def upipe_avcdec_cb_av_deal (env : AvEnv) (s : upipe_avcdec) (upump : Nat) :
    Except Fault (upipe_avcdec × List AvAction) :=
  if env.upipe_av_deal_grab then
    match upipe_avcdec_do_av_deal env s with
    | .error e => .error e
    | .ok (s1, a1, ret) =>
      match s1.upump_av_deal with
      | none => .error Fault.null_deref
      | some p =>
        let s2 : upipe_avcdec := { s1 with upump_av_deal := none }
        let a2 := [AvAction.upipe_av_deal_yield upump, AvAction.upump_free p]
        if s2.close then
          let f := upipe_avcdec_free s2
          .ok (f.1, a1 ++ a2 ++ f.2)
        else
          let r := if ret then upipe_avcdec_output_sink env s2
                   else upipe_avcdec_flush_sink s2
          let u := upipe_avcdec_unblock_sink r.1
          .ok (u.1, a1 ++ a2 ++ r.2 ++ u.2)
  else .ok (s, [])

/-- `upipe_avcdec_start_av_deal`: called to trigger `avcodec_open()` or
`avcodec_close()`. -/
def upipe_avcdec_start_av_deal (env : AvEnv) (s : upipe_avcdec) :
    Except Fault (upipe_avcdec × List AvAction) :=
  let r := upipe_avcdec_abort_av_deal s
  match r.1.upump_mgr with
  | none =>
    match upipe_avcdec_do_av_deal env r.1 with
    | .error e => .error e
    | .ok (s1, a1, _) =>
      if s1.close then
        let f := upipe_avcdec_free s1
        .ok (f.1, r.2 ++ a1 ++ f.2)
      else .ok (s1, r.2 ++ a1)
  | some _ =>
    match env.upipe_av_deal_upump_alloc with
    | none => .ok (r.1, r.2 ++ [AvAction.throw_fatal])
    | some p =>
      .ok ({ r.1 with upump_av_deal := some p }, r.2 ++ [AvAction.upipe_av_deal_start p])

/-- `upipe_avcdec_open`: called to trigger `avcodec_open()`. -/
def upipe_avcdec_open (env : AvEnv) (s : upipe_avcdec) :
    Except Fault (upipe_avcdec × List AvAction) :=
  upipe_avcdec_start_av_deal env { s with close := false }

/-- `upipe_avcdec_input`: handles input uref. The `while` loop is given a
bound on the number of its iterations. -/
def upipe_avcdec_input (env : AvEnv) :
    Nat → upipe_avcdec → Uref → Option Nat → Except Fault (upipe_avcdec × List AvAction)
  | 0, _, _, _ => .error Fault.fuel
  | fuel + 1, s, uref, upump =>
    match s.context with
    | none => .error Fault.null_deref
    | some context =>
      if context.is_open then
        let r := upipe_avcdec_decode env s uref
        .ok (r.1, r.2.1)
      else
        match s.upump_av_deal with
        | some _ =>
          let b := upipe_avcdec_block_sink s upump
          .ok (upipe_avcdec_hold_sink b.1 uref, b.2)
        | none =>
          match upipe_avcdec_open env s with
          | .error e => .error e
          | .ok (s1, a1) =>
            match upipe_avcdec_input env fuel s1 uref upump with
            | .error e => .error e
            | .ok (s2, a2) => .ok (s2, a1 ++ a2)

/-- Modelled from the spec: `upipe_avcdec_set_upump_av_deal` of
`UPIPE_HELPER_UPUMP` (`upipe_helper_upump.h` is not among the sources) replaces
the pump of the stage, the previous one being freed ("outstanding deal pumps
are ... freed"). -/
def upipe_avcdec_set_upump_av_deal (s : upipe_avcdec) (upump : Option Nat) :
    upipe_avcdec × List AvAction :=
  ({ s with upump_av_deal := upump },
   match s.upump_av_deal with
   | some p => [AvAction.upump_free p]
   | none => [])

/-- Modelled from the spec: `upipe_avcdec_set_upump_mgr` of
`UPIPE_HELPER_UPUMP_MGR` (`upipe_helper_upump_mgr.h` is not among the sources)
replaces the pump manager; it returns true. -/
def upipe_avcdec_set_upump_mgr (s : upipe_avcdec) (upump_mgr : Option Nat) :
    upipe_avcdec × Bool :=
  ({ s with upump_mgr := upump_mgr }, true)

/-- The `UPIPE_SET_UPUMP_MGR` branch of `upipe_avcdec_control`. -/
def upipe_avcdec_control_set_upump_mgr (s : upipe_avcdec) (upump_mgr : Option Nat) :
    upipe_avcdec × List AvAction × Bool :=
  let r1 := upipe_avcdec_set_upump_av_deal s none
  let r2 := upipe_avcdec_abort_av_deal r1.1
  let r3 := upipe_avcdec_set_upump_mgr r2.1 upump_mgr
  (r3.1, r1.2 ++ r2.2, r3.2)

/-- A pipe whose flow definition has been set (a video codec context that is
not open yet), with no pump manager. -/
def avcdec_unopened : upipe_avcdec :=
  { upump_mgr := none, upump_av_deal := none, urefs := [], blockers := [], counter := 0,
    uref := none, context := some ⟨AVMediaType.AVMEDIA_TYPE_VIDEO, false⟩, close := false }

/-- Surroundings in which `avcodec_open2` fails and no deal pump can be
allocated. -/
def avcdec_failing_env : AvEnv :=
  { malloc := true, avcodec_open2 := false, upipe_av_deal_upump_alloc := none,
    upipe_av_deal_grab := true }

/-- Surroundings in which `avcodec_open2` succeeds. -/
def avcdec_env : AvEnv :=
  { malloc := true, avcodec_open2 := true, upipe_av_deal_upump_alloc := some 5,
    upipe_av_deal_grab := true }

/-- The effects of `upipe_avcdec_decode` on a record: they do not depend on the
state of the pipe. -/
def avcdec_decode_effects (env : AvEnv) (uref : Uref) : List AvAction :=
  if uref.block.length = 0 then [AvAction.free uref]
  else if env.malloc then [AvAction.decode_avpkt uref]
  else [AvAction.free uref, AvAction.throw_fatal]

/-- A pipe with a pump manager and a codec-open deal pending on pump 5, two
records held and pump 7 blocked. -/
def avcdec_pending : upipe_avcdec :=
  { avcdec_unopened with
    upump_mgr := some 3, upump_av_deal := some 5,
    urefs := [mk_uref false false [1], mk_uref false false [2]], blockers := [7] }

/-! ## `upipe_sws.c`

The input of the scaler stage: the mapping of the planes and the sample aspect
ratio of the output record. The foreign rescaler is seen through its outcomes
only. -/

/-- Conversion of an unsigned 64-bit value to `int64_t` (two's complement). -/
def s64_of_nat (n : Nat) : Int :=
  if n % 2 ^ 64 < 2 ^ 63 then ((n % 2 ^ 64 : Nat) : Int)
  else ((n % 2 ^ 64 : Nat) : Int) - 2 ^ 64

/-- Modelled from the spec: `urational_simplify` (`urational.h` is not among the
sources), "rational arithmetic ... uses `num/den` with simplify-by-GCD":
numerator and denominator are divided by their greatest common divisor. -/
def urational_simplify (r : urational) : urational :=
  { num := r.num / ((Nat.gcd r.num.natAbs r.den : Nat) : Int),
    den := r.den / Nat.gcd r.num.natAbs r.den }

/-- Modelled from the spec: a picture record (`uref_pic.h` and `uref_pic_flow.h`
are not among the sources): the size `uref_pic_size` reports (none for a
record that holds no picture) and its sample aspect ratio attribute. -/
structure PicUref where
  size : Option (Nat × Nat)
  sar : Option urational
deriving DecidableEq, Repr

/-- Modelled from the spec: the attributes of `flow_def_attr` the input reads
(`uref_pic_flow.h` is not among the sources): the configured output size and
sample aspect ratio, each present or not. -/
structure SwsAttr where
  hsize : Option Nat
  vsize : Option Nat
  sar : Option urational
deriving DecidableEq, Repr

/-- What the surroundings of a sws pipe decide: the buffer manager the probes
set when need-ubuf-mgr is thrown (if any), whether `sws_getCachedContext`
gives a context, for each chroma whether `uref_pic_plane_read` and
`uref_pic_plane_size` succeed on the input picture, whether `ubuf_pic_alloc`
succeeds, for each chroma whether `ubuf_pic_plane_write` and
`ubuf_pic_plane_size` succeed on the output buffer, the value `sws_scale`
returns and whether `uref_pic_flow_set_sar` succeeds. -/
structure SwsEnv where
  need_ubuf_mgr : Option Nat
  sws_getCachedContext : Bool
  uref_pic_plane_read : String → Bool
  uref_pic_plane_size : String → Bool
  ubuf_pic_alloc : Bool
  ubuf_pic_plane_write : String → Bool
  ubuf_pic_plane_size : String → Bool
  sws_scale : Int
  uref_pic_flow_set_sar : Bool

/-- Effects of a sws pipe, in program order. -/
inductive SwsAction where
  /-- `upipe_throw_need_ubuf_mgr` -/
  | throw_need_ubuf_mgr
  /-- `upipe_throw_fatal` -/
  | throw_fatal
  /-- `uref_free(uref)` -/
  | uref_free
  /-- `ubuf_free(ubuf)` -/
  | ubuf_free
  /-- a successful `uref_pic_plane_read` of the input picture -/
  | uref_pic_plane_read (chroma : String)
  /-- `uref_pic_plane_unmap` of the input picture -/
  | uref_pic_plane_unmap (chroma : String)
  /-- a successful `ubuf_pic_plane_write` of the output buffer -/
  | ubuf_pic_plane_write (chroma : String)
  /-- `ubuf_pic_plane_unmap` of the output buffer -/
  | ubuf_pic_plane_unmap (chroma : String)
  /-- `sws_scale` -/
  | sws_scale
  /-- the record given to `upipe_sws_output` -/
  | output (uref : PicUref)
deriving DecidableEq, Repr

/-- Private context of a sws pipe: the members the input uses. The chroma maps
are the entries of the arrays before the first `NULL` one. -/
structure upipe_sws where
  /-- attributes added by the pipe -/
  flow_def_attr : SwsAttr
  /-- ubuf manager -/
  ubuf_mgr : Option Nat
  /-- swscale image conversion context -/
  convert_ctx : Bool
  /-- input chroma map -/
  input_chroma_map : List String
  /-- output chroma map -/
  output_chroma_map : List String
deriving DecidableEq, Repr

/-- The loop "map input" of `upipe_sws_input` (lines 153-169): the planes
mapped, and whether every plane was mapped and sized. -/
def upipe_sws_map_input (env : SwsEnv) : List String → List SwsAction × Bool
  | [] => ([], true)
  | chroma :: rest =>
    if env.uref_pic_plane_read chroma then
      if env.uref_pic_plane_size chroma then
        let r := upipe_sws_map_input env rest
        (SwsAction.uref_pic_plane_read chroma :: r.1, r.2)
      else ([SwsAction.uref_pic_plane_read chroma], false)
    else ([], false)

/-- The loop "map output" of `upipe_sws_input` (lines 184-202): the planes
mapped, and whether every plane was mapped and sized. -/
def upipe_sws_map_output (env : SwsEnv) : List String → List SwsAction × Bool
  | [] => ([], true)
  | chroma :: rest =>
    if env.ubuf_pic_plane_write chroma then
      if env.ubuf_pic_plane_size chroma then
        let r := upipe_sws_map_output env rest
        (SwsAction.ubuf_pic_plane_write chroma :: r.1, r.2)
      else ([SwsAction.ubuf_pic_plane_write chroma], false)
    else ([], false)

/-- Lines 231-240 of `upipe_sws_input`: the sample aspect ratio of the output
record, and the event thrown if it cannot be set. -/
def upipe_sws_sar (env : SwsEnv) (s : upipe_sws) (uref : PicUref)
    (input_hsize input_vsize output_hsize output_vsize : Nat) :
    PicUref × List SwsAction :=
  match s.flow_def_attr.sar with
  | some _ => ({ uref with sar := none }, [])
  | none =>
    match uref.sar with
    | some sar =>
      let sar1 : urational :=
        { num := s64_of_nat (u64_of_int sar.num * (input_hsize * output_vsize % 2 ^ 64)),
          den := sar.den * (input_vsize * output_hsize % 2 ^ 64) % 2 ^ 64 }
      if env.uref_pic_flow_set_sar then
        ({ uref with sar := some (urational_simplify sar1) }, [])
      else (uref, [SwsAction.throw_fatal])
    | none => (uref, [])

/-- Lines 130-137 of `upipe_sws_input`: the size of the output picture, the
one of the input picture when the output attributes give no size ("comes handy
in case of format conversion with no rescaling"). -/
def upipe_sws_output_size (s : upipe_sws) (input_hsize input_vsize : Nat) : Nat × Nat :=
  match s.flow_def_attr.hsize, s.flow_def_attr.vsize with
  | some h, some v => (h, v)
  | _, _ => (input_hsize, input_vsize)

/-- `upipe_sws_input`: receives incoming uref. -/
def upipe_sws_input (env : SwsEnv) (s : upipe_sws) (uref : PicUref) :
    upipe_sws × List SwsAction :=
  let r0 : upipe_sws × List SwsAction :=
    match s.ubuf_mgr with
    | some _ => (s, [])
    | none => ({ s with ubuf_mgr := env.need_ubuf_mgr }, [SwsAction.throw_need_ubuf_mgr])
  match r0.1.ubuf_mgr with
  | none => (r0.1, r0.2 ++ [SwsAction.uref_free])
  | some _ =>
    match uref.size with
    | none => (r0.1, r0.2 ++ [SwsAction.uref_free])
    | some (input_hsize, input_vsize) =>
      let output := upipe_sws_output_size r0.1 input_hsize input_vsize
      let s1 : upipe_sws := { r0.1 with convert_ctx := env.sws_getCachedContext }
      if !env.sws_getCachedContext then (s1, r0.2 ++ [SwsAction.uref_free])
      else
        let m := upipe_sws_map_input env s1.input_chroma_map
        if !m.2 then (s1, r0.2 ++ m.1 ++ [SwsAction.uref_free])
        else if !env.ubuf_pic_alloc then
          (s1, r0.2 ++ m.1 ++ [SwsAction.uref_free, SwsAction.throw_fatal])
        else
          let w := upipe_sws_map_output env s1.output_chroma_map
          if !w.2 then
            (s1, r0.2 ++ m.1 ++ w.1 ++ [SwsAction.ubuf_free, SwsAction.uref_free])
          else
            let unmap := s1.input_chroma_map.map SwsAction.uref_pic_plane_unmap ++
              s1.output_chroma_map.map SwsAction.ubuf_pic_plane_unmap
            if env.sws_scale ≤ 0 then
              (s1, r0.2 ++ m.1 ++ w.1 ++ [SwsAction.sws_scale] ++ unmap ++
                [SwsAction.ubuf_free, SwsAction.uref_free])
            else
              let sar := upipe_sws_sar env s1 { uref with size := some output }
                input_hsize input_vsize output.1 output.2
              (s1, r0.2 ++ m.1 ++ w.1 ++ [SwsAction.sws_scale] ++ unmap ++ sar.2 ++
                [SwsAction.output sar.1])

/-- The successful plane maps in a list of effects, by kind. -/
def sws_maps (acts : List SwsAction) : List String × List String :=
  (acts.filterMap (fun a => match a with
      | SwsAction.uref_pic_plane_read c => some c
      | _ => none),
   acts.filterMap (fun a => match a with
      | SwsAction.ubuf_pic_plane_write c => some c
      | _ => none))

/-- The plane unmaps in a list of effects, by kind. -/
def sws_unmaps (acts : List SwsAction) : List String × List String :=
  (acts.filterMap (fun a => match a with
      | SwsAction.uref_pic_plane_unmap c => some c
      | _ => none),
   acts.filterMap (fun a => match a with
      | SwsAction.ubuf_pic_plane_unmap c => some c
      | _ => none))

/-- A scaler from planar YUV to planar YUV with a buffer manager and an output
size of 640x360. -/
def sws_pipe : upipe_sws :=
  { flow_def_attr := { hsize := some 640, vsize := some 360, sar := none },
    ubuf_mgr := some 1, convert_ctx := false,
    input_chroma_map := ["y8", "u8", "v8"], output_chroma_map := ["y8", "u8", "v8"] }

/-- Surroundings in which everything succeeds. -/
def sws_env : SwsEnv :=
  { need_ubuf_mgr := none, sws_getCachedContext := true,
    uref_pic_plane_read := fun _ => true, uref_pic_plane_size := fun _ => true,
    ubuf_pic_alloc := true, ubuf_pic_plane_write := fun _ => true,
    ubuf_pic_plane_size := fun _ => true, sws_scale := 360, uref_pic_flow_set_sar := true }

/-- A picture of 1280x720 with sample aspect ratio 1/1. -/
def sws_uref : PicUref := { size := some (1280, 720), sar := some ⟨1, 1⟩ }

/-! ## Lemmas -/

theorem emitted_append (a b : List Action) : emitted (a ++ b) = emitted a ++ emitted b := by
  induction a with
  | nil => rfl
  | cons x xs ih => cases x <;> simp [emitted, ih]

theorem delivered_append (a b : List Action) :
    delivered (a ++ b) = delivered a ++ delivered b := by
  induction a with
  | nil => rfl
  | cons x xs ih => cases x <;> simp [delivered, ih]

theorem thrown_append (a b : List Action) : thrown (a ++ b) = thrown a ++ thrown b := by
  induction a with
  | nil => rfl
  | cons x xs ih => cases x <;> simp [thrown, ih]

/-- The output helper always returns; the record is handed to it once, and
nothing else it does is a hand-over. -/
theorem helper_output_ok (env : Env) (h : OutputHelper) (u : Uref) :
    ∃ h2 a, helper_output env h u = .ok (h2, Action.output u :: a) ∧ emitted a = [] := by
  rcases h with ⟨o, f, sent⟩
  rcases o with _ | o <;> rcases f with _ | fd <;> cases sent <;>
    simp only [helper_output, helper_throw_need_output, helper_set_output, helper_flow_def]
  all_goals first
    | exact ⟨_, _, rfl, by simp [emitted]⟩
    | (cases hn : env.need_output fd <;> cases ha : env.alloc <;>
        exact ⟨_, _, rfl, by simp [emitted]⟩)

/-- With an output wired, a flow definition stored and allocations succeeding,
the helper forwards the record, after the flow definition if it has not been
sent yet. -/
theorem helper_output_wired (env : Env) (h : OutputHelper) (u : Uref) (o : Nat)
    (f : FlowDef) (ha : env.alloc = true) (ho : h.output = some o)
    (hf : h.flow_def = some f) :
    helper_output env h u = .ok ({ h with flow_def_sent := true },
      Action.output u ::
        ((if h.flow_def_sent then [] else [Action.flow_def o f]) ++ [Action.input o u])) := by
  rcases h with ⟨o1, f1, sent⟩
  simp only at ho hf
  subst ho hf
  cases sent <;> simp [helper_output, helper_flow_def, ha]

theorem psim_output_ok (env : Env) (s : upipe_ts_psim) (u : Uref) :
    ∃ h2 a, upipe_ts_psim_output env s u
        = .ok ({ s with toOutputHelper := h2 }, Action.output u :: a) ∧ emitted a = [] := by
  obtain ⟨h2, a, h, he⟩ := helper_output_ok env s.toOutputHelper u
  exact ⟨h2, a, by simp [upipe_ts_psim_output, h], he⟩

/-- The state a flush leaves. -/
theorem psim_flush_state (s : upipe_ts_psim) :
    (upipe_ts_psim_flush s).1 = { s with next_uref := none, acquired := false } := by
  rcases s with ⟨h, n, a⟩
  cases n <;> cases a <;> simp [upipe_ts_psim_flush, upipe_ts_psim_sync_lost]

/-- The effects of a flush. -/
theorem psim_flush_actions (s : upipe_ts_psim) :
    (upipe_ts_psim_flush s).2 =
      (match s.next_uref with | some acc => [Action.free acc] | none => []) ++
      (if s.acquired then [Action.throw Event.sync_lost] else []) := by
  rcases s with ⟨h, n, a⟩
  cases n <;> cases a <;> simp [upipe_ts_psim_flush, upipe_ts_psim_sync_lost]

/-- Skipping `k` octets that the block holds succeeds and drops them. -/
theorem uref_block_resize_skip (u : Uref) (k : Nat) (h : k ≤ u.block.length) :
    uref_block_resize u (k : Int) (-1) = some { u with block := u.block.drop k } := by
  have h1 : ¬ ((k : Int) < 0 ∨ (u.block.length : Int) < k) := by omega
  simp only [uref_block_resize, h1, if_false, if_true, Int.toNat_ofNat]

/-- Lines 213-219 and 230: in the acquired state a unit-start record loses its
pointer_field and its start flag, and goes to the merge loop. -/
theorem psim_input_start_acquired (env : Env) (s : upipe_ts_psim) (u : Uref)
    (pointer_field : Nat) (data : List Nat)
    (hs : s.acquired = true) (hst : u.start = true) (hb : u.block = pointer_field :: data) :
    upipe_ts_psim_input_start env s u
      = upipe_ts_psim_input_sections env s { u with start := false, block := data } := by
  have hres := uref_block_resize_skip u 1 (by simp [hb])
  simp only [Nat.cast_one] at hres
  simp only [upipe_ts_psim_input_start, hst, hs, if_true, hres, uref_block_delete_start]
  simp [hb]

/-- Lines 220-230: in the desync state a unit-start record loses its first
`1 + pointer_field` octets and its start flag, sync is acquired, and the record
goes to the merge loop. -/
theorem psim_input_start_desync (env : Env) (s : upipe_ts_psim) (u : Uref)
    (pointer_field : Nat) (rest : List Nat)
    (hs : s.acquired = false) (hst : u.start = true)
    (hb : u.block = pointer_field :: rest) (hlen : 1 + pointer_field ≤ u.block.length) :
    upipe_ts_psim_input_start env s u
      = match upipe_ts_psim_input_sections env { s with acquired := true }
            { u with start := false, block := u.block.drop (1 + pointer_field) } with
        | .error e => .error e
        | .ok r => .ok (r.1, Action.throw Event.sync_acquired :: r.2) := by
  have hres := uref_block_resize_skip u (1 + pointer_field) hlen
  simp only [Nat.cast_add, Nat.cast_one] at hres
  have hex : uref_block_extract u 0 1 = some [pointer_field] := by
    simp [uref_block_extract, hb]
  simp only [upipe_ts_psim_input_start, hst, hs, if_true, hex, hres,
    upipe_ts_psim_sync_acquired, uref_block_delete_start]
  simp

/-- Lines 232-236: a record without unit-start goes to the merge loop when the
accumulator is not empty. -/
theorem psim_input_start_continue (env : Env) (s : upipe_ts_psim) (u acc : Uref)
    (hst : u.start = false) (hn : s.next_uref = some acc) :
    upipe_ts_psim_input_start env s u = upipe_ts_psim_input_sections env s u := by
  simp [upipe_ts_psim_input_start, hst, hn]

/-- Lines 209-210 have no effect when the record carries no discontinuity, or
when there is nothing to flush. -/
theorem psim_input_of_no_flush (env : Env) (s : upipe_ts_psim) (u : Uref)
    (h : upipe_ts_psim_flush s = (s, []) ∨ u.discontinuity = false) :
    upipe_ts_psim_input env s u = upipe_ts_psim_input_start env s u := by
  unfold upipe_ts_psim_input
  split
  · rename_i hd
    rcases h with h | h
    · rw [h]
      cases hr : upipe_ts_psim_input_start env s u <;> simp [hr]
    · rw [h] at hd; cases hd
  · rfl

/-- A non-zero 64-bit numerator, signed or not, is a non-zero `uint64_t`. -/
theorem u64_of_int_ne_zero (i : Int) (h0 : i ≠ 0) (hlo : -(2 ^ 63) ≤ i) (hhi : i < 2 ^ 64) :
    u64_of_int i ≠ 0 := by
  unfold u64_of_int
  omega

theorem get_systime_eq (t : upipe_trickp) (ts : Nat) (h : u64_of_int t.rate.num ≠ 0) :
    upipe_trickp_get_systime t ts = .ok (systime_spec t ts) := by
  unfold upipe_trickp_get_systime systime_spec
  simp only [h, if_false]
  by_cases hlt : ts < t.ts_origin
  · simp [hlt, Nat.max_eq_right (Nat.le_of_lt hlt)]
  · simp [hlt, Nat.max_eq_left (Nat.le_of_not_lt hlt)]

theorem sub_stamp_eq (t : upipe_trickp) (uref : Uref) (h : u64_of_int t.rate.num ≠ 0) :
    upipe_trickp_sub_stamp t uref = .ok (stamped_spec t uref) := by
  unfold upipe_trickp_sub_stamp stamped_spec
  cases hp : uref.pts <;> cases hd : uref.dts <;> simp [get_systime_eq _ _ h, hp, hd]

theorem sub_output_ok (env : Env) (sub : upipe_trickp_sub) (u : Uref) :
    ∃ h2 a, upipe_trickp_sub_output env sub u
        = .ok ({ sub with toOutputHelper := h2 }, Action.output u :: a) ∧ emitted a = [] := by
  obtain ⟨h2, a, h, he⟩ := helper_output_ok env sub.toOutputHelper u
  exact ⟨h2, a, by simp [upipe_trickp_sub_output, h], he⟩

/-- Lines 178-196: when not paused, `upipe_trickp_sub_process` hands the stamped
record to the output helper and returns true. -/
theorem sub_process_stamps (env : Env) (t : upipe_trickp) (sub : upipe_trickp_sub)
    (uref : Uref) (hnum : t.rate.num ≠ 0) (hden : t.rate.den ≠ 0)
    (hlo : -(2 ^ 63) ≤ t.rate.num) (hhi : t.rate.num < 2 ^ 64) :
    ∃ h2 a, upipe_trickp_sub_process env t sub uref
          = .ok ({ sub with toOutputHelper := h2 },
              Action.output (stamped_spec t uref) :: a, true)
        ∧ emitted a = []
        ∧ ∀ o f, env.alloc = true → sub.output = some o → sub.flow_def = some f →
            a = (if sub.flow_def_sent then [] else [Action.flow_def o f])
                  ++ [Action.input o (stamped_spec t uref)] := by
  have hu := u64_of_int_ne_zero _ hnum hlo hhi
  obtain ⟨h2, a, h, he⟩ := sub_output_ok env sub (stamped_spec t uref)
  have hp : ¬ (t.rate.num = 0 ∨ t.rate.den = 0) := by
    intro hh; rcases hh with hh | hh
    · exact hnum hh
    · exact hden hh
  refine ⟨h2, a, ?_, he, ?_⟩
  · simp only [upipe_trickp_sub_process, hp, if_false, sub_stamp_eq t uref hu, h]
  · intro o f ha ho hf
    have hw := helper_output_wired env sub.toOutputHelper (stamped_spec t uref) o f ha ho hf
    simp only [upipe_trickp_sub_output, hw] at h
    injection h with h
    injection h with h1 h3
    injection h3 with h4 h5
    exact h5.symm

theorem peek_dated_date (urefs : List Uref) :
    (upipe_trickp_peek_dated urefs).2.2 = first_dated urefs := by
  induction urefs with
  | nil => rfl
  | cons u us ih =>
    unfold upipe_trickp_peek_dated first_dated
    cases h : upipe_trickp_uref_ts u
    · simp only [List.filterMap_cons, h]
      exact ih
    · simp [List.filterMap_cons, h]

theorem first_dated_isSome (urefs : List Uref)
    (h : ∃ u ∈ urefs, upipe_trickp_uref_ts u ≠ none) : ∃ ts, first_dated urefs = some ts := by
  obtain ⟨u, hu, hts⟩ := h
  obtain ⟨ts, hts2⟩ := Option.ne_none_iff_exists'.mp hts
  have hm : ts ∈ urefs.filterMap upipe_trickp_uref_ts := List.mem_filterMap.mpr ⟨u, hu, hts2⟩
  unfold first_dated
  cases hl : urefs.filterMap upipe_trickp_uref_ts with
  | nil => rw [hl] at hm; cases hm
  | cons x xs => exact ⟨x, rfl⟩

/-- When every subpipe that is not a subpicture holds a dated record, the first
loop of `upipe_trickp_check_start` does not return early, and `earliest_ts`
ends as the minimum of its initial value and of the anchor dates. -/
theorem scan_ready (subs : List upipe_trickp_sub) (earliest_ts : Nat)
    (hready : ∀ sub ∈ subs, sub.type ≠ upipe_trickp_sub_type.UPIPE_TRICKP_SUBPIC →
      ∃ u ∈ sub.urefs, upipe_trickp_uref_ts u ≠ none) :
    (upipe_trickp_scan subs earliest_ts).2.2
      = some ((anchor_dates subs).foldl min earliest_ts) := by
  induction subs generalizing earliest_ts with
  | nil => rfl
  | cons sub subs ih =>
    have hrest := fun e => ih e (fun x hx => hready x (List.mem_cons_of_mem _ hx))
    unfold upipe_trickp_scan
    by_cases ht : sub.type = upipe_trickp_sub_type.UPIPE_TRICKP_SUBPIC
    · simp only [ht, if_true]
      rw [hrest]
      simp [anchor_dates, ht]
    · obtain ⟨ts, hts⟩ := first_dated_isSome sub.urefs (hready sub (List.mem_cons_self _ _) ht)
      simp only [ht, if_false, peek_dated_date, hts]
      rw [hrest]
      have hmin : (if ts < earliest_ts then ts else earliest_ts) = min earliest_ts ts := by
        by_cases h : ts < earliest_ts
        · simp [h, Nat.min_eq_right (Nat.le_of_lt h)]
        · simp [h, Nat.min_eq_left (Nat.le_of_not_lt h)]
      simp [anchor_dates, ht, hts, hmin]

theorem foldl_min_le_init (l : List Nat) (e : Nat) : l.foldl min e ≤ e := by
  induction l generalizing e with
  | nil => exact Nat.le_refl _
  | cons x xs ih => exact Nat.le_trans (ih (min e x)) (Nat.min_le_left _ _)

theorem foldl_min_le_mem (l : List Nat) (e d : Nat) (hd : d ∈ l) : l.foldl min e ≤ d := by
  induction l generalizing e with
  | nil => cases hd
  | cons x xs ih =>
    rcases List.mem_cons.mp hd with h | h
    · subst h
      exact Nat.le_trans (foldl_min_le_init xs (min e d)) (Nat.min_le_right _ _)
    · exact ih (min e x) h

theorem foldl_min_mem_or_init (l : List Nat) (e : Nat) :
    l.foldl min e = e ∨ l.foldl min e ∈ l := by
  induction l generalizing e with
  | nil => exact Or.inl rfl
  | cons x xs ih =>
    rcases ih (min e x) with h | h
    · rcases Nat.le_total e x with hle | hle
      · left
        show xs.foldl min (min e x) = e
        rw [h]; exact Nat.min_eq_left hle
      · right
        show xs.foldl min (min e x) ∈ x :: xs
        rw [h, Nat.min_eq_right hle]; exact List.mem_cons_self _ _
    · right; exact List.mem_cons_of_mem _ h

theorem sub_process_ok (env : Env) (t : upipe_trickp) (sub : upipe_trickp_sub) (uref : Uref)
    (hlo : -(2 ^ 63) ≤ t.rate.num) (hhi : t.rate.num < 2 ^ 64) :
    ∃ r, upipe_trickp_sub_process env t sub uref = .ok r := by
  by_cases hp : t.rate.num = 0 ∨ t.rate.den = 0
  · simp only [upipe_trickp_sub_process, hp, if_true]
    exact ⟨_, rfl⟩
  · have hnum : t.rate.num ≠ 0 := fun h => hp (Or.inl h)
    have hu := u64_of_int_ne_zero _ hnum hlo hhi
    obtain ⟨h2, a, h, _⟩ := sub_output_ok env sub (stamped_spec t uref)
    simp only [upipe_trickp_sub_process, hp, if_false, sub_stamp_eq t uref hu, h]
    exact ⟨_, rfl⟩

theorem output_sink_loop_ok (env : Env) (t : upipe_trickp) (sub : upipe_trickp_sub)
    (urefs : List Uref) (hlo : -(2 ^ 63) ≤ t.rate.num) (hhi : t.rate.num < 2 ^ 64) :
    ∃ r, upipe_trickp_sub_output_sink_loop env t sub urefs = .ok r := by
  induction urefs generalizing sub with
  | nil => exact ⟨_, rfl⟩
  | cons u us ih =>
    obtain ⟨⟨sub1, a1, b⟩, hr⟩ := sub_process_ok env t sub u hlo hhi
    cases b
    · simp only [upipe_trickp_sub_output_sink_loop, hr]
      exact ⟨_, rfl⟩
    · obtain ⟨⟨sub2, held, a2, b2⟩, hr2⟩ := ih sub1
      simp only [upipe_trickp_sub_output_sink_loop, hr, hr2]
      exact ⟨_, rfl⟩

theorem drain_ok (env : Env) (t : upipe_trickp) (subs : List upipe_trickp_sub)
    (hlo : -(2 ^ 63) ≤ t.rate.num) (hhi : t.rate.num < 2 ^ 64) :
    ∃ r, upipe_trickp_drain env t subs = .ok r := by
  induction subs with
  | nil => exact ⟨_, rfl⟩
  | cons sub subs ih =>
    obtain ⟨⟨sub1, held, a, b⟩, hr⟩ := output_sink_loop_ok env t sub sub.urefs hlo hhi
    obtain ⟨⟨subs2, a2⟩, hr2⟩ := ih
    simp only [upipe_trickp_drain, upipe_trickp_sub_output_sink, hr, hr2]
    exact ⟨_, rfl⟩

theorem systime_spec_mono (t : upipe_trickp) (ts1 ts2 : Nat) (hle : ts1 ≤ ts2)
    (hmul : (max ts2 t.ts_origin - t.ts_origin) * t.rate.den < 2 ^ 64)
    (hsum : (max ts2 t.ts_origin - t.ts_origin) * t.rate.den / u64_of_int t.rate.num
              + t.systime_offset < 2 ^ 64) :
    systime_spec t ts1 ≤ systime_spec t ts2 := by
  unfold systime_spec
  have h1 : (max ts1 t.ts_origin - t.ts_origin) * t.rate.den
      ≤ (max ts2 t.ts_origin - t.ts_origin) * t.rate.den :=
    Nat.mul_le_mul_right _ (Nat.sub_le_sub_right (max_le_max hle (Nat.le_refl _)) _)
  have h2 : (max ts1 t.ts_origin - t.ts_origin) * t.rate.den < 2 ^ 64 :=
    Nat.lt_of_le_of_lt h1 hmul
  rw [Nat.mod_eq_of_lt h2, Nat.mod_eq_of_lt hmul]
  have h3 : (max ts1 t.ts_origin - t.ts_origin) * t.rate.den / u64_of_int t.rate.num
      ≤ (max ts2 t.ts_origin - t.ts_origin) * t.rate.den / u64_of_int t.rate.num :=
    Nat.div_le_div_right h1
  rw [Nat.mod_eq_of_lt hsum, Nat.mod_eq_of_lt (by omega)]
  omega

theorem valid_section_pos (sec : List Nat) (h : valid_section sec) : 0 < sec.length := by
  have := h.2.1
  unfold PSI_HEADER_SIZE at this
  omega

/-- Lines 155-196 on accumulated data that is the first `k` octets of a valid
section followed by `tail`: the section is handed to the output as soon as it
is complete, and the input record keeps what follows it. -/
theorem merge_section_valid (env : Env) (s : upipe_ts_psim) (data uref : Uref)
    (sec tail : List Nat) (k : Nat) (hv : valid_section sec)
    (hk : k ≤ (sec ++ tail).length) (hd : data.block = (sec ++ tail).take k)
    (hu : uref.block.length ≤ k) (hrest : k - uref.block.length < sec.length) :
    (k < sec.length →
      upipe_ts_psim_merge_section env s data uref
        = .ok ({ s with next_uref := some data }, uref, [], false))
    ∧ (sec.length ≤ k → ∃ h2 acts, emitted acts = [] ∧
        upipe_ts_psim_merge_section env s data uref
          = .ok ({ s with toOutputHelper := h2, next_uref := none },
              (if sec.length = k then uref
               else { uref with block := uref.block.drop (sec.length - (k - uref.block.length)) }),
              Action.output { data with block := sec } :: acts,
              decide (sec.length < k))) := by
  obtain ⟨hff, h3, hlen, hmax⟩ := hv
  have hsize : data.block.length = k := by rw [hd, List.length_take]; omega
  constructor
  · intro hlt
    by_cases hk3 : k < PSI_HEADER_SIZE
    · simp only [upipe_ts_psim_merge_section, hsize, hk3, if_true]
    · have hhdr : data.block.take PSI_HEADER_SIZE = sec.take PSI_HEADER_SIZE := by
        rw [hd, List.take_take, Nat.min_eq_left (by omega),
          List.take_append_of_le_length h3]
      have h1 : ¬ psi_get_length (sec.take PSI_HEADER_SIZE) + PSI_HEADER_SIZE
          > PSI_PRIVATE_MAX_SIZE := by omega
      have h2 : psi_get_length (sec.take PSI_HEADER_SIZE) + PSI_HEADER_SIZE > k := by omega
      simp only [upipe_ts_psim_merge_section, hsize, hk3, if_false, hhdr, h1, h2, if_true]
  · intro hle
    have hk3 : ¬ k < PSI_HEADER_SIZE := by omega
    have hhdr : data.block.take PSI_HEADER_SIZE = sec.take PSI_HEADER_SIZE := by
      rw [hd, List.take_take, Nat.min_eq_left (by omega),
        List.take_append_of_le_length h3]
    have h1 : ¬ psi_get_length (sec.take PSI_HEADER_SIZE) + PSI_HEADER_SIZE
        > PSI_PRIVATE_MAX_SIZE := by omega
    have h2 : ¬ psi_get_length (sec.take PSI_HEADER_SIZE) + PSI_HEADER_SIZE > k := by omega
    have hout : uref_block_resize data 0
        ((psi_get_length (sec.take PSI_HEADER_SIZE) + PSI_HEADER_SIZE : Nat) : Int)
        = some { data with block := sec } := by
      rw [← hlen]
      have hc1 : ¬ ((0 : Int) < 0 ∨ (data.block.length : Int) < 0) := by omega
      have hc2 : ¬ ((sec.length : Int) = -1) := by omega
      have hc3 : ¬ ((sec.length : Int) < 0 ∨ (data.block.length : Int) - 0 < sec.length) := by
        omega
      simp only [uref_block_resize, hc1, hc2, hc3, if_false, Int.toNat_zero, List.drop_zero,
        Int.toNat_ofNat]
      rw [hd, List.take_take, Nat.min_eq_left hle, List.take_left]
    obtain ⟨hh, acts, hout2, hem⟩ :=
      psim_output_ok env { s with next_uref := some { data with block := sec } }
        { data with block := sec }
    refine ⟨hh, acts, hem, ?_⟩
    simp only [upipe_ts_psim_merge_section, hsize, hk3, if_false, hhdr, h1, h2, hout, hout2]
    rw [← hlen]
    by_cases heq : sec.length = k
    · have hlt : ¬ sec.length < k := by omega
      simp [heq]
    · have hlt : sec.length < k := by omega
      have hres := uref_block_resize_skip uref (sec.length - (k - uref.block.length)) (by omega)
      have hcast : (((sec.length - (k - uref.block.length) : Nat)) : Int)
          = (sec.length : Int) - ((k : Int) - (uref.block.length : Int)) := by omega
      rw [hcast] at hres
      simp only [heq, if_false, hres, hlt, decide_True]

/-- One call of `upipe_ts_psim_merge` when the accumulator holds the first `m`
octets of a valid section and the input record the `n` octets that follow in
`sec ++ tail`. -/
theorem merge_valid (env : Env) (s : upipe_ts_psim) (uref : Uref) (sec tail : List Nat)
    (m n : Nat) (halloc : env.alloc = true) (hv : valid_section sec) (hm : m < sec.length)
    (hacc : acc_matches s ((sec ++ tail).take m)) (hn : 0 < n)
    (hmn : m + n ≤ (sec ++ tail).length) (hu : uref.block = ((sec ++ tail).drop m).take n) :
    (m + n < sec.length → ∃ a, a.block = (sec ++ tail).take (m + n) ∧
      upipe_ts_psim_merge env s uref = .ok ({ s with next_uref := some a }, uref, [], false))
    ∧ (sec.length ≤ m + n → ∃ h2 out acts u2, out.block = sec ∧ emitted acts = [] ∧
        (sec.length < m + n → u2.block = tail.take (m + n - sec.length)) ∧
        upipe_ts_psim_merge env s uref
          = .ok ({ s with toOutputHelper := h2, next_uref := none }, u2,
              Action.output out :: acts, decide (sec.length < m + n))) := by
  have hulen : uref.block.length = n := by
    rw [hu, List.length_take, List.length_drop]; omega
  have hsplit : (sec ++ tail).take m ++ uref.block = (sec ++ tail).take (m + n) := by
    rw [hu, List.take_add]
  -- the call reaches lines 155-196 with `data`, holding the first `m + n` octets
  have hreach : ∃ data, data.block = (sec ++ tail).take (m + n) ∧
      upipe_ts_psim_merge env s uref = upipe_ts_psim_merge_section env s data uref := by
    rcases hacc with ⟨hnil, hnone⟩ | ⟨hne, a, hsome, hab⟩
    · have hm0 : m = 0 := by
        rcases Nat.eq_zero_or_pos m with h | h
        · exact h
        · exfalso
          have hl : ((sec ++ tail).take m).length = m := by
            rw [List.length_take]; omega
          rw [hnil] at hl
          simp at hl
          omega
      subst hm0
      have hub : uref.block = (sec ++ tail).take n := by simpa using hu
      obtain ⟨b, bs, hsec⟩ := List.exists_cons_of_ne_nil
        (List.ne_nil_of_length_pos (valid_section_pos sec hv))
      have hbff : b ≠ 0xff := by
        intro h; apply hv.1; simp [hsec, h]
      obtain ⟨n1, hn1⟩ : ∃ n1, n = n1 + 1 := ⟨n - 1, by omega⟩
      have hcons : uref.block = b :: (bs ++ tail).take n1 := by
        rw [hub, hsec, hn1]; rfl
      refine ⟨uref, by simpa using hub, ?_⟩
      simp [upipe_ts_psim_merge, hnone, uref_block_extract, hcons, hbff, halloc]
    · refine ⟨uref_block_append a uref.block, ?_, ?_⟩
      · simp only [uref_block_append, hab, hsplit]
      · simp only [upipe_ts_psim_merge, hsome, halloc, if_true]
  obtain ⟨data, hdata, hcall⟩ := hreach
  obtain ⟨hA, hB⟩ := merge_section_valid env s data uref sec tail (m + n) hv hmn hdata
    (by omega) (by omega)
  constructor
  · intro hlt
    exact ⟨data, hdata, by rw [hcall]; exact hA hlt⟩
  · intro hle
    obtain ⟨h2, acts, hem, hres⟩ := hB hle
    refine ⟨h2, { data with block := sec }, acts, _, rfl, hem, ?_, by rw [hcall]; exact hres⟩
    intro hlt
    have heq : ¬ sec.length = m + n := by omega
    simp only [heq, if_false, hulen]
    have h1 : m + n - n = m := by omega
    rw [h1, hu, List.drop_take, List.drop_drop]
    have h2 : m + (sec.length - m) = sec.length := by omega
    have h3 : n - (sec.length - m) = m + n - sec.length := by omega
    rw [h2, h3, List.drop_left]

theorem completed_zero (secs : List (List Nat)) (h : ∀ x ∈ secs, 0 < x.length) :
    completed secs 0 = [] := by
  cases secs with
  | nil => rfl
  | cons x xs =>
    have hx := h x (List.mem_cons_self _ _)
    have hn : ¬ x.length ≤ 0 := by omega
    simp only [completed, hn, if_false]

theorem pending_zero (secs : List (List Nat)) (h : ∀ x ∈ secs, 0 < x.length) :
    pending secs 0 = (secs, 0) := by
  cases secs with
  | nil => rfl
  | cons x xs =>
    have hx := h x (List.mem_cons_self _ _)
    have hn : ¬ x.length ≤ 0 := by omega
    simp only [pending, hn, if_false]

/-- The merge loop on a stream of valid sections: with the first `m` octets of
the stream accumulated and the `n` following octets in the input record, it
hands to the output the sections completed by these octets, in order, and
leaves in the accumulator the octets of the section they leave incomplete. -/
theorem merge_loop_valid (env : Env) (halloc : env.alloc = true) :
    ∀ (secs : List (List Nat)), (∀ sec ∈ secs, valid_section sec) →
    ∀ (m n fuel : Nat) (s : upipe_ts_psim) (uref : Uref),
      (∀ sec rest, secs = sec :: rest → m < sec.length) →
      acc_matches s (secs.flatten.take m) → 0 < n → m + n ≤ secs.flatten.length →
      uref.block = (secs.flatten.drop m).take n → n + 1 ≤ fuel →
      ∃ s2 u2 acts, upipe_ts_psim_merge_loop env fuel s uref = .ok (s2, u2, acts)
        ∧ emitted acts = completed secs (m + n)
        ∧ acc_matches s2 ((pending secs (m + n)).1.flatten.take (pending secs (m + n)).2)
        ∧ s2.acquired = s.acquired := by
  intro secs
  induction secs with
  | nil =>
    intro _ m n fuel s uref _ _ hn hmn _ _
    simp at hmn
    omega
  | cons sec rest ih =>
    intro hvalid m n fuel s uref hcfg hacc hn hmn hu hfuel
    have hv : valid_section sec := hvalid sec (List.mem_cons_self _ _)
    have hvrest : ∀ x ∈ rest, valid_section x := fun x hx => hvalid x (List.mem_cons_of_mem _ hx)
    have hm : m < sec.length := hcfg sec rest rfl
    simp only [List.flatten_cons] at hacc hmn hu
    obtain ⟨hA, hB⟩ := merge_valid env s uref sec rest.flatten m n halloc hv hm hacc hn hmn hu
    obtain ⟨f, hf⟩ : ∃ f, fuel = f + 1 := ⟨fuel - 1, by omega⟩
    subst hf
    by_cases hlt : m + n < sec.length
    · obtain ⟨a, hab, hcall⟩ := hA hlt
      have hnle : ¬ sec.length ≤ m + n := by omega
      refine ⟨{ s with next_uref := some a }, uref, [],
        by simp only [upipe_ts_psim_merge_loop, hcall], ?_, ?_, rfl⟩
      · simp [completed, hnle, emitted]
      · simp only [pending, hnle, if_false, List.flatten_cons]
        right
        refine ⟨?_, a, rfl, hab⟩
        apply List.ne_nil_of_length_pos
        rw [List.length_take]; omega
    · have hle : sec.length ≤ m + n := by omega
      obtain ⟨h2, out, acts, u2, hout, hem, hu2, hcall⟩ := hB hle
      by_cases heq : sec.length = m + n
      · have hd : decide (sec.length < m + n) = false := decide_eq_false (by omega)
        rw [hd] at hcall
        have hposrest : ∀ x ∈ rest, 0 < x.length :=
          fun x hx => valid_section_pos x (hvrest x hx)
        refine ⟨{ s with toOutputHelper := h2, next_uref := none }, u2,
          Action.output out :: acts,
          by simp only [upipe_ts_psim_merge_loop, hcall], ?_, ?_, rfl⟩
        · have h0 : m + n - sec.length = 0 := by omega
          simp [completed, hle, emitted, hout, hem, h0, completed_zero rest hposrest]
        · have h0 : m + n - sec.length = 0 := by omega
          simp only [pending, hle, if_true, h0, pending_zero rest hposrest]
          left
          exact ⟨by simp, rfl⟩
      · have hgt : sec.length < m + n := by omega
        have hd : decide (sec.length < m + n) = true := decide_eq_true hgt
        rw [hd] at hcall
        have hrestlen : m + n - sec.length ≤ rest.flatten.length := by
          rw [List.length_append] at hmn; omega
        obtain ⟨s3, u3, acts3, hloop, hem3, hacc3, hacq3⟩ :=
          ih hvrest 0 (m + n - sec.length) f
            { s with toOutputHelper := h2, next_uref := none } u2
            (fun x xs hx => valid_section_pos x (hvrest x (by rw [hx]; exact List.mem_cons_self _ _)))
            (Or.inl ⟨by simp, rfl⟩) (by omega) (by omega) (by simpa using hu2 hgt) (by omega)
        refine ⟨s3, u3, Action.output out :: acts ++ acts3,
          by simp only [upipe_ts_psim_merge_loop, hcall, hloop, List.cons_append], ?_, ?_, ?_⟩
        · simp only [Nat.zero_add] at hem3
          rw [List.cons_append,
            show emitted (Action.output out :: (acts ++ acts3))
              = out.block :: emitted (acts ++ acts3) from rfl,
            emitted_append, hem, hem3, hout]
          simp only [completed, hle, if_true, List.nil_append]
        · simp only [Nat.zero_add] at hacc3
          simp only [pending, hle, if_true]
          exact hacc3
        · exact hacq3

theorem completed_all (secs : List (List Nat)) : completed secs secs.flatten.length = secs := by
  induction secs with
  | nil => rfl
  | cons sec rest ih =>
    have h : sec.length ≤ (sec :: rest).flatten.length := by
      rw [List.flatten_cons, List.length_append]; omega
    have h2 : (sec :: rest).flatten.length - sec.length = rest.flatten.length := by
      rw [List.flatten_cons, List.length_append]; omega
    simp only [completed, h, if_true, h2, ih]

theorem pending_all (secs : List (List Nat)) : pending secs secs.flatten.length = ([], 0) := by
  induction secs with
  | nil => rfl
  | cons sec rest ih =>
    have h : sec.length ≤ (sec :: rest).flatten.length := by
      rw [List.flatten_cons, List.length_append]; omega
    have h2 : (sec :: rest).flatten.length - sec.length = rest.flatten.length := by
      rw [List.flatten_cons, List.length_append]; omega
    simp only [pending, h, if_true, h2, ih]

theorem completed_append_pending (secs : List (List Nat)) (k : Nat) :
    completed secs k ++ (pending secs k).1 = secs := by
  induction secs generalizing k with
  | nil => rfl
  | cons sec rest ih =>
    by_cases h : sec.length ≤ k
    · simp only [completed, pending, h, if_true, List.cons_append, ih]
    · simp only [completed, pending, h, if_false, List.nil_append]

theorem pending_mem (secs : List (List Nat)) (k : Nat) :
    ∀ x ∈ (pending secs k).1, x ∈ secs := by
  intro x hx
  rw [← completed_append_pending secs k]
  exact List.mem_append_right _ hx

theorem pending_drop (secs : List (List Nat)) (k : Nat) :
    (pending secs k).1.flatten.drop (pending secs k).2 = secs.flatten.drop k := by
  induction secs generalizing k with
  | nil => simp [pending]
  | cons sec rest ih =>
    by_cases h : sec.length ≤ k
    · simp only [pending, h, if_true, ih, List.flatten_cons]
      rw [List.drop_append_eq_append_drop, List.drop_eq_nil_of_le h, List.nil_append]
    · simp only [pending, h, if_false]

theorem pending_offset (secs : List (List Nat)) (k : Nat)
    (hpos : ∀ x ∈ secs, 0 < x.length) :
    ∀ sec rest, (pending secs k).1 = sec :: rest → (pending secs k).2 < sec.length := by
  induction secs generalizing k with
  | nil => intro sec rest h; simp [pending] at h
  | cons x xs ih =>
    intro sec rest h
    by_cases hk : x.length ≤ k
    · simp only [pending, hk, if_true] at h ⊢
      exact ih (k - x.length) (fun y hy => hpos y (List.mem_cons_of_mem _ hy)) sec rest h
    · simp only [pending, hk, if_false] at h ⊢
      injection h with h1 h2
      subst h1
      omega

theorem pending_offset_nil (secs : List (List Nat)) (k : Nat) :
    (pending secs k).1 = [] → (pending secs k).2 = 0 := by
  induction secs generalizing k with
  | nil => intro _; rfl
  | cons x xs ih =>
    intro h
    by_cases hk : x.length ≤ k
    · simp only [pending, hk, if_true] at h ⊢
      exact ih (k - x.length) h
    · simp only [pending, hk, if_false] at h
      cases h

theorem section_starts_shift (secs : List (List Nat)) (b : Nat) :
    section_starts secs b = (section_starts secs 0).map (fun x => x + b) := by
  induction secs generalizing b with
  | nil => rfl
  | cons sec rest ih =>
    simp only [section_starts, List.map_cons, Nat.zero_add]
    rw [ih (b + sec.length), ih sec.length, List.map_map]
    congr 1
    apply List.map_congr_left
    intro x _
    simp only [Function.comp]
    omega

theorem shift_starts_map_add (l : List Nat) (b j : Nat) :
    shift_starts (b + j) (l.map (fun x => x + b)) = shift_starts j l := by
  induction l with
  | nil => rfl
  | cons x xs ih =>
    unfold shift_starts at ih ⊢
    by_cases h : j ≤ x
    · have h2 : b + j ≤ x + b := by omega
      simp only [List.map_cons, List.filter_cons, h, h2, decide_True, if_true, ih]
      congr 1
      omega
    · have h2 : ¬ b + j ≤ x + b := by omega
      simp only [List.map_cons, List.filter_cons, h2, decide_False, if_false]
      simp only [List.filter_cons, h, decide_False, if_false]
      exact ih

theorem shift_starts_shift (l : List Nat) (m n : Nat) :
    shift_starts n (shift_starts m l) = shift_starts (m + n) l := by
  induction l with
  | nil => rfl
  | cons x xs ih =>
    unfold shift_starts at ih ⊢
    by_cases h : m ≤ x
    · by_cases h2 : n ≤ x - m
      · have h3 : m + n ≤ x := by omega
        simp only [List.filter_cons, h, h2, h3, decide_True, if_true, List.map_cons, ih]
        congr 1
        omega
      · have h3 : ¬ m + n ≤ x := by omega
        simp only [List.filter_cons, h, h2, h3, decide_True, decide_False, if_true, if_false,
          List.map_cons]
        exact ih
    · have h3 : ¬ m + n ≤ x := by omega
      simp only [List.filter_cons, h, h3, decide_False, if_false]
      exact ih

theorem shift_starts_pending (secs : List (List Nat)) (k : Nat)
    (hpos : ∀ x ∈ secs, 0 < x.length) :
    shift_starts k (section_starts secs 0)
      = shift_starts (pending secs k).2 (section_starts (pending secs k).1 0) := by
  induction secs generalizing k with
  | nil => rfl
  | cons sec rest ih =>
    by_cases h : sec.length ≤ k
    · have hp := hpos sec (List.mem_cons_self _ _)
      have hk0 : ¬ k ≤ 0 := by omega
      simp only [pending, h, if_true]
      rw [← ih (k - sec.length) (fun y hy => hpos y (List.mem_cons_of_mem _ hy))]
      simp only [section_starts, Nat.zero_add]
      rw [section_starts_shift rest sec.length]
      have hk : k = sec.length + (k - sec.length) := by omega
      conv_lhs => rw [hk]
      rw [← shift_starts_map_add (section_starts rest 0) sec.length (k - sec.length)]
      unfold shift_starts
      have hk1 : ¬ sec.length + (k - sec.length) ≤ 0 := by omega
      simp only [List.filter_cons, hk1, decide_False, if_false]
      simp
    · simp only [pending, h, if_false]

/-- Lines 238-239 on a stream of valid sections. -/
theorem input_sections_valid (env : Env) (halloc : env.alloc = true)
    (secs : List (List Nat)) (hvalid : ∀ sec ∈ secs, valid_section sec)
    (m n : Nat) (s : upipe_ts_psim) (uref : Uref)
    (hcfg : ∀ sec rest, secs = sec :: rest → m < sec.length)
    (hacc : acc_matches s (secs.flatten.take m)) (hn : 0 < n)
    (hmn : m + n ≤ secs.flatten.length) (hu : uref.block = (secs.flatten.drop m).take n) :
    ∃ s2 acts, upipe_ts_psim_input_sections env s uref = .ok (s2, acts)
      ∧ emitted acts = completed secs (m + n)
      ∧ acc_matches s2 ((pending secs (m + n)).1.flatten.take (pending secs (m + n)).2)
      ∧ s2.acquired = s.acquired := by
  have hulen : uref.block.length = n := by
    rw [hu, List.length_take, List.length_drop]; omega
  obtain ⟨s2, u2, acts, hloop, hem, hacc2, hacq⟩ :=
    merge_loop_valid env halloc secs hvalid m n (uref.block.length + 2) s uref hcfg hacc hn hmn hu
      (by omega)
  refine ⟨s2, acts ++ [Action.free u2], by simp only [upipe_ts_psim_input_sections, hloop],
    ?_, hacc2, hacq⟩
  rw [emitted_append, hem]
  simp [emitted]

/-- Lines 212-240 on a stream of valid sections: the record carries the `n`
octets that follow the `m` accumulated ones, either with unit-start and a
pointer_field (which must be 0 if sync is not acquired), or without unit-start
when a section is being accumulated. -/
theorem input_start_valid (env : Env) (halloc : env.alloc = true)
    (secs : List (List Nat)) (hvalid : ∀ sec ∈ secs, valid_section sec)
    (m n : Nat) (s : upipe_ts_psim) (r : Uref) (data : List Nat)
    (hcfg : ∀ sec rest, secs = sec :: rest → m < sec.length)
    (hacc : acc_matches s (secs.flatten.take m)) (hn : 0 < n)
    (hmn : m + n ≤ secs.flatten.length) (hdata : data = (secs.flatten.drop m).take n)
    (hacq : s.acquired = true ∨ m = 0)
    (hform : (r.start = true ∧ ∃ pf, r.block = pf :: data ∧ (s.acquired = true ∨ pf = 0)) ∨
      (r.start = false ∧ r.block = data ∧ 0 < m)) :
    ∃ s2 acts, upipe_ts_psim_input_start env s r = .ok (s2, acts)
      ∧ emitted acts = completed secs (m + n)
      ∧ acc_matches s2 ((pending secs (m + n)).1.flatten.take (pending secs (m + n)).2)
      ∧ s2.acquired = true := by
  rcases hform with ⟨hst, pf, hb, hpf⟩ | ⟨hst, hb, hm0⟩
  · cases hs : s.acquired
    · -- desync: the pointer_field is 0
      have hpf0 : pf = 0 := by
        rcases hpf with h | h
        · rw [hs] at h; cases h
        · exact h
      subst hpf0
      have hstart := psim_input_start_desync env s r 0 data hs hst hb (by simp [hb])
      have hdrop : r.block.drop (1 + 0) = data := by simp [hb]
      rw [hdrop] at hstart
      obtain ⟨s2, acts, hsec, hem, hacc2, hacq2⟩ :=
        input_sections_valid env halloc secs hvalid m n { s with acquired := true }
          { r with start := false, block := data } hcfg hacc hn hmn hdata
      refine ⟨s2, Action.throw Event.sync_acquired :: acts, ?_, ?_, hacc2, hacq2⟩
      · rw [hstart, hsec]
      · simpa [emitted] using hem
    · obtain ⟨s2, acts, hsec, hem, hacc2, hacq2⟩ :=
        input_sections_valid env halloc secs hvalid m n s
          { r with start := false, block := data } hcfg hacc hn hmn hdata
      refine ⟨s2, acts, ?_, hem, hacc2, by rw [hacq2, hs]⟩
      rw [psim_input_start_acquired env s r pf data hs hst hb, hsec]
  · have hs : s.acquired = true := by
      rcases hacq with h | h
      · exact h
      · omega
    obtain ⟨s2, acts, hsec, hem, hacc2, hacq2⟩ :=
      input_sections_valid env halloc secs hvalid m n s r hcfg hacc hn hmn (by rw [hb, hdata])
    have hsome : ∃ a, s.next_uref = some a := by
      rcases hacc with ⟨hnil, _⟩ | ⟨_, a, ha, _⟩
      · exfalso
        have hl : (secs.flatten.take m).length = m := by rw [List.length_take]; omega
        rw [hnil] at hl
        simp at hl
        omega
      · exact ⟨a, ha⟩
    obtain ⟨a, ha⟩ := hsome
    refine ⟨s2, acts, ?_, hem, hacc2, by rw [hacq2, hs]⟩
    rw [psim_input_start_continue env s r a hst ha, hsec]

theorem acc_matches_nil (s : upipe_ts_psim) (h : acc_matches s []) : s.next_uref = none := by
  rcases h with ⟨_, h⟩ | ⟨h, _⟩
  · exact h
  · exact absurd rfl h

theorem flatten_pos (secs : List (List Nat)) (hne : secs ≠ [])
    (hvalid : ∀ sec ∈ secs, valid_section sec) : 0 < secs.flatten.length := by
  obtain ⟨sec, rest, h⟩ := List.exists_cons_of_ne_nil hne
  have := valid_section_pos sec (hvalid sec (by rw [h]; exact List.mem_cons_self _ _))
  rw [h, List.flatten_cons, List.length_append]
  omega

/-- The record cut at a section boundary has unit-start and pointer_field 0. -/
theorem cut_record_at_boundary (sec : List Nat) (rest : List (List Nat)) (n : Nat)
    (hn : 0 < n) (data : List Nat) :
    cut_record data ((shift_starts 0 (section_starts (sec :: rest) 0)).filter (fun b => b < n))
      = mk_uref false true (0 :: data) := by
  simp [shift_starts, section_starts, List.filter_cons, hn, cut_record]

theorem cut_record_form (data inside : List Nat) :
    (cut_record data inside).discontinuity = false ∧
    (((cut_record data inside).start = true ∧ ∃ pf, (cut_record data inside).block = pf :: data) ∨
     ((cut_record data inside).start = false ∧ (cut_record data inside).block = data)) := by
  cases inside with
  | nil => exact ⟨rfl, Or.inr ⟨rfl, rfl⟩⟩
  | cons b bs => exact ⟨rfl, Or.inl ⟨rfl, b, rfl⟩⟩

/-- The pipe fed the records cut from a stream of valid sections, starting with
the first `m` octets of the stream accumulated: every section is handed to the
output, in order, and the accumulator ends empty. -/
theorem run_valid (env : Env) (halloc : env.alloc = true) :
    ∀ (sizes : List Nat) (secs : List (List Nat)) (m : Nat) (s : upipe_ts_psim),
      (∀ sec ∈ secs, valid_section sec) →
      (∀ sec rest, secs = sec :: rest → m < sec.length) →
      acc_matches s (secs.flatten.take m) → (s.acquired = true ∨ m = 0) →
      (∀ n ∈ sizes, 0 < n) → m + sizes.sum = secs.flatten.length →
      ∃ s2 acts,
        upipe_ts_psim_run env s
            (cut_records (secs.flatten.drop m) (shift_starts m (section_starts secs 0)) sizes)
          = .ok (s2, acts)
        ∧ emitted acts = secs ∧ s2.next_uref = none := by
  intro sizes
  induction sizes with
  | nil =>
    intro secs m s hvalid hcfg hacc _ _ hsum
    have hsecs : secs = [] := by
      cases secs with
      | nil => rfl
      | cons sec rest =>
        exfalso
        have := hcfg sec rest rfl
        rw [List.flatten_cons, List.length_append] at hsum
        simp at hsum
        omega
    subst hsecs
    refine ⟨s, [], rfl, rfl, ?_⟩
    exact acc_matches_nil s (by simpa using hacc)
  | cons n sizes ih =>
    intro secs m s hvalid hcfg hacc hacq hpos hsum
    have hn : 0 < n := hpos n (List.mem_cons_self _ _)
    have hmn : m + n ≤ secs.flatten.length := by
      rw [List.sum_cons] at hsum; omega
    have hposs : ∀ x ∈ secs, 0 < x.length := fun x hx => valid_section_pos x (hvalid x hx)
    -- the first record
    have hrec := cut_record_form ((secs.flatten.drop m).take n)
      ((shift_starts m (section_starts secs 0)).filter (fun b => b < n))
    obtain ⟨hdisc, hshape⟩ := hrec
    have hform : ((cut_record ((secs.flatten.drop m).take n)
          ((shift_starts m (section_starts secs 0)).filter (fun b => b < n))).start = true ∧
        ∃ pf, (cut_record ((secs.flatten.drop m).take n)
          ((shift_starts m (section_starts secs 0)).filter (fun b => b < n))).block
            = pf :: (secs.flatten.drop m).take n ∧ (s.acquired = true ∨ pf = 0)) ∨
        ((cut_record ((secs.flatten.drop m).take n)
          ((shift_starts m (section_starts secs 0)).filter (fun b => b < n))).start = false ∧
         (cut_record ((secs.flatten.drop m).take n)
          ((shift_starts m (section_starts secs 0)).filter (fun b => b < n))).block
            = (secs.flatten.drop m).take n ∧ 0 < m) := by
      rcases Nat.eq_zero_or_pos m with hm0 | hmpos
      · subst hm0
        cases secs with
        | nil => simp at hmn; omega
        | cons sec rest =>
          rw [cut_record_at_boundary sec rest n hn]
          exact Or.inl ⟨rfl, 0, rfl, Or.inr rfl⟩
      · have hs : s.acquired = true := by
          rcases hacq with h | h
          · exact h
          · omega
        rcases hshape with ⟨h1, pf, h2⟩ | ⟨h1, h2⟩
        · exact Or.inl ⟨h1, pf, h2, Or.inl hs⟩
        · exact Or.inr ⟨h1, h2, hmpos⟩
    obtain ⟨s1, a1, hin, hem1, hacc1, hacq1⟩ :=
      input_start_valid env halloc secs hvalid m n s _ ((secs.flatten.drop m).take n)
        hcfg hacc hn hmn rfl hacq hform
    -- the remaining records
    have hlen := congrArg List.length (pending_drop secs (m + n))
    rw [List.length_drop, List.length_drop] at hlen
    have hoff : (pending secs (m + n)).2 ≤ (pending secs (m + n)).1.flatten.length := by
      cases hp : (pending secs (m + n)).1 with
      | nil => rw [pending_offset_nil secs (m + n) hp]; exact Nat.zero_le _
      | cons x xs =>
        have := pending_offset secs (m + n) hposs x xs hp
        rw [List.flatten_cons, List.length_append]
        omega
    obtain ⟨s2, a2, hrun, hem2, hnone⟩ :=
      ih (pending secs (m + n)).1 (pending secs (m + n)).2 s1
        (fun x hx => hvalid x (pending_mem secs (m + n) x hx))
        (pending_offset secs (m + n) hposs) hacc1 (Or.inl hacq1)
        (fun k hk => hpos k (List.mem_cons_of_mem _ hk))
        (by rw [List.sum_cons] at hsum; omega)
    refine ⟨s2, a1 ++ a2, ?_, ?_, hnone⟩
    · simp only [cut_records, upipe_ts_psim_run]
      rw [psim_input_of_no_flush env s _ (Or.inr hdisc), hin]
      rw [shift_starts_shift, shift_starts_pending secs (m + n) hposs, List.drop_drop,
        ← pending_drop secs (m + n)]
      simp only [hrun]
    · rw [emitted_append, hem1, hem2, completed_append_pending]

theorem helper_output_delivered (env : Env) (h : OutputHelper) (u : Uref)
    (halloc : env.alloc = true) (hw : wired h) :
    ∃ h2 acts, helper_output env h u = .ok (h2, acts)
      ∧ delivered acts = emitted acts ∧ wired h2 := by
  obtain ⟨o, f, ho, hf⟩ := hw
  refine ⟨_, _, helper_output_wired env h u o f halloc ho hf, ?_, o, f, ho, hf⟩
  cases h.flow_def_sent <;> simp [delivered, emitted]

theorem psim_flush_delivered (s : upipe_ts_psim) :
    delivered (upipe_ts_psim_flush s).2 = emitted (upipe_ts_psim_flush s).2
      ∧ (upipe_ts_psim_flush s).1.toOutputHelper = s.toOutputHelper := by
  rw [psim_flush_state, psim_flush_actions]
  cases s.next_uref <;> cases s.acquired <;> simp [delivered, emitted]

theorem psim_merge_section_delivered (env : Env) (s : upipe_ts_psim) (data uref : Uref)
    (halloc : env.alloc = true) (hw : wired s.toOutputHelper) :
    ∀ r, upipe_ts_psim_merge_section env s data uref = .ok r →
      delivered r.2.2.1 = emitted r.2.2.1 ∧ wired r.1.toOutputHelper := by
  intro r hr
  unfold upipe_ts_psim_merge_section at hr
  simp only at hr
  split at hr
  · injection hr with hr; subst hr; exact ⟨rfl, hw⟩
  · split at hr
    · injection hr with hr; subst hr
      have := psim_flush_delivered { s with next_uref := some data }
      exact ⟨this.1, by rw [this.2]; exact hw⟩
    · split at hr
      · injection hr with hr; subst hr; exact ⟨rfl, hw⟩
      · split at hr
        · cases hr
        · rename_i out hout
          obtain ⟨h2, acts, ho, hd, hw2⟩ := helper_output_delivered env s.toOutputHelper out halloc hw
          simp only [upipe_ts_psim_output, ho] at hr
          split at hr
          · injection hr with hr; subst hr; exact ⟨hd, hw2⟩
          · split at hr
            · cases hr
            · injection hr with hr; subst hr; exact ⟨hd, hw2⟩

theorem psim_merge_delivered (env : Env) (s : upipe_ts_psim) (uref : Uref)
    (halloc : env.alloc = true) (hw : wired s.toOutputHelper) :
    ∀ r, upipe_ts_psim_merge env s uref = .ok r →
      delivered r.2.2.1 = emitted r.2.2.1 ∧ wired r.1.toOutputHelper := by
  intro r hr
  unfold upipe_ts_psim_merge at hr
  simp only [halloc, if_true] at hr
  split at hr
  · exact psim_merge_section_delivered env s _ uref halloc hw r hr
  · split at hr
    · split at hr
      · injection hr with hr; subst hr; exact ⟨rfl, hw⟩
      · exact psim_merge_section_delivered env s _ uref halloc hw r hr
    · injection hr with hr; subst hr; exact ⟨rfl, hw⟩

theorem psim_merge_loop_delivered (env : Env) (halloc : env.alloc = true) :
    ∀ (fuel : Nat) (s : upipe_ts_psim) (uref : Uref), wired s.toOutputHelper →
    ∀ r, upipe_ts_psim_merge_loop env fuel s uref = .ok r →
      delivered r.2.2 = emitted r.2.2 ∧ wired r.1.toOutputHelper := by
  intro fuel
  induction fuel with
  | zero => intro s uref _ r hr; simp [upipe_ts_psim_merge_loop] at hr
  | succ f ih =>
    intro s uref hw r hr
    unfold upipe_ts_psim_merge_loop at hr
    cases hm : upipe_ts_psim_merge env s uref with
    | error e => rw [hm] at hr; cases hr
    | ok r1 =>
      obtain ⟨s1, u1, a1, b⟩ := r1
      have h1 := psim_merge_delivered env s uref halloc hw _ hm
      rw [hm] at hr
      cases b
      · simp only at hr
        injection hr with hr; subst hr; exact h1
      · simp only at hr
        cases hl : upipe_ts_psim_merge_loop env f s1 u1 with
        | error e => rw [hl] at hr; cases hr
        | ok r2 =>
          obtain ⟨s2, u2, a2⟩ := r2
          have h2 := ih s1 u1 h1.2 _ hl
          rw [hl] at hr
          simp only at hr
          injection hr with hr; subst hr
          exact ⟨by simp only [delivered_append, emitted_append, h1.1, h2.1], h2.2⟩

theorem psim_input_sections_delivered (env : Env) (halloc : env.alloc = true)
    (s : upipe_ts_psim) (uref : Uref) (hw : wired s.toOutputHelper) :
    ∀ r, upipe_ts_psim_input_sections env s uref = .ok r →
      delivered r.2 = emitted r.2 ∧ wired r.1.toOutputHelper := by
  intro r hr
  unfold upipe_ts_psim_input_sections at hr
  cases hl : upipe_ts_psim_merge_loop env (uref.block.length + 2) s uref with
  | error e => rw [hl] at hr; cases hr
  | ok r1 =>
    obtain ⟨s1, u1, a1⟩ := r1
    have h1 := psim_merge_loop_delivered env halloc _ s uref hw _ hl
    rw [hl] at hr
    simp only at hr
    injection hr with hr; subst hr
    exact ⟨by simp [delivered_append, emitted_append, h1.1, delivered, emitted], h1.2⟩

theorem psim_input_start_delivered (env : Env) (halloc : env.alloc = true)
    (s : upipe_ts_psim) (uref : Uref) (hw : wired s.toOutputHelper) :
    ∀ r, upipe_ts_psim_input_start env s uref = .ok r →
      delivered r.2 = emitted r.2 ∧ wired r.1.toOutputHelper := by
  intro r hr
  have hfl := psim_flush_delivered s
  unfold upipe_ts_psim_input_start at hr
  split at hr
  · split at hr
    · split at hr
      · injection hr with hr; subst hr
        exact ⟨by simp [delivered, emitted, hfl.1], by rw [hfl.2]; exact hw⟩
      · exact psim_input_sections_delivered env halloc s _ hw r hr
    · split at hr
      · split at hr
        · injection hr with hr; subst hr; exact ⟨rfl, hw⟩
        · simp only at hr
          split at hr
          · cases hr
          · rename_i r2 hr2
            injection hr with hr; subst hr
            have hacq : (upipe_ts_psim_sync_acquired s).1.toOutputHelper = s.toOutputHelper := by
              unfold upipe_ts_psim_sync_acquired; split <;> rfl
            have hacts : delivered (upipe_ts_psim_sync_acquired s).2 = []
                ∧ emitted (upipe_ts_psim_sync_acquired s).2 = [] := by
              unfold upipe_ts_psim_sync_acquired; split <;> exact ⟨rfl, rfl⟩
            have h2 := psim_input_sections_delivered env halloc _ _ (by rw [hacq]; exact hw) r2 hr2
            exact ⟨by simp only [delivered_append, emitted_append, hacts.1, hacts.2, h2.1], h2.2⟩
      · injection hr with hr; subst hr; exact ⟨rfl, hw⟩
  · split at hr
    · injection hr with hr; subst hr
      exact ⟨by simp [delivered, emitted, hfl.1], by rw [hfl.2]; exact hw⟩
    · exact psim_input_sections_delivered env halloc s _ hw r hr

/-- With an output wired, a flow definition stored and allocations succeeding,
every record `upipe_ts_psim_input` hands to the output helper is delivered
downstream, and the output stays wired. -/
theorem psim_input_delivered (env : Env) (halloc : env.alloc = true)
    (s : upipe_ts_psim) (uref : Uref) (hw : wired s.toOutputHelper) :
    ∀ r, upipe_ts_psim_input env s uref = .ok r →
      delivered r.2 = emitted r.2 ∧ wired r.1.toOutputHelper := by
  intro r hr
  unfold upipe_ts_psim_input at hr
  split at hr
  · simp only at hr
    have hfl := psim_flush_delivered s
    split at hr
    · cases hr
    · rename_i r2 hr2
      injection hr with hr; subst hr
      have h2 := psim_input_start_delivered env halloc _ uref (by rw [hfl.2]; exact hw) r2 hr2
      exact ⟨by simp only [delivered_append, emitted_append, hfl.1, h2.1], h2.2⟩
  · exact psim_input_start_delivered env halloc s uref hw r hr

theorem psim_run_delivered (env : Env) (halloc : env.alloc = true) :
    ∀ (urefs : List Uref) (s : upipe_ts_psim), wired s.toOutputHelper →
    ∀ r, upipe_ts_psim_run env s urefs = .ok r →
      delivered r.2 = emitted r.2 ∧ wired r.1.toOutputHelper := by
  intro urefs
  induction urefs with
  | nil =>
    intro s hw r hr
    simp only [upipe_ts_psim_run] at hr
    injection hr with hr; subst hr; exact ⟨rfl, hw⟩
  | cons u us ih =>
    intro s hw r hr
    unfold upipe_ts_psim_run at hr
    cases h1 : upipe_ts_psim_input env s u with
    | error e => rw [h1] at hr; cases hr
    | ok r1 =>
      have hd1 := psim_input_delivered env halloc s u hw r1 h1
      rw [h1] at hr
      simp only at hr
      cases h2 : upipe_ts_psim_run env r1.1 us with
      | error e => rw [h2] at hr; cases hr
      | ok r2 =>
        have hd2 := ih r1.1 hd1.2 r2 h2
        rw [h2] at hr
        simp only at hr
        injection hr with hr; subst hr
        exact ⟨by simp only [delivered_append, emitted_append, hd1.1, hd2.1], hd2.2⟩

theorem psim_flush_desync (s : upipe_ts_psim) : desync_is_empty (upipe_ts_psim_flush s).1 := by
  rw [psim_flush_state]; exact Or.inr rfl

theorem psim_output_acquired (env : Env) (s : upipe_ts_psim) (u : Uref) :
    ∀ r, upipe_ts_psim_output env s u = .ok r →
      r.1.acquired = s.acquired ∧ r.1.next_uref = s.next_uref := by
  intro r hr
  obtain ⟨h2, a, h, _⟩ := psim_output_ok env s u
  rw [h] at hr
  injection hr with hr; subst hr; exact ⟨rfl, rfl⟩

theorem psim_merge_section_desync (env : Env) (s : upipe_ts_psim) (data uref : Uref)
    (hs : s.acquired = true) :
    ∀ r, upipe_ts_psim_merge_section env s data uref = .ok r →
      desync_is_empty r.1 ∧ (r.2.2.2 = true → r.1.acquired = true) := by
  intro r hr
  unfold upipe_ts_psim_merge_section at hr
  simp only at hr
  split at hr
  · injection hr with hr; subst hr; exact ⟨Or.inl hs, fun h => by cases h⟩
  · split at hr
    · injection hr with hr; subst hr
      exact ⟨psim_flush_desync _, fun h => by cases h⟩
    · split at hr
      · injection hr with hr; subst hr; exact ⟨Or.inl hs, fun h => by cases h⟩
      · split at hr
        · cases hr
        · split at hr
          · cases hr
          · rename_i r1 hr1
            have h1 := psim_output_acquired env _ _ r1 hr1
            split at hr
            · injection hr with hr; subst hr
              exact ⟨Or.inr rfl, fun h => by cases h⟩
            · split at hr
              · cases hr
              · injection hr with hr; subst hr
                exact ⟨Or.inr rfl, fun _ => by rw [h1.1]; exact hs⟩

theorem psim_merge_desync (env : Env) (s : upipe_ts_psim) (uref : Uref)
    (hs : s.acquired = true) :
    ∀ r, upipe_ts_psim_merge env s uref = .ok r →
      desync_is_empty r.1 ∧ (r.2.2.2 = true → r.1.acquired = true) := by
  intro r hr
  unfold upipe_ts_psim_merge at hr
  split at hr
  · split at hr
    · exact psim_merge_section_desync env s _ uref hs r hr
    · injection hr with hr; subst hr
      exact ⟨psim_flush_desync _, fun h => by cases h⟩
  · split at hr
    · split at hr
      · injection hr with hr; subst hr; exact ⟨Or.inl hs, fun h => by cases h⟩
      · split at hr
        · exact psim_merge_section_desync env s _ uref hs r hr
        · injection hr with hr; subst hr; exact ⟨Or.inl hs, fun h => by cases h⟩
    · injection hr with hr; subst hr; exact ⟨Or.inl hs, fun h => by cases h⟩

theorem psim_merge_loop_desync (env : Env) :
    ∀ (fuel : Nat) (s : upipe_ts_psim) (uref : Uref), s.acquired = true →
    ∀ r, upipe_ts_psim_merge_loop env fuel s uref = .ok r → desync_is_empty r.1 := by
  intro fuel
  induction fuel with
  | zero => intro s uref _ r hr; simp [upipe_ts_psim_merge_loop] at hr
  | succ f ih =>
    intro s uref hs r hr
    unfold upipe_ts_psim_merge_loop at hr
    cases hm : upipe_ts_psim_merge env s uref with
    | error e => rw [hm] at hr; cases hr
    | ok r1 =>
      obtain ⟨s1, u1, a1, b⟩ := r1
      have h1 := psim_merge_desync env s uref hs _ hm
      rw [hm] at hr
      cases b
      · simp only at hr
        injection hr with hr; subst hr; exact h1.1
      · simp only at hr
        cases hl : upipe_ts_psim_merge_loop env f s1 u1 with
        | error e => rw [hl] at hr; cases hr
        | ok r2 =>
          obtain ⟨s2, u2, a2⟩ := r2
          have h2 := ih s1 u1 (h1.2 rfl) _ hl
          rw [hl] at hr
          simp only at hr
          injection hr with hr; subst hr
          exact h2

theorem psim_input_sections_desync (env : Env) (s : upipe_ts_psim) (uref : Uref)
    (hs : s.acquired = true) :
    ∀ r, upipe_ts_psim_input_sections env s uref = .ok r → desync_is_empty r.1 := by
  intro r hr
  unfold upipe_ts_psim_input_sections at hr
  cases hl : upipe_ts_psim_merge_loop env (uref.block.length + 2) s uref with
  | error e => rw [hl] at hr; cases hr
  | ok r1 =>
    obtain ⟨s1, u1, a1⟩ := r1
    have h1 := psim_merge_loop_desync env _ s uref hs _ hl
    rw [hl] at hr
    simp only at hr
    injection hr with hr; subst hr
    exact h1

theorem psim_input_start_desync_is_empty (env : Env) (s : upipe_ts_psim) (uref : Uref)
    (hinv : desync_is_empty s) :
    ∀ r, upipe_ts_psim_input_start env s uref = .ok r → desync_is_empty r.1 := by
  intro r hr
  unfold upipe_ts_psim_input_start at hr
  split at hr
  · split at hr
    · rename_i hacq
      split at hr
      · injection hr with hr; subst hr; exact psim_flush_desync s
      · exact psim_input_sections_desync env s _ hacq r hr
    · split at hr
      · split at hr
        · injection hr with hr; subst hr; exact hinv
        · simp only at hr
          split at hr
          · cases hr
          · rename_i r2 hr2
            injection hr with hr; subst hr
            have hacq : (upipe_ts_psim_sync_acquired s).1.acquired = true := by
              unfold upipe_ts_psim_sync_acquired; split
              · assumption
              · rfl
            exact psim_input_sections_desync env _ _ hacq r2 hr2
      · injection hr with hr; subst hr; exact hinv
  · split at hr
    · injection hr with hr; subst hr; exact psim_flush_desync s
    · rename_i hsome
      have hacq : s.acquired = true := by
        rcases hinv with h | h
        · exact h
        · exact absurd h hsome
      exact psim_input_sections_desync env s _ hacq r hr

/-- Every call of `upipe_ts_psim_input` keeps the accumulator empty whenever it
leaves the pipe in desync; a fresh pipe is in desync with an empty accumulator. -/
theorem psim_input_desync_is_empty (env : Env) (s : upipe_ts_psim) (uref : Uref)
    (hinv : desync_is_empty s) :
    ∀ r, upipe_ts_psim_input env s uref = .ok r → desync_is_empty r.1 := by
  intro r hr
  unfold upipe_ts_psim_input at hr
  split at hr
  · simp only at hr
    split at hr
    · cases hr
    · rename_i r2 hr2
      injection hr with hr; subst hr
      exact psim_input_start_desync_is_empty env _ uref (psim_flush_desync s) r2 hr2
  · exact psim_input_start_desync_is_empty env s uref hinv r hr

theorem peek_dated_queue (urefs : List Uref) :
    (upipe_trickp_peek_dated urefs).1 = drop_undated urefs := by
  induction urefs with
  | nil => rfl
  | cons u us ih =>
    unfold upipe_trickp_peek_dated drop_undated
    cases h : upipe_trickp_uref_ts u
    · simp only [List.dropWhile_cons, h, Option.isNone_none, if_true]
      exact ih
    · simp [List.dropWhile_cons, h]

theorem peek_dated_frees (urefs : List Uref) :
    ∀ a ∈ (upipe_trickp_peek_dated urefs).2.1,
      ∃ u, a = Action.free u ∧ upipe_trickp_uref_ts u = none := by
  induction urefs with
  | nil => intro a ha; simp [upipe_trickp_peek_dated] at ha
  | cons u us ih =>
    intro a ha
    unfold upipe_trickp_peek_dated at ha
    cases h : upipe_trickp_uref_ts u
    · simp only [h] at ha
      rcases List.mem_cons.mp ha with h1 | h1
      · exact ⟨u, h1, h⟩
      · exact ih a h1
    · simp [h] at ha

theorem first_dated_none (urefs : List Uref)
    (h : ∀ u ∈ urefs, upipe_trickp_uref_ts u = none) : first_dated urefs = none := by
  unfold first_dated
  have : urefs.filterMap upipe_trickp_uref_ts = [] := by
    apply List.filterMap_eq_nil_iff.mpr
    exact h
  rw [this]; rfl

/-- When some subpipe that is not a subpicture holds no dated record, the first
loop of `upipe_trickp_check_start` returns ("not ready"). -/
theorem scan_not_ready (subs : List upipe_trickp_sub) (earliest_ts : Nat)
    (h : not_ready subs) : (upipe_trickp_scan subs earliest_ts).2.2 = none := by
  induction subs generalizing earliest_ts with
  | nil => obtain ⟨sub, hs, _⟩ := h; cases hs
  | cons sub subs ih =>
    unfold upipe_trickp_scan
    by_cases ht : sub.type = upipe_trickp_sub_type.UPIPE_TRICKP_SUBPIC
    · simp only [ht, if_true]
      apply ih
      obtain ⟨x, hx, hxt, hxu⟩ := h
      rcases List.mem_cons.mp hx with h1 | h1
      · subst h1; exact absurd ht hxt
      · exact ⟨x, h1, hxt, hxu⟩
    · simp only [ht, if_false, peek_dated_date]
      cases hd : first_dated sub.urefs with
      | none => rfl
      | some ts =>
        simp only
        apply ih
        obtain ⟨x, hx, hxt, hxu⟩ := h
        rcases List.mem_cons.mp hx with h1 | h1
        · subst h1
          rw [first_dated_none _ hxu] at hd
          cases hd
        · exact ⟨x, h1, hxt, hxu⟩

/-- What the first loop of `upipe_trickp_check_start` leaves: every subpipe is
untouched or has lost the leading undated records of its held queue, and every
effect is the release of an undated record. -/
theorem scan_effect (subs : List upipe_trickp_sub) (earliest_ts : Nat) :
    List.Forall₂ (fun sub sub2 => sub2 = sub ∨ sub2 = { sub with urefs := drop_undated sub.urefs })
      subs (upipe_trickp_scan subs earliest_ts).1
    ∧ ∀ a ∈ (upipe_trickp_scan subs earliest_ts).2.1,
        ∃ u, a = Action.free u ∧ upipe_trickp_uref_ts u = none := by
  induction subs generalizing earliest_ts with
  | nil => exact ⟨List.Forall₂.nil, fun a ha => by simp [upipe_trickp_scan] at ha⟩
  | cons sub subs ih =>
    have hsame : List.Forall₂
        (fun sub sub2 => sub2 = sub ∨ sub2 = { sub with urefs := drop_undated sub.urefs })
        subs subs := by
      clear ih
      induction subs with
      | nil => exact List.Forall₂.nil
      | cons y ys ihy => exact List.Forall₂.cons (Or.inl rfl) ihy
    unfold upipe_trickp_scan
    by_cases ht : sub.type = upipe_trickp_sub_type.UPIPE_TRICKP_SUBPIC
    · simp only [ht, if_true]
      exact ⟨List.Forall₂.cons (Or.inl rfl) (ih earliest_ts).1, (ih earliest_ts).2⟩
    · simp only [ht, if_false]
      cases hd : (upipe_trickp_peek_dated sub.urefs).2.2 with
      | none =>
        simp only
        refine ⟨List.Forall₂.cons (Or.inr ?_) hsame, peek_dated_frees sub.urefs⟩
        rw [peek_dated_queue]
      | some ts =>
        simp only
        refine ⟨List.Forall₂.cons (Or.inr ?_) (ih _).1, ?_⟩
        · rw [peek_dated_queue]
        · intro a ha
          rcases List.mem_append.mp ha with h1 | h1
          · exact peek_dated_frees sub.urefs a h1
          · exact (ih _).2 a h1

theorem peek_dated_released (urefs : List Uref) :
    (upipe_trickp_peek_dated urefs).2.1
      = (urefs.takeWhile (fun u => (upipe_trickp_uref_ts u).isNone)).map Action.free := by
  induction urefs with
  | nil => rfl
  | cons u us ih =>
    unfold upipe_trickp_peek_dated
    cases h : upipe_trickp_uref_ts u
    · simp only [List.takeWhile_cons, h, Option.isNone_none, if_true, List.map_cons]
      rw [ih]
    · simp [List.takeWhile_cons, h]

theorem first_dated_eq_none (urefs : List Uref) (h : first_dated urefs = none) :
    ∀ u ∈ urefs, upipe_trickp_uref_ts u = none := by
  intro u hu
  cases hts : upipe_trickp_uref_ts u with
  | none => rfl
  | some ts =>
    obtain ⟨ts2, h2⟩ := first_dated_isSome urefs ⟨u, hu, by rw [hts]; exact Option.some_ne_none _⟩
    rw [h] at h2
    cases h2

theorem first_dated_eq_some (urefs : List Uref) (ts : Nat) (h : first_dated urefs = some ts) :
    ∃ u ∈ urefs, upipe_trickp_uref_ts u ≠ none := by
  by_contra hc
  have hall : ∀ u ∈ urefs, upipe_trickp_uref_ts u = none := by
    intro u hu
    by_contra hne
    exact hc ⟨u, hu, hne⟩
  rw [first_dated_none urefs hall] at h
  cases h

/-- Where the first loop of `upipe_trickp_check_start` stops when it returns
("not ready"), and what it leaves: the list of subpipes splits at the first
subpipe that is not a subpicture and holds no dated record; the subpipes up to
and including that one are as `scanned_spec` describes, the later ones are
untouched, and the releases are those of `dropped_spec` on the former. -/
theorem scan_stops (subs : List upipe_trickp_sub) (earliest_ts : Nat)
    (h : not_ready subs) :
    ∃ pre sub post, subs = pre ++ sub :: post
      ∧ sub.type ≠ upipe_trickp_sub_type.UPIPE_TRICKP_SUBPIC
      ∧ (∀ u ∈ sub.urefs, upipe_trickp_uref_ts u = none)
      ∧ (∀ x ∈ pre, x.type ≠ upipe_trickp_sub_type.UPIPE_TRICKP_SUBPIC →
          ∃ u ∈ x.urefs, upipe_trickp_uref_ts u ≠ none)
      ∧ (upipe_trickp_scan subs earliest_ts).1
          = (pre ++ [sub]).map scanned_spec ++ post
      ∧ (upipe_trickp_scan subs earliest_ts).2.1 = dropped_spec (pre ++ [sub]) := by
  induction subs generalizing earliest_ts with
  | nil => obtain ⟨sub, hs, _⟩ := h; cases hs
  | cons sub subs ih =>
    have hrest : (sub.type = upipe_trickp_sub_type.UPIPE_TRICKP_SUBPIC ∨
        ∃ u ∈ sub.urefs, upipe_trickp_uref_ts u ≠ none) → not_ready subs := by
      intro hc
      obtain ⟨x, hx, hxt, hxu⟩ := h
      rcases List.mem_cons.mp hx with h1 | h1
      · subst h1
        rcases hc with hc | ⟨u, hu, hne⟩
        · exact absurd hc hxt
        · exact absurd (hxu u hu) hne
      · exact ⟨x, h1, hxt, hxu⟩
    by_cases ht : sub.type = upipe_trickp_sub_type.UPIPE_TRICKP_SUBPIC
    · obtain ⟨pre, s, post, e, hst, hsu, hpre, h1, h2⟩ := ih earliest_ts (hrest (Or.inl ht))
      refine ⟨sub :: pre, s, post, by rw [e]; rfl, hst, hsu, ?_, ?_, ?_⟩
      · intro x hx hxt
        rcases List.mem_cons.mp hx with hx1 | hx1
        · subst hx1; exact absurd ht hxt
        · exact hpre x hx1 hxt
      · unfold upipe_trickp_scan
        simp only [ht, if_true, h1, List.cons_append, List.map_cons, scanned_spec]
      · unfold upipe_trickp_scan
        simp only [ht, if_true, h2, List.cons_append, dropped_spec, List.nil_append]
        rfl
    · cases hd : first_dated sub.urefs with
      | none =>
        have hall := first_dated_eq_none sub.urefs hd
        refine ⟨[], sub, subs, rfl, ht, hall, ?_, ?_, ?_⟩
        · intro x hx; cases hx
        · unfold upipe_trickp_scan
          simp only [ht, if_false, peek_dated_date, hd, peek_dated_queue, List.nil_append,
            List.map_cons, List.map_nil, scanned_spec, List.cons_append]
        · unfold upipe_trickp_scan
          simp only [ht, if_false, peek_dated_date, hd, peek_dated_released, List.nil_append,
            dropped_spec, List.append_nil]
      | some ts =>
        have hdated := first_dated_eq_some sub.urefs ts hd
        obtain ⟨pre, s, post, e, hst, hsu, hpre, h1, h2⟩ :=
          ih (if ts < earliest_ts then ts else earliest_ts) (hrest (Or.inr hdated))
        refine ⟨sub :: pre, s, post, by rw [e]; rfl, hst, hsu, ?_, ?_, ?_⟩
        · intro x hx hxt
          rcases List.mem_cons.mp hx with hx1 | hx1
          · subst hx1; exact hdated
          · exact hpre x hx1 hxt
        · unfold upipe_trickp_scan
          simp only [ht, if_false, peek_dated_date, hd, peek_dated_queue, h1,
            List.cons_append, List.map_cons, scanned_spec]
        · unfold upipe_trickp_scan
          simp only [ht, if_false, peek_dated_date, hd, peek_dated_released, h2,
            List.cons_append, dropped_spec]
          rfl

/-- With a clock attached and a rate that fits `int64_t`,
`upipe_trickp_check_start` returns, and leaves the rate and the clock as they
were. -/
theorem check_start_clocked (env : Env) (t : upipe_trickp) (clock : Nat)
    (hclock : t.uclock = some clock)
    (hlo : -(2 ^ 63) ≤ t.rate.num) (hhi : t.rate.num < 2 ^ 64) :
    ∃ t2 acts, upipe_trickp_check_start env t = .ok (t2, acts)
      ∧ t2.rate = t.rate ∧ t2.uclock = t.uclock := by
  cases hs : (upipe_trickp_scan t.subs UINT64_MAX).2.2 with
  | none =>
    exact ⟨{ t with subs := (upipe_trickp_scan t.subs UINT64_MAX).1 },
      (upipe_trickp_scan t.subs UINT64_MAX).2.1,
      by simp only [upipe_trickp_check_start, hs], rfl, rfl⟩
  | some e =>
    obtain ⟨⟨subs2, a2⟩, hdrain⟩ := drain_ok env
      { t with subs := (upipe_trickp_scan t.subs UINT64_MAX).1,
               ts_origin := e,
               systime_offset := (env.now + UPIPE_TRICKP_PTS_DELAY) % 2 ^ 64 }
      (upipe_trickp_scan t.subs UINT64_MAX).1 hlo hhi
    simp only [hclock] at hdrain
    exact ⟨{ t with subs := subs2, ts_origin := e,
                    systime_offset := (env.now + UPIPE_TRICKP_PTS_DELAY) % 2 ^ 64 },
      (upipe_trickp_scan t.subs UINT64_MAX).2.1 ++ a2,
      by simp only [upipe_trickp_check_start, hs, hclock, hdrain], rfl, rfl⟩

/-- On a pipe without clock in which every subpipe that is not a subpicture
holds a dated record (in particular a pipe without subpipe),
`_upipe_trickp_set_rate` reaches `uclock_now(upipe_trickp->uclock)` at line 360
of `upipe_trickp_check_start` with a null clock. -/
theorem set_rate_unclocked_ready (env : Env) (t : upipe_trickp) (r : urational)
    (hclock : t.uclock = none) (hready : ¬ not_ready t.subs) :
    _upipe_trickp_set_rate env t r = .error Fault.null_deref := by
  have hr : ∀ sub ∈ t.subs, sub.type ≠ upipe_trickp_sub_type.UPIPE_TRICKP_SUBPIC →
      ∃ u ∈ sub.urefs, upipe_trickp_uref_ts u ≠ none := by
    intro sub hs ht
    by_contra hc
    apply hready
    refine ⟨sub, hs, ht, ?_⟩
    intro u hu
    by_contra hne
    exact hc ⟨u, hu, hne⟩
  have hscan := scan_ready t.subs UINT64_MAX hr
  simp only [_upipe_trickp_set_rate, upipe_trickp_check_start, upipe_trickp_reset_uclock,
    hscan, hclock]

/-- When some subpipe that is not a subpicture holds no dated record,
`_upipe_trickp_set_rate` returns, `_upipe_trickp_get_rate` then gives the new
rate, and `systime_offset` and `ts_origin` are both 0. -/
theorem set_rate_not_ready (env : Env) (t : upipe_trickp) (r : urational)
    (hnr : not_ready t.subs) :
    ∃ t2 acts, _upipe_trickp_set_rate env t r = .ok (t2, acts, false)
      ∧ _upipe_trickp_get_rate t2 = (r, true)
      ∧ t2.systime_offset = 0 ∧ t2.ts_origin = 0 := by
  have hscan := scan_not_ready t.subs UINT64_MAX hnr
  refine ⟨{ t with rate := r, systime_offset := 0, ts_origin := 0,
                   subs := (upipe_trickp_scan t.subs UINT64_MAX).1 },
    (upipe_trickp_scan t.subs UINT64_MAX).2.1, ?_, rfl, rfl, rfl⟩
  simp only [_upipe_trickp_set_rate, upipe_trickp_check_start, upipe_trickp_reset_uclock,
    hscan]

/-- With a clock attached and a new rate that fits `int64_t`,
`_upipe_trickp_set_rate` returns and `_upipe_trickp_get_rate` then gives the
new rate. -/
theorem set_rate_clocked (env : Env) (t : upipe_trickp) (r : urational) (clock : Nat)
    (hclock : t.uclock = some clock)
    (hlo : -(2 ^ 63) ≤ r.num) (hhi : r.num < 2 ^ 64) :
    ∃ t2 acts, _upipe_trickp_set_rate env t r = .ok (t2, acts, false)
      ∧ _upipe_trickp_get_rate t2 = (r, true) := by
  obtain ⟨t2, acts, h, hrate, _⟩ := check_start_clocked env
    (upipe_trickp_reset_uclock { t with rate := r }) clock hclock hlo hhi
  refine ⟨t2, acts, ?_, ?_⟩
  · simp only [_upipe_trickp_set_rate, h]
  · unfold _upipe_trickp_get_rate
    rw [hrate]
    rfl

theorem ubase_ncmp_eq_false_iff (d start : String) :
    ubase_ncmp d start = false ↔ begins_with d start := by
  unfold ubase_ncmp begins_with
  simp only [bne_eq_false_iff_eq]
  constructor
  · intro h
    refine ⟨d.toList.drop start.toList.length, ?_⟩
    have h2 := List.take_append_drop start.toList.length d.toList
    rw [h] at h2
    exact h2.symm
  · rintro ⟨rest, h⟩
    rw [h, List.take_left]

theorem sub_alloc_type_examples :
    upipe_trickp_sub_alloc_type ⟨some "pic.sub.dvb.", 0⟩
        = upipe_trickp_sub_type.UPIPE_TRICKP_SUBPIC
    ∧ upipe_trickp_sub_alloc_type ⟨some "pic.", 0⟩ = upipe_trickp_sub_type.UPIPE_TRICKP_PIC
    ∧ upipe_trickp_sub_alloc_type ⟨some "sound.s16.", 0⟩
        = upipe_trickp_sub_type.UPIPE_TRICKP_SOUND
    ∧ upipe_trickp_sub_alloc_type ⟨some "block.mpeg2video.pic.", 0⟩
        = upipe_trickp_sub_type.UPIPE_TRICKP_SOUND
    ∧ upipe_trickp_sub_alloc_type ⟨none, 0⟩ = upipe_trickp_sub_type.UPIPE_TRICKP_SUBPIC := by
  decide

theorem own_erase_append (a b : List Own) :
    own_erase (a ++ b) = own_erase a ++ own_erase b := by
  induction a with
  | nil => rfl
  | cons e es ih => cases e <;> simp [own_erase, ih]

theorem own_erase_others (acts : List Action) : own_erase (acts.map Own.other) = acts := by
  induction acts with
  | nil => rfl
  | cons a as ih => simp [own_erase, ih]

theorem ledger_append (l : Ledger) (a b : List Own) :
    ledger l (a ++ b) = (ledger l a).bind (fun l1 => ledger l1 b) := by
  induction a generalizing l with
  | nil => rfl
  | cons e es ih =>
    simp only [List.cons_append, ledger]
    cases ledger_step l e with
    | none => rfl
    | some l1 => exact ih l1

theorem ledger_others (l : Ledger) (acts : List Action) :
    ledger l (acts.map Own.other) = some l := by
  induction acts with
  | nil => rfl
  | cons a as ih => simpa [ledger, ledger_step] using ih

/-- The labelled output helper returns, it is the output helper with labels,
and its events balance: the record handed in is forwarded or freed, once. -/
theorem helper_output_own_spec (env : Env) (h : OutputHelper) (u : Uref) (i : Bool) :
    ∃ h1 evs, helper_output_own env h u = .ok (h1, evs) ∧
      helper_output env h u = .ok (h1, own_erase evs) ∧
      ledger ⟨i, true, none⟩ evs = some ⟨i, false, none⟩ := by
  rcases h with ⟨o, f, sent⟩
  rcases o with _ | o <;> rcases f with _ | fd <;> cases sent <;>
    simp only [helper_output_own, helper_output, helper_throw_need_output, helper_set_output,
      helper_flow_def]
  all_goals first
    | exact ⟨_, _, rfl, by simp [own_erase], by simp [ledger, ledger_step]⟩
    | (cases hn : env.need_output fd <;> cases ha : env.alloc <;>
        exact ⟨_, _, rfl, by simp [own_erase], by simp [ledger, ledger_step]⟩)

theorem psim_output_own_spec (env : Env) (s : upipe_ts_psim) (u : Uref) (i : Bool) :
    ∃ h1 evs, upipe_ts_psim_output_own env s u = .ok ({ s with toOutputHelper := h1 }, evs) ∧
      upipe_ts_psim_output env s u = .ok ({ s with toOutputHelper := h1 }, own_erase evs) ∧
      ledger ⟨i, true, none⟩ evs = some ⟨i, false, none⟩ := by
  obtain ⟨h1, evs, h, he, hl⟩ := helper_output_own_spec env s.toOutputHelper u i
  exact ⟨h1, evs, by simp [upipe_ts_psim_output_own, h], by simp [upipe_ts_psim_output, he], hl⟩

/-- The labelled flush is the flush with labels; it leaves no accumulator and
its events free the accumulator if there was one. -/
theorem psim_flush_own_spec (s : upipe_ts_psim) (i : Bool) :
    (upipe_ts_psim_flush_own s).1 = (upipe_ts_psim_flush s).1 ∧
    own_erase (upipe_ts_psim_flush_own s).2 = (upipe_ts_psim_flush s).2 ∧
    ledger ⟨i, s.next_uref.isSome, none⟩ (upipe_ts_psim_flush_own s).2 = some ⟨i, false, none⟩ ∧
    (upipe_ts_psim_flush_own s).1.next_uref = none := by
  rcases s with ⟨h, n, a⟩
  cases n <;> cases a <;>
    simp [upipe_ts_psim_flush_own, upipe_ts_psim_flush, upipe_ts_psim_sync_lost, own_erase,
      ledger, ledger_step]

/-- Keeping the first `n` octets that the block holds succeeds. -/
theorem uref_block_resize_take (u : Uref) (n : Nat) (h : n ≤ u.block.length) :
    uref_block_resize u 0 (n : Nat) = some { u with block := u.block.take n } := by
  unfold uref_block_resize
  have h1 : ¬ ((0 : Int) < 0 ∨ (u.block.length : Int) < 0) := by omega
  have h2 : ¬ ((n : Int) = -1) := by omega
  have h3 : ¬ ((n : Int) < 0 ∨ (u.block.length : Int) - 0 < (n : Int)) := by omega
  simp only [h1, h2, h3, if_false]
  simp

/-- Lines 155-196 of the merge, when what the accumulator held before the
record was appended is less than the section its header announces: the
labelled version is the original with labels, it returns, its events balance,
the accumulator left is incomplete, and a `true` result leaves no accumulator
and a shorter, non-empty record. -/
theorem psim_merge_section_own_spec (env : Env) (s : upipe_ts_psim) (acc uref : Uref)
    (i : Bool) (hle : uref.block.length ≤ acc.block.length)
    (hpre : PSI_HEADER_SIZE ≤ acc.block.length →
      acc.block.length - uref.block.length
        < psi_get_length (acc.block.take PSI_HEADER_SIZE) + PSI_HEADER_SIZE) :
    ∃ s1 u1 evs b,
      upipe_ts_psim_merge_section_own env s acc uref = .ok (s1, u1, evs, b) ∧
      upipe_ts_psim_merge_section env s acc uref = .ok (s1, u1, own_erase evs, b) ∧
      ledger ⟨i, true, none⟩ evs = some ⟨i, s1.next_uref.isSome, none⟩ ∧
      acc_incomplete s1 ∧
      (b = true → s1.next_uref = none ∧ 0 < u1.block.length ∧
        u1.block.length < uref.block.length) := by
  by_cases h1 : acc.block.length < PSI_HEADER_SIZE
  · refine ⟨{ s with next_uref := some acc }, uref, [], false, ?_, ?_, rfl, ?_, by simp⟩
    · simp only [upipe_ts_psim_merge_section_own, h1, if_true]
    · simp only [upipe_ts_psim_merge_section, h1, if_true, own_erase]
    · intro a ha
      cases ha
      exact Or.inl h1
  by_cases h2 : psi_get_length (acc.block.take PSI_HEADER_SIZE) + PSI_HEADER_SIZE
      > PSI_PRIVATE_MAX_SIZE
  · obtain ⟨f1, f2, f3, f4⟩ := psim_flush_own_spec { s with next_uref := some acc } i
    refine ⟨(upipe_ts_psim_flush_own { s with next_uref := some acc }).1, uref,
      (upipe_ts_psim_flush_own { s with next_uref := some acc }).2, false, ?_, ?_, ?_, ?_,
      by simp⟩
    · simp only [upipe_ts_psim_merge_section_own, h1, h2, if_true, if_false]
    · simp only [upipe_ts_psim_merge_section, h1, h2, if_true, if_false, f1, f2]
    · rw [f4]
      exact f3
    · intro a ha
      rw [f4] at ha
      cases ha
  by_cases h3 : psi_get_length (acc.block.take PSI_HEADER_SIZE) + PSI_HEADER_SIZE
      > acc.block.length
  · refine ⟨{ s with next_uref := some acc }, uref, [], false, ?_, ?_, rfl, ?_, by simp⟩
    · simp only [upipe_ts_psim_merge_section_own, h1, h2, h3, if_true, if_false]
    · simp only [upipe_ts_psim_merge_section, h1, h2, h3, if_true, if_false, own_erase]
    · intro a ha
      cases ha
      exact Or.inr h3
  have h4 : psi_get_length (acc.block.take PSI_HEADER_SIZE) + PSI_HEADER_SIZE
      ≤ acc.block.length := by omega
  obtain ⟨out, hr⟩ : ∃ out, uref_block_resize acc 0
      ((psi_get_length (acc.block.take PSI_HEADER_SIZE) + PSI_HEADER_SIZE : Nat) : Int)
        = some out := ⟨_, uref_block_resize_take acc _ h4⟩
  obtain ⟨o1, evs, ho1, ho2, ho3⟩ := psim_output_own_spec env
    { s with next_uref := some out } out i
  by_cases h5 : psi_get_length (acc.block.take PSI_HEADER_SIZE) + PSI_HEADER_SIZE
      = acc.block.length
  · refine ⟨{ toOutputHelper := o1, next_uref := none, acquired := s.acquired }, uref, evs,
      false, ?_, ?_, ?_, ?_, by simp⟩
    · simp only [upipe_ts_psim_merge_section_own, h1, h2, h3, if_false, hr, ho1]
      rw [if_pos h5]
    · simp only [upipe_ts_psim_merge_section, h1, h2, h3, if_false, hr, ho2]
      rw [if_pos h5]
    · exact ho3
    · intro a ha
      cases ha
  · have hpre3 := hpre (by omega)
    have hk : (((psi_get_length (acc.block.take PSI_HEADER_SIZE) + PSI_HEADER_SIZE : Nat) : Int)
        - (((acc.block.length : Nat) : Int) - ((uref.block.length : Nat) : Int)))
        = ((psi_get_length (acc.block.take PSI_HEADER_SIZE) + PSI_HEADER_SIZE
            - (acc.block.length - uref.block.length) : Nat) : Int) := by omega
    obtain ⟨rest, hs, hlen⟩ : ∃ rest, uref_block_resize uref
        ((psi_get_length (acc.block.take PSI_HEADER_SIZE) + PSI_HEADER_SIZE
            - (acc.block.length - uref.block.length) : Nat) : Int) (-1) = some rest ∧
        rest.block.length = uref.block.length -
          (psi_get_length (acc.block.take PSI_HEADER_SIZE) + PSI_HEADER_SIZE
            - (acc.block.length - uref.block.length)) :=
      ⟨_, uref_block_resize_skip uref _ (by omega), by simp⟩
    refine ⟨{ toOutputHelper := o1, next_uref := none, acquired := s.acquired }, rest, evs,
      true, ?_, ?_, ?_, ?_, ?_⟩
    · simp only [upipe_ts_psim_merge_section_own, h1, h2, h3, if_false, hr, ho1]
      rw [if_neg h5]
      simp only [hk, hs]
    · simp only [upipe_ts_psim_merge_section, h1, h2, h3, if_false, hr, ho2]
      rw [if_neg h5]
      simp only [hk, hs]
    · exact ho3
    · intro a ha
      cases ha
    · intro _
      refine ⟨rfl, ?_, ?_⟩
      · omega
      · omega

/-- One call of the merge on a state whose accumulator is incomplete: the
labelled version is the original with labels, it returns, its events balance,
the accumulator left is incomplete, and a `true` result leaves no accumulator
and a shorter, non-empty record. -/
theorem psim_merge_own_spec (env : Env) (s : upipe_ts_psim) (uref : Uref) (i : Bool)
    (hinv : acc_incomplete s) :
    ∃ s1 u1 evs b,
      upipe_ts_psim_merge_own env s uref = .ok (s1, u1, evs, b) ∧
      upipe_ts_psim_merge env s uref = .ok (s1, u1, own_erase evs, b) ∧
      ledger ⟨i, s.next_uref.isSome, none⟩ evs = some ⟨i, s1.next_uref.isSome, none⟩ ∧
      acc_incomplete s1 ∧
      (b = true → s1.next_uref = none ∧ 0 < u1.block.length ∧
        u1.block.length < uref.block.length) := by
  cases hn : s.next_uref with
  | some acc0 =>
    cases ha : env.alloc with
    | true =>
      have hle : uref.block.length ≤ (uref_block_append acc0 uref.block).block.length := by
        simp [uref_block_append]
      have hpre : PSI_HEADER_SIZE ≤ (uref_block_append acc0 uref.block).block.length →
          (uref_block_append acc0 uref.block).block.length - uref.block.length
            < psi_get_length ((uref_block_append acc0 uref.block).block.take PSI_HEADER_SIZE)
              + PSI_HEADER_SIZE := by
        intro _
        simp only [uref_block_append, List.length_append, Nat.add_sub_cancel]
        rcases hinv acc0 hn with h | h
        · omega
        · by_cases h3 : acc0.block.length < PSI_HEADER_SIZE
          · omega
          · rw [List.take_append_of_le_length (by omega)]
            exact h
      obtain ⟨s1, u1, evs, b, e1, e2, e3, e4, e5⟩ :=
        psim_merge_section_own_spec env s (uref_block_append acc0 uref.block) uref i hle hpre
      refine ⟨s1, u1, evs, b, ?_, ?_, ?_, e4, e5⟩
      · simp only [upipe_ts_psim_merge_own, hn, ha, if_true, e1]
      · simp only [upipe_ts_psim_merge, hn, ha, if_true, e2]
      · simpa using e3
    | false =>
      obtain ⟨f1, f2, f3, f4⟩ := psim_flush_own_spec s i
      refine ⟨(upipe_ts_psim_flush_own s).1, uref,
        (upipe_ts_psim_flush_own s).2 ++ [Own.other (Action.throw Event.fatal)], false,
        ?_, ?_, ?_, ?_, by simp⟩
      · simp [upipe_ts_psim_merge_own, hn, ha]
      · simp [upipe_ts_psim_merge, hn, ha, own_erase_append, own_erase, f1, f2]
      · rw [hn] at f3
        have f5 : ledger ⟨i, true, none⟩ (upipe_ts_psim_flush_own s).2
            = some ⟨i, false, none⟩ := f3
        simp [ledger_append, f5, f4, ledger, ledger_step]
      · intro a h
        rw [f4] at h
        cases h
  | none =>
    have hnone : acc_incomplete s := hinv
    cases hx : uref_block_extract uref 0 1 with
    | none =>
      refine ⟨s, uref, [], false, ?_, ?_, ?_, hinv, by simp⟩
      · simp [upipe_ts_psim_merge_own, hn, hx]
      · simp [upipe_ts_psim_merge, hn, hx, own_erase]
      · simp [ledger, hn]
    | some l =>
      cases l with
      | nil =>
        refine ⟨s, uref, [], false, ?_, ?_, ?_, hinv, by simp⟩
        · simp [upipe_ts_psim_merge_own, hn, hx]
        · simp [upipe_ts_psim_merge, hn, hx, own_erase]
        · simp [ledger, hn]
      | cons table_id tl =>
        by_cases hff : table_id = 0xff
        · refine ⟨s, uref, [], false, ?_, ?_, ?_, hinv, by simp⟩
          · simp [upipe_ts_psim_merge_own, hn, hx, hff]
          · simp [upipe_ts_psim_merge, hn, hx, hff, own_erase]
          · simp [ledger, hn]
        · cases ha : env.alloc with
          | false =>
            refine ⟨s, uref, [Own.other (Action.throw Event.fatal)], false, ?_, ?_, ?_, hinv,
              by simp⟩
            · simp [upipe_ts_psim_merge_own, hn, hx, hff, ha]
            · simp [upipe_ts_psim_merge, hn, hx, hff, ha, own_erase]
            · simp [ledger, ledger_step, hn]
          | true =>
            obtain ⟨s1, u1, evs, b, e1, e2, e3, e4, e5⟩ :=
              psim_merge_section_own_spec env s uref uref i (Nat.le_refl _)
                (by intro _; simp only [Nat.sub_self, PSI_HEADER_SIZE]; omega)
            refine ⟨s1, u1, Own.acc_new uref :: evs, b, ?_, ?_, ?_, e4, e5⟩
            · simp [upipe_ts_psim_merge_own, hn, hx, hff, ha, e1]
            · simp [upipe_ts_psim_merge, hn, hx, hff, ha, e2, own_erase]
            · simpa [ledger, ledger_step] using e3

/-- The merge loop with more fuel than the record has bytes, on a state whose
accumulator is incomplete: it returns, and its events balance. -/
theorem psim_merge_loop_own_spec (env : Env) (i : Bool) :
    ∀ (fuel : Nat) (s : upipe_ts_psim) (uref : Uref), acc_incomplete s →
      uref.block.length < fuel →
      ∃ s1 u1 evs,
        upipe_ts_psim_merge_loop_own env fuel s uref = .ok (s1, u1, evs) ∧
        upipe_ts_psim_merge_loop env fuel s uref = .ok (s1, u1, own_erase evs) ∧
        ledger ⟨i, s.next_uref.isSome, none⟩ evs = some ⟨i, s1.next_uref.isSome, none⟩ ∧
        acc_incomplete s1 := by
  intro fuel
  induction fuel with
  | zero => intro s uref _ h; omega
  | succ fuel ih =>
    intro s uref hinv hlen
    obtain ⟨s1, u1, evs, b, e1, e2, e3, e4, e5⟩ := psim_merge_own_spec env s uref i hinv
    cases b with
    | false =>
      refine ⟨s1, u1, evs, ?_, ?_, e3, e4⟩
      · simp only [upipe_ts_psim_merge_loop_own, e1]
      · simp only [upipe_ts_psim_merge_loop, e2]
    | true =>
      obtain ⟨_, _, hlt⟩ := e5 rfl
      obtain ⟨s2, u2, evs2, g1, g2, g3, g4⟩ := ih s1 u1 e4 (by omega)
      refine ⟨s2, u2, evs ++ evs2, ?_, ?_, ?_, g4⟩
      · simp only [upipe_ts_psim_merge_loop_own, e1, g1]
      · simp only [upipe_ts_psim_merge_loop, e2, g2, own_erase_append]
      · simp only [ledger_append, e3, Option.bind]
        exact g3

/-- Lines 238-239 of the input: the loop returns, and the record is freed. -/
theorem psim_input_sections_own_spec (env : Env) (s : upipe_ts_psim) (uref : Uref)
    (hinv : acc_incomplete s) :
    ∃ s1 evs,
      upipe_ts_psim_input_sections_own env s uref = .ok (s1, evs) ∧
      upipe_ts_psim_input_sections env s uref = .ok (s1, own_erase evs) ∧
      ledger ⟨true, s.next_uref.isSome, none⟩ evs = some ⟨false, s1.next_uref.isSome, none⟩ ∧
      acc_incomplete s1 := by
  obtain ⟨s1, u1, evs, e1, e2, e3, e4⟩ :=
    psim_merge_loop_own_spec env true (uref.block.length + 2) s uref hinv (by omega)
  refine ⟨s1, evs ++ [Own.input_free u1], ?_, ?_, ?_, e4⟩
  · simp only [upipe_ts_psim_input_sections_own, e1]
  · simp only [upipe_ts_psim_input_sections, e2, own_erase_append, own_erase]
  · simp [ledger_append, e3, ledger, ledger_step]

theorem psim_sync_acquired_next_uref (s : upipe_ts_psim) :
    (upipe_ts_psim_sync_acquired s).1.next_uref = s.next_uref := by
  unfold upipe_ts_psim_sync_acquired
  split <;> rfl

/-- Freeing the input record and flushing: the events balance. -/
theorem psim_free_flush_own_spec (s : upipe_ts_psim) (uref : Uref) :
    own_erase (Own.input_free uref :: (upipe_ts_psim_flush_own s).2)
      = Action.free uref :: (upipe_ts_psim_flush s).2 ∧
    ledger ⟨true, s.next_uref.isSome, none⟩ (Own.input_free uref :: (upipe_ts_psim_flush_own s).2)
      = some ⟨false, (upipe_ts_psim_flush_own s).1.next_uref.isSome, none⟩ ∧
    acc_incomplete (upipe_ts_psim_flush_own s).1 := by
  obtain ⟨f1, f2, f3, f4⟩ := psim_flush_own_spec s false
  refine ⟨by simp [own_erase, f2], ?_, ?_⟩
  · rw [f4]
    simpa [ledger, ledger_step] using f3
  · intro a h
    rw [f4] at h
    cases h

/-- Lines 212-240 of the input on a state whose accumulator is incomplete. -/
theorem psim_input_start_own_spec (env : Env) (s : upipe_ts_psim) (uref : Uref)
    (hinv : acc_incomplete s) :
    ∃ s1 evs,
      upipe_ts_psim_input_start_own env s uref = .ok (s1, evs) ∧
      upipe_ts_psim_input_start env s uref = .ok (s1, own_erase evs) ∧
      ledger ⟨true, s.next_uref.isSome, none⟩ evs = some ⟨false, s1.next_uref.isSome, none⟩ ∧
      acc_incomplete s1 := by
  obtain ⟨f1, f2, f3, f4⟩ := psim_flush_own_spec s false
  obtain ⟨g1, g2, g3⟩ := psim_free_flush_own_spec s uref
  have hfree : ledger ⟨true, s.next_uref.isSome, none⟩ [Own.input_free uref]
      = some ⟨false, s.next_uref.isSome, none⟩ := by simp [ledger, ledger_step]
  cases hst : uref.start with
  | true =>
    cases hacq : s.acquired with
    | true =>
      cases hr : uref_block_resize uref 1 (-1) with
      | none =>
        refine ⟨_, _, ?_, ?_, g2, g3⟩
        · simp only [upipe_ts_psim_input_start_own, hst, hacq, if_true, hr]
        · simp only [upipe_ts_psim_input_start, hst, hacq, if_true, hr, g1, f1]
      | some u1 =>
        obtain ⟨s1, evs, e1, e2, e3, e4⟩ :=
          psim_input_sections_own_spec env s (uref_block_delete_start u1) hinv
        refine ⟨s1, evs, ?_, ?_, e3, e4⟩
        · simp only [upipe_ts_psim_input_start_own, hst, hacq, if_true, hr, e1]
        · simp only [upipe_ts_psim_input_start, hst, hacq, if_true, hr, e2]
    | false =>
      cases hx : uref_block_extract uref 0 1 with
      | none =>
        refine ⟨s, [Own.input_free uref], ?_, ?_, hfree, hinv⟩
        · simp [upipe_ts_psim_input_start_own, hst, hacq, hx]
        · simp [upipe_ts_psim_input_start, hst, hacq, hx, own_erase]
      | some l =>
        cases l with
        | nil =>
          refine ⟨s, [Own.input_free uref], ?_, ?_, hfree, hinv⟩
          · simp [upipe_ts_psim_input_start_own, hst, hacq, hx]
          · simp [upipe_ts_psim_input_start, hst, hacq, hx, own_erase]
        | cons pointer_field tl =>
          cases hr : uref_block_resize uref (1 + (pointer_field : Int)) (-1) with
          | none =>
            refine ⟨s, [Own.input_free uref], ?_, ?_, hfree, hinv⟩
            · simp [upipe_ts_psim_input_start_own, hst, hacq, hx, hr]
            · simp [upipe_ts_psim_input_start, hst, hacq, hx, hr, own_erase]
          | some u1 =>
            have hnx := psim_sync_acquired_next_uref s
            have hinv2 : acc_incomplete (upipe_ts_psim_sync_acquired s).1 := by
              intro a h
              rw [hnx] at h
              exact hinv a h
            obtain ⟨s1, evs, e1, e2, e3, e4⟩ :=
              psim_input_sections_own_spec env (upipe_ts_psim_sync_acquired s).1
                (uref_block_delete_start u1) hinv2
            rw [hnx] at e3
            refine ⟨s1, (upipe_ts_psim_sync_acquired s).2.map Own.other ++ evs, ?_, ?_, ?_, e4⟩
            · simp [upipe_ts_psim_input_start_own, hst, hacq, hx, hr, e1]
            · simp [upipe_ts_psim_input_start, hst, hacq, hx, hr, e2, own_erase_append,
                own_erase_others]
            · simp only [ledger_append, ledger_others, Option.bind]
              exact e3
  | false =>
    cases hn : s.next_uref with
    | none =>
      rw [hn] at g2
      refine ⟨_, _, ?_, ?_, g2, g3⟩
      · simp [upipe_ts_psim_input_start_own, hst, hn]
      · simp [upipe_ts_psim_input_start, hst, hn, g1, f1]
    | some acc0 =>
      obtain ⟨s1, evs, e1, e2, e3, e4⟩ := psim_input_sections_own_spec env s uref hinv
      rw [hn] at e3
      refine ⟨s1, evs, ?_, ?_, e3, e4⟩
      · simp [upipe_ts_psim_input_start_own, hst, hn, e1]
      · simp [upipe_ts_psim_input_start, hst, hn, e2]

/-- One call of the input on a state whose accumulator is incomplete: the
labelled version is the original with labels, it returns, its events balance
and the accumulator left is incomplete. -/
theorem psim_input_own_spec (env : Env) (s : upipe_ts_psim) (uref : Uref)
    (hinv : acc_incomplete s) :
    ∃ s1 evs,
      upipe_ts_psim_input_own env s uref = .ok (s1, evs) ∧
      upipe_ts_psim_input env s uref = .ok (s1, own_erase evs) ∧
      ledger ⟨false, s.next_uref.isSome, none⟩ evs
        = some ⟨false, s1.next_uref.isSome, none⟩ ∧
      acc_incomplete s1 := by
  cases hd : uref.discontinuity with
  | false =>
    obtain ⟨s1, evs, e1, e2, e3, e4⟩ := psim_input_start_own_spec env s uref hinv
    refine ⟨s1, Own.received uref :: evs, ?_, ?_, ?_, e4⟩
    · simp [upipe_ts_psim_input_own, hd, e1]
    · simp [upipe_ts_psim_input, hd, e2, own_erase]
    · simpa [ledger, ledger_step] using e3
  | true =>
    obtain ⟨f1, f2, f3, f4⟩ := psim_flush_own_spec s true
    have hinv2 : acc_incomplete (upipe_ts_psim_flush_own s).1 := by
      intro a h
      rw [f4] at h
      cases h
    obtain ⟨s1, evs, e1, e2, e3, e4⟩ :=
      psim_input_start_own_spec env (upipe_ts_psim_flush_own s).1 uref hinv2
    rw [f4] at e3
    refine ⟨s1, Own.received uref :: ((upipe_ts_psim_flush_own s).2 ++ evs), ?_, ?_, ?_, e4⟩
    · simp [upipe_ts_psim_input_own, hd, e1]
    · rw [f1] at e2
      simp [upipe_ts_psim_input, hd, e2, own_erase, own_erase_append, f2]
    · simp only [ledger, ledger_step, Bool.false_eq_true, if_false, ledger_append, f3,
        Option.bind]
      exact e3

theorem own_count_append (k : OwnKind) (a b : List Own) :
    own_count k (a ++ b) = own_count k a + own_count k b := by
  simp [own_count]

/-- What a ledger that accepts a list of events says in numbers: records
received and input records freed, accumulators created and accumulators freed
or handed to the output helper, records handed to the output helper and
records forwarded or freed by it. -/
theorem ledger_balance (evs : List Own) :
    ∀ (l l1 : Ledger), ledger l evs = some l1 →
      (if l.input_live then 1 else 0) + own_count OwnKind.received evs
        = own_count OwnKind.input_free evs + (if l1.input_live then 1 else 0) ∧
      (if l.acc_live then 1 else 0) + own_count OwnKind.acc_new evs
        = own_count OwnKind.acc_free evs + own_count OwnKind.handed evs
          + (if l1.acc_live then 1 else 0) ∧
      (if l.in_output.isSome then 1 else 0) + own_count OwnKind.handed evs
        = own_count OwnKind.forwarded evs + own_count OwnKind.out_free evs
          + (if l1.in_output.isSome then 1 else 0) := by
  induction evs with
  | nil =>
    intro l l1 h
    simp only [ledger, Option.some.injEq] at h
    subst h
    simp [own_count]
  | cons e es ih =>
    intro l l1 h
    simp only [ledger] at h
    cases hs : ledger_step l e with
    | none => simp [hs] at h
    | some l2 =>
      simp only [hs] at h
      obtain ⟨h1, h2, h3⟩ := ih l2 l1 h
      rcases l with ⟨li, la, lo⟩
      have hc : ∀ k, own_count k (e :: es) = (if own_kind e = k then 1 else 0) + own_count k es := by
        intro k
        simp only [own_count, List.map_cons, List.count_cons]
        by_cases hk : own_kind e = k
        · simp [hk]; omega
        · simp [hk]
      simp only [hc]
      cases e <;> simp only [ledger_step] at hs <;> simp only [own_kind] <;>
        (try split at hs) <;> first
          | (cases hs
             done)
          | (cases hs
             simp_all
             done)
          | (cases hs
             simp_all
             omega)

theorem own_count_others (acts : List Action) :
    own_count OwnKind.received (acts.map Own.other) = 0 := by
  induction acts with
  | nil => rfl
  | cons a as ih =>
    simp only [own_count, List.map_cons, own_kind] at ih ⊢
    rw [List.count_cons_of_ne (by decide)]
    exact ih

theorem own_count_cons (k : OwnKind) (e : Own) (es : List Own) :
    own_count k (e :: es) = (if own_kind e = k then 1 else 0) + own_count k es := by
  simp only [own_count, List.map_cons, List.count_cons]
  by_cases hk : own_kind e = k
  · simp [hk]; omega
  · simp [hk]

theorem own_count_nil (k : OwnKind) : own_count k [] = 0 := rfl

/-- No function below `upipe_ts_psim_input` receives a record. -/
theorem helper_output_own_received (env : Env) (h : OutputHelper) (u : Uref)
    (r : OutputHelper × List Own) (hr : helper_output_own env h u = .ok r) :
    own_count OwnKind.received r.2 = 0 := by
  unfold helper_output_own at hr
  simp only [] at hr
  split at hr
  · cases hr
    simp [own_count_cons, own_count_append, own_count_others, own_kind, own_count_nil]
  · split at hr
    · cases hr
    · split at hr <;> cases hr <;>
        simp [own_count_cons, own_count_append, own_count_others, own_kind, own_count_nil]

theorem psim_flush_own_received (s : upipe_ts_psim) :
    own_count OwnKind.received (upipe_ts_psim_flush_own s).2 = 0 := by
  unfold upipe_ts_psim_flush_own
  split <;> simp [own_count_cons, own_count_others, own_kind]

theorem psim_merge_section_own_received (env : Env) (s : upipe_ts_psim) (acc uref : Uref)
    (r : upipe_ts_psim × Uref × List Own × Bool)
    (hr : upipe_ts_psim_merge_section_own env s acc uref = .ok r) :
    own_count OwnKind.received r.2.2.1 = 0 := by
  unfold upipe_ts_psim_merge_section_own at hr
  simp only [] at hr
  split at hr
  · cases hr; rfl
  · split at hr
    · cases hr
      exact psim_flush_own_received _
    · split at hr
      · cases hr; rfl
      · split at hr
        · cases hr
        · rename_i out hout
          simp only [upipe_ts_psim_output_own] at hr
          cases hh : helper_output_own env s.toOutputHelper out with
          | error e => simp [hh] at hr
          | ok r1 =>
            have hc := helper_output_own_received env _ out r1 hh
            simp only [hh] at hr
            split at hr
            · cases hr
              exact hc
            · split at hr
              · cases hr
              · cases hr
                exact hc

theorem psim_merge_own_received (env : Env) (s : upipe_ts_psim) (uref : Uref)
    (r : upipe_ts_psim × Uref × List Own × Bool)
    (hr : upipe_ts_psim_merge_own env s uref = .ok r) :
    own_count OwnKind.received r.2.2.1 = 0 := by
  unfold upipe_ts_psim_merge_own at hr
  split at hr
  · split at hr
    · exact psim_merge_section_own_received env s _ uref r hr
    · cases hr
      simp [own_count_append, psim_flush_own_received, own_count_cons, own_kind, own_count_nil]
  · split at hr
    · split at hr
      · cases hr; rfl
      · split at hr
        · cases hm : upipe_ts_psim_merge_section_own env s uref uref with
          | error e => simp [hm] at hr
          | ok r1 =>
            have hc := psim_merge_section_own_received env s uref uref r1 hm
            simp only [hm] at hr
            cases hr
            simp [own_count_cons, own_kind, hc]
        · cases hr
          simp [own_count_cons, own_kind, own_count_nil]
    · cases hr; rfl

theorem psim_merge_loop_own_received (env : Env) :
    ∀ (fuel : Nat) (s : upipe_ts_psim) (uref : Uref) (r : upipe_ts_psim × Uref × List Own),
      upipe_ts_psim_merge_loop_own env fuel s uref = .ok r →
      own_count OwnKind.received r.2.2 = 0 := by
  intro fuel
  induction fuel with
  | zero => intro s uref r hr; cases hr
  | succ fuel ih =>
    intro s uref r hr
    simp only [upipe_ts_psim_merge_loop_own] at hr
    cases hm : upipe_ts_psim_merge_own env s uref with
    | error e => simp [hm] at hr
    | ok r1 =>
      have hc := psim_merge_own_received env s uref r1 hm
      obtain ⟨s1, u1, a1, b⟩ := r1
      cases b with
      | false =>
        simp only [hm] at hr
        cases hr
        exact hc
      | true =>
        simp only [hm] at hr
        cases hl : upipe_ts_psim_merge_loop_own env fuel s1 u1 with
        | error e => simp [hl] at hr
        | ok r2 =>
          have hc2 := ih s1 u1 r2 hl
          obtain ⟨s2, u2, a2⟩ := r2
          simp only [hl] at hr
          cases hr
          simp only [own_count_append]
          simp only at hc hc2
          omega

theorem psim_input_sections_own_received (env : Env) (s : upipe_ts_psim) (uref : Uref)
    (r : upipe_ts_psim × List Own)
    (hr : upipe_ts_psim_input_sections_own env s uref = .ok r) :
    own_count OwnKind.received r.2 = 0 := by
  simp only [upipe_ts_psim_input_sections_own] at hr
  cases hl : upipe_ts_psim_merge_loop_own env (uref.block.length + 2) s uref with
  | error e => simp [hl] at hr
  | ok r1 =>
    have hc := psim_merge_loop_own_received env _ s uref r1 hl
    obtain ⟨s1, u1, a1⟩ := r1
    simp only [hl] at hr
    cases hr
    simp only at hc
    simp [own_count_append, own_count_cons, own_kind, own_count_nil, hc]

theorem psim_input_start_own_received (env : Env) (s : upipe_ts_psim) (uref : Uref)
    (r : upipe_ts_psim × List Own)
    (hr : upipe_ts_psim_input_start_own env s uref = .ok r) :
    own_count OwnKind.received r.2 = 0 := by
  unfold upipe_ts_psim_input_start_own at hr
  split at hr
  · split at hr
    · split at hr
      · cases hr
        simp [own_count_cons, own_kind, psim_flush_own_received]
      · exact psim_input_sections_own_received env s _ r hr
    · split at hr
      · split at hr
        · cases hr
          simp [own_count_cons, own_kind, own_count_nil]
        · rename_i u1 hu1
          simp only [] at hr
          cases hs : upipe_ts_psim_input_sections_own env (upipe_ts_psim_sync_acquired s).1
              (uref_block_delete_start u1) with
          | error e => simp [hs] at hr
          | ok r2 =>
            have hc := psim_input_sections_own_received env _ _ r2 hs
            simp only [hs] at hr
            cases hr
            simp [own_count_append, own_count_others, hc]
      · cases hr
        simp [own_count_cons, own_kind, own_count_nil]
  · split at hr
    · cases hr
      simp [own_count_cons, own_kind, psim_flush_own_received]
    · exact psim_input_sections_own_received env s _ r hr

/-- One call of the input receives one record. -/
theorem psim_input_own_received (env : Env) (s : upipe_ts_psim) (uref : Uref)
    (r : upipe_ts_psim × List Own)
    (hr : upipe_ts_psim_input_own env s uref = .ok r) :
    own_count OwnKind.received r.2 = 1 := by
  unfold upipe_ts_psim_input_own at hr
  split at hr
  · simp only [] at hr
    cases hs : upipe_ts_psim_input_start_own env (upipe_ts_psim_flush_own s).1 uref with
    | error e => simp [hs] at hr
    | ok r2 =>
      have hc := psim_input_start_own_received env _ _ r2 hs
      simp only [hs] at hr
      cases hr
      simp [own_count_cons, own_kind, own_count_append, psim_flush_own_received, hc]
  · cases hs : upipe_ts_psim_input_start_own env s uref with
    | error e => simp [hs] at hr
    | ok r2 =>
      have hc := psim_input_start_own_received env _ _ r2 hs
      simp only [hs] at hr
      cases hr
      simp [own_count_cons, own_kind, hc]

/-- A sequence of calls on a state whose accumulator is incomplete: every call
returns, the labelled run is the run with labels, the events balance, and as
many records are received as there are calls. -/
theorem psim_run_own_spec (env : Env) :
    ∀ (urefs : List Uref) (s : upipe_ts_psim), acc_incomplete s →
      ∃ s1 evs,
        upipe_ts_psim_run_own env s urefs = .ok (s1, evs) ∧
        upipe_ts_psim_run env s urefs = .ok (s1, own_erase evs) ∧
        ledger ⟨false, s.next_uref.isSome, none⟩ evs
          = some ⟨false, s1.next_uref.isSome, none⟩ ∧
        own_count OwnKind.received evs = urefs.length ∧
        acc_incomplete s1 := by
  intro urefs
  induction urefs with
  | nil =>
    intro s hinv
    exact ⟨s, [], rfl, rfl, rfl, rfl, hinv⟩
  | cons u us ih =>
    intro s hinv
    obtain ⟨s1, evs, e1, e2, e3, e4⟩ := psim_input_own_spec env s u hinv
    have ec := psim_input_own_received env s u _ e1
    obtain ⟨s2, evs2, g1, g2, g3, gc, g4⟩ := ih s1 e4
    refine ⟨s2, evs ++ evs2, ?_, ?_, ?_, ?_, g4⟩
    · simp only [upipe_ts_psim_run_own, e1, g1]
    · simp only [upipe_ts_psim_run, e2, g2, own_erase_append]
    · simp only [ledger_append, e3, Option.bind]
      exact g3
    · simp only at ec
      simp only [own_count_append, ec, gc, List.length_cons]
      omega

/-- The labelled teardown is the teardown with labels, and it frees the
accumulator if there is one. -/
theorem psim_free_own_spec (s : upipe_ts_psim) :
    own_erase (upipe_ts_psim_free_own s) = upipe_ts_psim_free s ∧
    ledger ⟨false, s.next_uref.isSome, none⟩ (upipe_ts_psim_free_own s)
      = some ⟨false, false, none⟩ ∧
    own_count OwnKind.received (upipe_ts_psim_free_own s) = 0 := by
  rcases s with ⟨h, n, a⟩
  cases n <;>
    simp [upipe_ts_psim_free_own, upipe_ts_psim_free, own_erase, own_erase_append,
      own_erase_others, ledger, ledger_step, ledger_append, ledger_others, own_count_cons,
      own_count_append, own_count_others, own_kind, own_count_nil]

theorem uref_flow_match_def_iff (f : FlowDef) (start : String) :
    uref_flow_match_def f start = true ↔ ∃ d, f.def_str = some d ∧ begins_with d start := by
  unfold uref_flow_match_def
  cases h : f.def_str with
  | none => simp
  | some d =>
    simp only [Bool.not_eq_true', ubase_ncmp_eq_false_iff, Option.some.injEq, exists_eq_left']

/-- A timestamp that is not above `ts_origin` converts to `systime_offset`. -/
theorem systime_spec_clamped (t : upipe_trickp) (ts : Nat) (h : ts ≤ t.ts_origin)
    (hoff : t.systime_offset < 2 ^ 64) : systime_spec t ts = t.systime_offset := by
  unfold systime_spec
  rw [Nat.max_eq_right h]
  simp only [Nat.sub_self, Nat.zero_mul, Nat.zero_mod, Nat.zero_div, Nat.zero_add]
  exact Nat.mod_eq_of_lt hoff

/-- Subpicture subpipes give no anchor date. -/
theorem anchor_dates_subpic (subs : List upipe_trickp_sub)
    (h : ∀ sub ∈ subs, sub.type = upipe_trickp_sub_type.UPIPE_TRICKP_SUBPIC) :
    anchor_dates subs = [] := by
  unfold anchor_dates
  have hf : subs.filter (fun sub => sub.type ≠ upipe_trickp_sub_type.UPIPE_TRICKP_SUBPIC)
      = [] := by
    rw [List.filter_eq_nil_iff]
    intro sub hsub
    simp [h sub hsub]
  rw [hf]
  rfl

theorem acc_strict_incomplete (s : upipe_ts_psim) (h : acc_strict s) : acc_incomplete s := by
  intro acc hacc
  rcases (h acc hacc).2.2 with h1 | h1
  · exact Or.inl h1
  · exact Or.inr h1.1

theorem acc_strict_of_none (s : upipe_ts_psim) (h : s.next_uref = none) : acc_strict s := by
  intro acc hacc
  rw [h] at hacc
  cases hacc

/-- A strictly incomplete accumulator holds at most 4095 bytes. -/
theorem acc_strict_bound (s : upipe_ts_psim) (h : acc_strict s) :
    ∀ acc, s.next_uref = some acc → acc.block.length ≤ 4095 := by
  intro acc hacc
  rcases (h acc hacc).2.2 with h1 | h1
  · unfold PSI_HEADER_SIZE at h1
    omega
  · unfold PSI_PRIVATE_MAX_SIZE at h1
    omega

theorem psim_flush_next_uref (s : upipe_ts_psim) :
    (upipe_ts_psim_flush s).1.next_uref = none := by
  rw [psim_flush_state]

/-- Lines 155-196 of the merge leave a strictly incomplete accumulator when
they are entered with a non-empty accumulator that does not begin with 0xFF. -/
theorem psim_merge_section_strict (env : Env) (s : upipe_ts_psim) (acc uref : Uref)
    (h0 : 0 < acc.block.length) (hff : acc.block.head? ≠ some 0xff)
    (r : upipe_ts_psim × Uref × List Action × Bool)
    (hr : upipe_ts_psim_merge_section env s acc uref = .ok r) : acc_strict r.1 := by
  unfold upipe_ts_psim_merge_section at hr
  simp only [] at hr
  split at hr
  · rename_i h1
    cases hr
    intro a ha
    cases ha
    exact ⟨h0, hff, Or.inl h1⟩
  · split at hr
    · cases hr
      exact acc_strict_of_none _ (psim_flush_next_uref _)
    · rename_i h1 h2
      split at hr
      · rename_i h3
        cases hr
        intro a ha
        cases ha
        exact ⟨h0, hff, Or.inr ⟨h3, by omega⟩⟩
      · split at hr
        · cases hr
        · split at hr
          · cases hr
          · split at hr
            · cases hr
              exact acc_strict_of_none _ rfl
            · split at hr
              · cases hr
              · cases hr
                exact acc_strict_of_none _ rfl

theorem psim_merge_strict (env : Env) (s : upipe_ts_psim) (uref : Uref)
    (hinv : acc_strict s) (r : upipe_ts_psim × Uref × List Action × Bool)
    (hr : upipe_ts_psim_merge env s uref = .ok r) : acc_strict r.1 := by
  unfold upipe_ts_psim_merge at hr
  split at hr
  · rename_i acc0 hacc
    obtain ⟨h0, hff, _⟩ := hinv acc0 hacc
    split at hr
    · refine psim_merge_section_strict env s _ uref ?_ ?_ r hr
      · simp only [uref_block_append, List.length_append]
        omega
      · simp only [uref_block_append]
        cases hb : acc0.block with
        | nil => rw [hb] at h0; simp at h0
        | cons x xs =>
          rw [hb] at hff
          simpa using hff
    · cases hr
      exact acc_strict_of_none _ (psim_flush_next_uref _)
  · split at hr
    · rename_i table_id tl hx
      split at hr
      · cases hr
        exact hinv
      · rename_i hne
        split at hr
        · have hb : ∃ xs, uref.block = table_id :: xs := by
            unfold uref_block_extract at hx
            split at hx
            · simp only [List.drop_zero, Option.some.injEq] at hx
              cases hu : uref.block with
              | nil => rw [hu] at hx; simp at hx
              | cons y ys =>
                rw [hu] at hx
                simp only [List.take_succ_cons, List.take_zero, List.cons.injEq] at hx
                exact ⟨ys, by rw [hx.1]⟩
            · cases hx
          obtain ⟨xs, hxs⟩ := hb
          refine psim_merge_section_strict env s uref uref ?_ ?_ r hr
          · rw [hxs]; simp
          · rw [hxs]
            simpa using hne
        · cases hr
          exact hinv
    · cases hr
      exact hinv

theorem psim_merge_loop_strict (env : Env) :
    ∀ (fuel : Nat) (s : upipe_ts_psim) (uref : Uref), acc_strict s →
      ∀ r, upipe_ts_psim_merge_loop env fuel s uref = .ok r → acc_strict r.1 := by
  intro fuel
  induction fuel with
  | zero => intro s uref _ r hr; cases hr
  | succ fuel ih =>
    intro s uref hinv r hr
    simp only [upipe_ts_psim_merge_loop] at hr
    cases hm : upipe_ts_psim_merge env s uref with
    | error e => simp [hm] at hr
    | ok r1 =>
      have h1 := psim_merge_strict env s uref hinv r1 hm
      obtain ⟨s1, u1, a1, b⟩ := r1
      cases b with
      | false =>
        simp only [hm] at hr
        cases hr
        exact h1
      | true =>
        simp only [hm] at hr
        cases hl : upipe_ts_psim_merge_loop env fuel s1 u1 with
        | error e => simp [hl] at hr
        | ok r2 =>
          have h2 := ih s1 u1 h1 r2 hl
          obtain ⟨s2, u2, a2⟩ := r2
          simp only [hl] at hr
          cases hr
          exact h2

theorem psim_input_sections_strict (env : Env) (s : upipe_ts_psim) (uref : Uref)
    (hinv : acc_strict s) (r : upipe_ts_psim × List Action)
    (hr : upipe_ts_psim_input_sections env s uref = .ok r) : acc_strict r.1 := by
  simp only [upipe_ts_psim_input_sections] at hr
  cases hl : upipe_ts_psim_merge_loop env (uref.block.length + 2) s uref with
  | error e => simp [hl] at hr
  | ok r1 =>
    have h1 := psim_merge_loop_strict env _ s uref hinv r1 hl
    obtain ⟨s1, u1, a1⟩ := r1
    simp only [hl] at hr
    cases hr
    exact h1

theorem psim_input_start_strict (env : Env) (s : upipe_ts_psim) (uref : Uref)
    (hinv : acc_strict s) (r : upipe_ts_psim × List Action)
    (hr : upipe_ts_psim_input_start env s uref = .ok r) : acc_strict r.1 := by
  unfold upipe_ts_psim_input_start at hr
  split at hr
  · split at hr
    · split at hr
      · cases hr
        exact acc_strict_of_none _ (psim_flush_next_uref _)
      · exact psim_input_sections_strict env s _ hinv r hr
    · split at hr
      · split at hr
        · cases hr
          exact hinv
        · rename_i u1 hu1
          simp only [] at hr
          have hinv2 : acc_strict (upipe_ts_psim_sync_acquired s).1 := by
            intro a ha
            rw [psim_sync_acquired_next_uref] at ha
            exact hinv a ha
          cases hs : upipe_ts_psim_input_sections env (upipe_ts_psim_sync_acquired s).1
              (uref_block_delete_start u1) with
          | error e => simp [hs] at hr
          | ok r2 =>
            have h2 := psim_input_sections_strict env _ _ hinv2 r2 hs
            simp only [hs] at hr
            cases hr
            exact h2
      · cases hr
        exact hinv
  · split at hr
    · cases hr
      exact acc_strict_of_none _ (psim_flush_next_uref _)
    · exact psim_input_sections_strict env s _ hinv r hr

theorem psim_input_strict (env : Env) (s : upipe_ts_psim) (uref : Uref)
    (hinv : acc_strict s) (r : upipe_ts_psim × List Action)
    (hr : upipe_ts_psim_input env s uref = .ok r) : acc_strict r.1 := by
  unfold upipe_ts_psim_input at hr
  split at hr
  · simp only [] at hr
    cases hs : upipe_ts_psim_input_start env (upipe_ts_psim_flush s).1 uref with
    | error e => simp [hs] at hr
    | ok r2 =>
      have h2 := psim_input_start_strict env _ uref
        (acc_strict_of_none _ (psim_flush_next_uref s)) r2 hs
      simp only [hs] at hr
      cases hr
      exact h2
  · exact psim_input_start_strict env s uref hinv r hr

/-- One call of the input on a strictly incomplete accumulator returns and
leaves a strictly incomplete accumulator. -/
theorem psim_input_strict_total (env : Env) (s : upipe_ts_psim) (uref : Uref)
    (hinv : acc_strict s) :
    ∃ s1 acts, upipe_ts_psim_input env s uref = .ok (s1, acts) ∧ acc_strict s1 := by
  obtain ⟨s1, evs, _, e2, _, _⟩ :=
    psim_input_own_spec env s uref (acc_strict_incomplete s hinv)
  exact ⟨s1, own_erase evs, e2, psim_input_strict env s uref hinv _ e2⟩

/-- Every sequence of calls on a strictly incomplete accumulator returns and
leaves a strictly incomplete accumulator. -/
theorem psim_run_strict_total (env : Env) :
    ∀ (urefs : List Uref) (s : upipe_ts_psim), acc_strict s →
      ∃ s1 acts, upipe_ts_psim_run env s urefs = .ok (s1, acts) ∧ acc_strict s1 := by
  intro urefs
  induction urefs with
  | nil => intro s hinv; exact ⟨s, [], rfl, hinv⟩
  | cons u us ih =>
    intro s hinv
    obtain ⟨s1, a1, e1, h1⟩ := psim_input_strict_total env s u hinv
    obtain ⟨s2, a2, e2, h2⟩ := ih s1 h1
    exact ⟨s2, a1 ++ a2, by simp only [upipe_ts_psim_run, e1, e2], h2⟩

/-- Lines 155-196 of the merge, whatever the state: a `true` result leaves no
accumulator, has handed exactly one record to the output helper, and leaves a
record that is non-empty and not longer than before. -/
theorem psim_merge_section_true (env : Env) (s : upipe_ts_psim) (acc uref : Uref)
    (s1 : upipe_ts_psim) (u1 : Uref) (a : List Action)
    (hr : upipe_ts_psim_merge_section env s acc uref = .ok (s1, u1, a, true)) :
    s1.next_uref = none ∧ (∃ sec, emitted a = [sec]) ∧ 0 < u1.block.length ∧
      u1.block.length ≤ uref.block.length := by
  unfold upipe_ts_psim_merge_section at hr
  simp only [] at hr
  split at hr
  · cases hr
  · split at hr
    · cases hr
    · split at hr
      · cases hr
      · rename_i h1 h2 h3
        split at hr
        · cases hr
        · rename_i out hout
          obtain ⟨o2, a2, ho, he⟩ := psim_output_ok env { s with next_uref := some out } out
          simp only [ho] at hr
          split at hr
          · cases hr
          · rename_i h5
            split at hr
            · cases hr
            · rename_i rest hrest
              cases hr
              refine ⟨rfl, ⟨out.block, by simp [emitted, he]⟩, ?_, ?_⟩
              · unfold uref_block_resize at hrest
                split at hrest
                · cases hrest
                · rename_i hk
                  simp only [if_true] at hrest
                  cases hrest
                  simp only [List.length_drop]
                  omega
              · unfold uref_block_resize at hrest
                split at hrest
                · cases hrest
                · simp only [if_true] at hrest
                  cases hrest
                  simp only [List.length_drop]
                  omega

/-- One call of the merge, whatever the state: a `true` result leaves no
accumulator, has handed exactly one record to the output helper, and leaves a
record that is non-empty and not longer than before. -/
theorem psim_merge_true (env : Env) (s : upipe_ts_psim) (uref : Uref)
    (s1 : upipe_ts_psim) (u1 : Uref) (a : List Action)
    (hr : upipe_ts_psim_merge env s uref = .ok (s1, u1, a, true)) :
    s1.next_uref = none ∧ (∃ sec, emitted a = [sec]) ∧ 0 < u1.block.length ∧
      u1.block.length ≤ uref.block.length := by
  unfold upipe_ts_psim_merge at hr
  split at hr
  · split at hr
    · exact psim_merge_section_true env s _ uref s1 u1 a hr
    · cases hr
  · split at hr
    · split at hr
      · cases hr
      · split at hr
        · exact psim_merge_section_true env s uref uref s1 u1 a hr
        · cases hr
    · cases hr

/-- The merge never stops for lack of fuel: it has no loop. -/
theorem psim_merge_section_no_fuel (env : Env) (s : upipe_ts_psim) (acc uref : Uref) :
    upipe_ts_psim_merge_section env s acc uref ≠ .error Fault.fuel := by
  intro hr
  unfold upipe_ts_psim_merge_section at hr
  simp only [] at hr
  split at hr
  · cases hr
  · split at hr
    · cases hr
    · split at hr
      · cases hr
      · split at hr
        · cases hr
        · rename_i out hout
          obtain ⟨o2, a2, ho, he⟩ := psim_output_ok env { s with next_uref := some out } out
          simp only [ho] at hr
          split at hr
          · cases hr
          · split at hr
            · cases hr
            · cases hr

theorem psim_merge_no_fuel (env : Env) (s : upipe_ts_psim) (uref : Uref) :
    upipe_ts_psim_merge env s uref ≠ .error Fault.fuel := by
  intro hr
  unfold upipe_ts_psim_merge at hr
  split at hr
  · split at hr
    · exact psim_merge_section_no_fuel env s _ uref hr
    · cases hr
  · split at hr
    · split at hr
      · cases hr
      · split at hr
        · exact psim_merge_section_no_fuel env s uref uref hr
        · cases hr
    · cases hr

/-- More fuel does not change what the merge loop returns. -/
theorem psim_merge_loop_fuel_succ (env : Env) :
    ∀ (fuel : Nat) (s : upipe_ts_psim) (uref : Uref) (r : upipe_ts_psim × Uref × List Action),
      upipe_ts_psim_merge_loop env fuel s uref = .ok r →
      upipe_ts_psim_merge_loop env (fuel + 1) s uref = .ok r := by
  intro fuel
  induction fuel with
  | zero => intro s uref r hr; cases hr
  | succ fuel ih =>
    intro s uref r hr
    simp only [upipe_ts_psim_merge_loop] at hr
    cases hm : upipe_ts_psim_merge env s uref with
    | error e => simp [hm] at hr
    | ok r1 =>
      obtain ⟨s1, u1, a1, b⟩ := r1
      cases b with
      | false =>
        simp only [hm] at hr
        rw [upipe_ts_psim_merge_loop]
        simp only [hm]
        exact hr
      | true =>
        simp only [hm] at hr
        cases hl : upipe_ts_psim_merge_loop env fuel s1 u1 with
        | error e => simp [hl] at hr
        | ok r2 =>
          have h2 := ih s1 u1 r2 hl
          rw [upipe_ts_psim_merge_loop]
          simp only [hm, h2]
          simp only [hl] at hr
          exact hr

theorem psim_merge_loop_fuel_add (env : Env) (k : Nat) :
    ∀ (fuel : Nat) (s : upipe_ts_psim) (uref : Uref) (r : upipe_ts_psim × Uref × List Action),
      upipe_ts_psim_merge_loop env fuel s uref = .ok r →
      upipe_ts_psim_merge_loop env (fuel + k) s uref = .ok r := by
  induction k with
  | zero => intro fuel s uref r hr; exact hr
  | succ k ih =>
    intro fuel s uref r hr
    exact psim_merge_loop_fuel_succ env (fuel + k) s uref r (ih fuel s uref r hr)

/-- On a state whose accumulator is incomplete the merge loop returns within
as many iterations as the record has bytes (one for an empty record). -/
theorem psim_merge_loop_bound (env : Env) :
    ∀ (fuel : Nat) (s : upipe_ts_psim) (uref : Uref), acc_incomplete s →
      0 < fuel → uref.block.length ≤ fuel →
      ∃ r, upipe_ts_psim_merge_loop env fuel s uref = .ok r := by
  intro fuel
  induction fuel with
  | zero => intro s uref _ h; omega
  | succ fuel ih =>
    intro s uref hinv _ hlen
    obtain ⟨s1, u1, evs, b, _, e2, _, e4, e5⟩ := psim_merge_own_spec env s uref false hinv
    cases b with
    | false =>
      exact ⟨(s1, u1, own_erase evs), by simp only [upipe_ts_psim_merge_loop, e2]⟩
    | true =>
      obtain ⟨_, hpos, hlt⟩ := e5 rfl
      obtain ⟨r2, g2⟩ := ih s1 u1 e4 (by omega) (by omega)
      obtain ⟨s2, u2, a2⟩ := r2
      exact ⟨(s2, u2, own_erase evs ++ a2), by simp only [upipe_ts_psim_merge_loop, e2, g2]⟩

/-- Whatever the state, the merge loop of the input (fuel: the size of the
record plus two) does not stop for lack of fuel. -/
theorem psim_merge_loop_no_fuel (env : Env) (s : upipe_ts_psim) (uref : Uref) :
    upipe_ts_psim_merge_loop env (uref.block.length + 2) s uref ≠ .error Fault.fuel := by
  intro hr
  rw [upipe_ts_psim_merge_loop] at hr
  cases hm : upipe_ts_psim_merge env s uref with
  | error e =>
    simp only [hm] at hr
    injection hr with hr
    rw [hr] at hm
    exact psim_merge_no_fuel env s uref hm
  | ok r1 =>
    obtain ⟨s1, u1, a1, b⟩ := r1
    cases b with
    | false => simp [hm] at hr
    | true =>
      obtain ⟨hn, _, hpos, hle⟩ := psim_merge_true env s uref s1 u1 a1 hm
      have hinv : acc_incomplete s1 := by
        intro acc hacc
        rw [hn] at hacc
        cases hacc
      obtain ⟨r2, g2⟩ := psim_merge_loop_bound env (uref.block.length + 1) s1 u1 hinv
        (by omega) (by omega)
      obtain ⟨s2, u2, a2⟩ := r2
      simp [hm, g2] at hr

/-- As long as the codec cannot be opened and no deal can be started, the
loop of `upipe_avcdec_input` goes on: whatever the bound on its iterations, it
has not returned. -/
theorem avcdec_input_never_returns (env : AvEnv) (uref : Uref) (upump : Option Nat)
    (hfail : env.avcodec_open2 = false ∧ env.upipe_av_deal_upump_alloc = none) :
    ∀ (fuel : Nat) (s : upipe_avcdec) (context : AVCodecContext),
      s.context = some context → context.is_open = false → s.upump_av_deal = none →
      upipe_avcdec_input env fuel s uref upump = .error Fault.fuel := by
  intro fuel
  induction fuel with
  | zero => intro s context _ _ _; rfl
  | succ fuel ih =>
    intro s context hc ho hd
    obtain ⟨h2, ha⟩ := hfail
    rcases s with ⟨mgr, deal, urefs, blockers, counter, u, ctx, close⟩
    simp only at hc hd
    subst hc hd
    rcases context with ⟨ty, isopen⟩
    simp only at ho
    subst ho
    cases mgr with
    | none =>
      cases ty <;>
        simp [upipe_avcdec_input, upipe_avcdec_open, upipe_avcdec_start_av_deal,
          upipe_avcdec_abort_av_deal, upipe_avcdec_do_av_deal, h2] <;>
        rw [ih _ _ rfl rfl rfl]
    | some m =>
      simp [upipe_avcdec_input, upipe_avcdec_open, upipe_avcdec_start_av_deal,
        upipe_avcdec_abort_av_deal, ha]
      rw [ih _ _ rfl rfl rfl]

/-- Decoding does not touch the held queue, the blockers, the pumps, the
context or the close flag. -/
theorem avcdec_decode_spec (env : AvEnv) (s : upipe_avcdec) (uref : Uref) :
    (upipe_avcdec_decode env s uref).2.1 = avcdec_decode_effects env uref ∧
    (upipe_avcdec_decode env s uref).2.2 = true ∧
    (upipe_avcdec_decode env s uref).1.urefs = s.urefs ∧
    (upipe_avcdec_decode env s uref).1.blockers = s.blockers ∧
    (upipe_avcdec_decode env s uref).1.upump_av_deal = s.upump_av_deal ∧
    (upipe_avcdec_decode env s uref).1.upump_mgr = s.upump_mgr ∧
    (upipe_avcdec_decode env s uref).1.context = s.context ∧
    (upipe_avcdec_decode env s uref).1.close = s.close := by
  unfold upipe_avcdec_decode avcdec_decode_effects
  split
  · simp
  · split <;> simp

/-- The drain of the held queue passes every record to the decoding, in
order, and leaves nothing held. -/
theorem avcdec_output_sink_loop_spec (env : AvEnv) :
    ∀ (urefs : List Uref) (s : upipe_avcdec),
      (upipe_avcdec_output_sink_loop env s urefs).2.1 = [] ∧
      (upipe_avcdec_output_sink_loop env s urefs).2.2
        = urefs.flatMap (avcdec_decode_effects env) ∧
      (upipe_avcdec_output_sink_loop env s urefs).1.blockers = s.blockers ∧
      (upipe_avcdec_output_sink_loop env s urefs).1.upump_av_deal = s.upump_av_deal ∧
      (upipe_avcdec_output_sink_loop env s urefs).1.upump_mgr = s.upump_mgr ∧
      (upipe_avcdec_output_sink_loop env s urefs).1.context = s.context ∧
      (upipe_avcdec_output_sink_loop env s urefs).1.close = s.close := by
  intro urefs
  induction urefs with
  | nil => intro s; simp [upipe_avcdec_output_sink_loop]
  | cons u us ih =>
    intro s
    obtain ⟨d1, d2, _, d4, d5, d6, d7, d8⟩ := avcdec_decode_spec env s u
    obtain ⟨i1, i2, i3, i4, i5, i6, i7⟩ := ih (upipe_avcdec_decode env s u).1
    simp only [upipe_avcdec_output_sink_loop, d2, if_true, List.flatMap_cons]
    exact ⟨i1, by rw [i2, d1], by rw [i3, d4], by rw [i4, d5], by rw [i5, d6],
      by rw [i6, d7], by rw [i7, d8]⟩

/-- When every input plane is mapped and sized, the maps are those of the
chroma map, in order. -/
theorem sws_map_input_ok (env : SwsEnv) (chromas : List String)
    (h : (upipe_sws_map_input env chromas).2 = true) :
    (upipe_sws_map_input env chromas).1 = chromas.map SwsAction.uref_pic_plane_read := by
  induction chromas with
  | nil => rfl
  | cons c cs ih =>
    unfold upipe_sws_map_input at h ⊢
    by_cases h1 : env.uref_pic_plane_read c = true
    · by_cases h2 : env.uref_pic_plane_size c = true
      · simp only [h1, h2, if_true] at h ⊢
        rw [ih h]
        rfl
      · simp [h1, h2] at h
    · simp [h1] at h

/-- When every output plane is mapped and sized, the maps are those of the
chroma map, in order. -/
theorem sws_map_output_ok (env : SwsEnv) (chromas : List String)
    (h : (upipe_sws_map_output env chromas).2 = true) :
    (upipe_sws_map_output env chromas).1 = chromas.map SwsAction.ubuf_pic_plane_write := by
  induction chromas with
  | nil => rfl
  | cons c cs ih =>
    unfold upipe_sws_map_output at h ⊢
    by_cases h1 : env.ubuf_pic_plane_write c = true
    · by_cases h2 : env.ubuf_pic_plane_size c = true
      · simp only [h1, h2, if_true] at h ⊢
        rw [ih h]
        rfl
      · simp [h1, h2] at h
    · simp [h1] at h

/-- The effects of the input when the buffer manager is set, the record holds
a picture, the context is obtained, every plane is mapped, the output buffer
is allocated and the conversion succeeds. -/
theorem sws_input_success (env : SwsEnv) (s : upipe_sws) (uref : PicUref) (mgr : Nat)
    (input_hsize input_vsize : Nat)
    (hmgr : s.ubuf_mgr = some mgr) (hsize : uref.size = some (input_hsize, input_vsize))
    (hctx : env.sws_getCachedContext = true)
    (hin : (upipe_sws_map_input env s.input_chroma_map).2 = true)
    (halloc : env.ubuf_pic_alloc = true)
    (hout : (upipe_sws_map_output env s.output_chroma_map).2 = true)
    (hscale : 0 < env.sws_scale) :
    (upipe_sws_input env s uref).2
      = s.input_chroma_map.map SwsAction.uref_pic_plane_read
        ++ s.output_chroma_map.map SwsAction.ubuf_pic_plane_write
        ++ [SwsAction.sws_scale]
        ++ s.input_chroma_map.map SwsAction.uref_pic_plane_unmap
        ++ s.output_chroma_map.map SwsAction.ubuf_pic_plane_unmap
        ++ (upipe_sws_sar env { s with convert_ctx := true }
              ⟨some (upipe_sws_output_size s input_hsize input_vsize), uref.sar⟩
              input_hsize input_vsize
              (upipe_sws_output_size s input_hsize input_vsize).1
              (upipe_sws_output_size s input_hsize input_vsize).2).2
        ++ [SwsAction.output (upipe_sws_sar env { s with convert_ctx := true }
              ⟨some (upipe_sws_output_size s input_hsize input_vsize), uref.sar⟩
              input_hsize input_vsize
              (upipe_sws_output_size s input_hsize input_vsize).1
              (upipe_sws_output_size s input_hsize input_vsize).2).1] := by
  have hs : ¬ env.sws_scale ≤ 0 := by omega
  have e1 := sws_map_input_ok env s.input_chroma_map hin
  have e2 := sws_map_output_ok env s.output_chroma_map hout
  simp only [upipe_sws_input, hmgr, hsize, hctx, hin, halloc, hout, hs, e1, e2,
    Bool.not_true, Bool.false_eq_true, if_false, List.nil_append]
  simp [upipe_sws_output_size]

/-- On the paths of the input that reach `sws_scale`, whether the conversion
succeeds or not, the planes unmapped are the planes mapped. -/
theorem sws_input_balanced_when_mapped (env : SwsEnv) (s : upipe_sws) (uref : PicUref)
    (mgr : Nat) (input_hsize input_vsize : Nat)
    (hmgr : s.ubuf_mgr = some mgr) (hsize : uref.size = some (input_hsize, input_vsize))
    (hctx : env.sws_getCachedContext = true)
    (hin : (upipe_sws_map_input env s.input_chroma_map).2 = true)
    (halloc : env.ubuf_pic_alloc = true)
    (hout : (upipe_sws_map_output env s.output_chroma_map).2 = true) :
    sws_maps (upipe_sws_input env s uref).2 = (s.input_chroma_map, s.output_chroma_map)
    ∧ sws_unmaps (upipe_sws_input env s uref).2
      = (s.input_chroma_map, s.output_chroma_map) := by
  have e1 := sws_map_input_ok env s.input_chroma_map hin
  have e2 := sws_map_output_ok env s.output_chroma_map hout
  have fnone : ∀ l : List String,
      List.filterMap (fun _ => (none : Option String)) l = [] := by
    intro l; induction l with
    | nil => rfl
    | cons x xs ih => simp [List.filterMap_cons, ih]
  by_cases hs : env.sws_scale ≤ 0
  · simp only [upipe_sws_input, hmgr, hsize, hctx, hin, halloc, hout, hs, e1, e2,
      Bool.not_true, Bool.false_eq_true, if_false, if_true, List.nil_append]
    simp [sws_maps, sws_unmaps, List.filterMap_append, List.filterMap_map, Function.comp_def,
      fnone]
  · simp only [upipe_sws_input, hmgr, hsize, hctx, hin, halloc, hout, hs, e1, e2,
      Bool.not_true, Bool.false_eq_true, if_false, List.nil_append, upipe_sws_sar]
    cases s.flow_def_attr.sar <;> cases uref.sar <;> cases env.uref_pic_flow_set_sar <;>
      simp [sws_maps, sws_unmaps, List.filterMap_append, List.filterMap_map,
        Function.comp_def, fnone]

theorem s64_mul_exact (n : Int) (x : Nat) (h1 : -(2 ^ 63) ≤ n * x) (h2 : n * x < 2 ^ 63) :
    s64_of_nat (u64_of_int n * x) = n * x := by
  have hnn : 0 ≤ n % 2 ^ 64 := Int.emod_nonneg _ (by norm_num)
  have hc : (((u64_of_int n * x) % 2 ^ 64 : Nat) : Int) = (n * x) % 2 ^ 64 := by
    unfold u64_of_int
    rw [Int.natCast_mod, Nat.cast_mul, Int.toNat_of_nonneg hnn]
    simp only [Nat.cast_pow, Nat.cast_ofNat]
    exact Int.ModEq.mul_right _ (Int.mod_modEq n _)
  unfold s64_of_nat
  split
  · rename_i h
    rw [hc]
    have h3 : ((((u64_of_int n * x) % 2 ^ 64 : Nat)) : Int) < 2 ^ 63 := by exact_mod_cast h
    rw [hc] at h3
    omega
  · rename_i h
    rw [hc]
    have h3 : ¬ ((((u64_of_int n * x) % 2 ^ 64 : Nat)) : Int) < 2 ^ 63 := by exact_mod_cast h
    rw [hc] at h3
    omega

/-- The simplified fraction is the same fraction. -/
theorem urational_simplify_cross (r : urational) :
    (urational_simplify r).num * (r.den : Int) = r.num * ((urational_simplify r).den : Int) := by
  unfold urational_simplify
  simp only
  obtain ⟨p, hp⟩ : ((Nat.gcd r.num.natAbs r.den : Nat) : Int) ∣ r.num :=
    Int.natCast_dvd.mpr (Nat.gcd_dvd_left _ _)
  obtain ⟨q, hq⟩ : Nat.gcd r.num.natAbs r.den ∣ r.den := Nat.gcd_dvd_right _ _
  by_cases hg : Nat.gcd r.num.natAbs r.den = 0
  · simp [hg]
  · have hg2 : ((Nat.gcd r.num.natAbs r.den : Nat) : Int) ≠ 0 := by exact_mod_cast hg
    rw [Int.ediv_eq_of_eq_mul_right hg2 hp,
      Nat.div_eq_of_eq_mul_right (Nat.pos_of_ne_zero hg) hq]
    generalize Nat.gcd r.num.natAbs r.den = g at hp hq
    have hq2 : (r.den : Int) = (g : Int) * (q : Int) := by exact_mod_cast hq
    rw [hq2, hp]
    ring

/-- The simplified fraction is in lowest terms. -/
theorem urational_simplify_coprime (r : urational) (h : r.num ≠ 0 ∨ r.den ≠ 0) :
    Nat.gcd (urational_simplify r).num.natAbs (urational_simplify r).den = 1 := by
  unfold urational_simplify
  simp only
  have hpos : 0 < Nat.gcd r.num.natAbs r.den := by
    rcases h with h | h
    · exact Nat.gcd_pos_of_pos_left _ (Int.natAbs_pos.mpr h)
    · exact Nat.gcd_pos_of_pos_right _ (Nat.pos_of_ne_zero h)
  have hd : ((Nat.gcd r.num.natAbs r.den : Nat) : Int) ∣ r.num :=
    Int.natCast_dvd.mpr (Nat.gcd_dvd_left _ _)
  rw [Int.natAbs_ediv _ _ hd, Int.natAbs_ofNat]
  exact Nat.coprime_div_gcd_div_gcd hpos

/-- Multiplying numerator and denominator by the same positive number does
not change the simplified fraction. -/
theorem urational_simplify_scale (n : Int) (d k : Nat) (hk : 0 < k) :
    urational_simplify ⟨n * (k : Int), d * k⟩ = urational_simplify ⟨n, d⟩ := by
  unfold urational_simplify
  simp only
  have hg : Nat.gcd (n * (k : Int)).natAbs (d * k) = Nat.gcd n.natAbs d * k := by
    rw [Int.natAbs_mul, Int.natAbs_ofNat, Nat.gcd_mul_right]
  rw [hg]
  congr 1
  · push_cast
    exact Int.mul_ediv_mul_of_pos_left _ _ (by exact_mod_cast hk)
  · exact Nat.mul_div_mul_right _ _ hk

/-! ## Properties of the specification -/

/-- C1. For every sequence of valid PSI sections (first octet not 0xFF, size
`length + 3 ≤ 4096`) and every way of cutting their concatenation into
consecutive records of at least one octet of section data, each with the
unit-start flag and pointer_field its position requires, `upipe_ts_psim_input`
run over the records from any state with an empty accumulator hands to the
output exactly the sections, in order and octet for octet, as it does when the
concatenation is fed as a single unit-start record with pointer_field 0. -/
theorem C1_cutting_does_not_change_sections (env : Env) (s : upipe_ts_psim)
    (secs : List (List Nat)) (sizes : List Nat) (halloc : env.alloc = true)
    (hnone : s.next_uref = none) (hvalid : ∀ sec ∈ secs, valid_section sec)
    (hne : secs ≠ []) (hpos : ∀ n ∈ sizes, 0 < n) (hsum : sizes.sum = secs.flatten.length) :
    ∃ s1 a1 s2 a2,
      upipe_ts_psim_run env s (cut_records secs.flatten (section_starts secs 0) sizes)
        = .ok (s1, a1)
      ∧ upipe_ts_psim_run env s [mk_uref false true (0 :: secs.flatten)] = .ok (s2, a2)
      ∧ emitted a1 = secs ∧ emitted a2 = secs ∧ emitted a1 = emitted a2
      ∧ s1.next_uref = none ∧ s2.next_uref = none
      ∧ (wired s.toOutputHelper → delivered a1 = secs ∧ delivered a2 = secs) := by
  have hcfg : ∀ sec rest, secs = sec :: rest → 0 < sec.length := fun sec rest h =>
    valid_section_pos sec (hvalid sec (by rw [h]; exact List.mem_cons_self _ _))
  have hshift0 : shift_starts 0 (section_starts secs 0) = section_starts secs 0 := by
    simp [shift_starts]
  obtain ⟨s1, a1, h1, he1, hn1⟩ := run_valid env halloc sizes secs 0 s hvalid hcfg
    (Or.inl ⟨by simp, hnone⟩) (Or.inr rfl) hpos (by omega)
  have hfl := flatten_pos secs hne hvalid
  obtain ⟨s2, a2, h2, he2, hn2⟩ := run_valid env halloc [secs.flatten.length] secs 0 s hvalid
    hcfg (Or.inl ⟨by simp, hnone⟩) (Or.inr rfl)
    (by intro n hn; rw [List.mem_singleton] at hn; rw [hn]; exact hfl) (by simp)
  rw [hshift0, List.drop_zero] at h1 h2
  obtain ⟨sec, rest, hsr⟩ := List.exists_cons_of_ne_nil hne
  have hwhole : cut_records secs.flatten (section_starts secs 0) [secs.flatten.length]
      = [mk_uref false true (0 :: secs.flatten)] := by
    have hb := cut_record_at_boundary sec rest secs.flatten.length hfl
      (secs.flatten.take secs.flatten.length)
    rw [← hsr, hshift0, List.take_length] at hb
    simp only [cut_records, List.take_length, hb]
  rw [hwhole] at h2
  refine ⟨s1, a1, s2, a2, h1, h2, he1, he2, by rw [he1, he2], hn1, hn2, ?_⟩
  intro hw
  exact ⟨by rw [(psim_run_delivered env halloc _ s hw _ h1).1, he1],
    by rw [(psim_run_delivered env halloc _ s hw _ h2).1, he2]⟩

/-- C1 on two sections cut into records of one or two octets, for a pipe with
its output wired. -/
theorem C1_witness :
    (match upipe_ts_psim_run example_env wired_psim
        (cut_records [[2, 0, 3, 1, 2, 3], [0x42, 0, 0]].flatten
          (section_starts [[2, 0, 3, 1, 2, 3], [0x42, 0, 0]] 0) [1, 1, 1, 1, 1, 2, 1, 1]),
      upipe_ts_psim_run example_env wired_psim
        [mk_uref false true (0 :: [[2, 0, 3, 1, 2, 3], [0x42, 0, 0]].flatten)] with
      | .ok r1, .ok r2 => some (emitted r1.2, delivered r1.2, emitted r2.2, delivered r2.2)
      | _, _ => none)
      = some ([[2, 0, 3, 1, 2, 3], [0x42, 0, 0]], [[2, 0, 3, 1, 2, 3], [0x42, 0, 0]],
              [[2, 0, 3, 1, 2, 3], [0x42, 0, 0]], [[2, 0, 3, 1, 2, 3], [0x42, 0, 0]]) := by
  obtain ⟨s1, a1, s2, a2, h1, h2, he1, he2, _, _, _, hd⟩ :=
    C1_cutting_does_not_change_sections example_env wired_psim
      [[2, 0, 3, 1, 2, 3], [0x42, 0, 0]] [1, 1, 1, 1, 1, 2, 1, 1] rfl rfl (by decide)
      (by decide) (by decide) (by decide)
  obtain ⟨hd1, hd2⟩ := hd ⟨1, C5_flow_def, rfl, rfl⟩
  rw [h1, h2]
  simp only [he1, he2, hd1, hd2]

/-- C2 as stated fails: in the synchronised state with an empty accumulator, the
unit-start record with pointer_field 1 followed by the complete section
`[00 00 00]`, when it also carries the discontinuity flag, hands nothing to the
output and leaves two octets in the accumulator. -/
theorem C2_counterexample :
    upipe_ts_psim_input example_env { upipe_ts_psim_alloc with acquired := true }
        (mk_uref true true [1, 0, 0, 0])
      = .ok ({ upipe_ts_psim_alloc with
                 next_uref := some (mk_uref true false [0, 0]), acquired := true },
          [Action.throw Event.sync_lost, Action.throw Event.sync_acquired,
           Action.free (mk_uref true false [0, 0])])
    ∧ valid_section [0, 0, 0] := by
  decide

/-- C2, amended. For a synchronised pipe with an empty accumulator, a unit-start
record that carries no discontinuity flag (or whose pointer_field is 0) and
whose data after the pointer_field is the concatenation of `k ≥ 1` complete
valid sections makes `upipe_ts_psim_input` hand to the output exactly these `k`
sections, in order and octet for octet, and leaves the accumulator empty. -/
theorem C2_complete_sections_are_emitted (env : Env) (s : upipe_ts_psim) (u : Uref)
    (pointer_field : Nat) (secs : List (List Nat)) (halloc : env.alloc = true)
    (hs : s.acquired = true) (hnone : s.next_uref = none) (hst : u.start = true)
    (hb : u.block = pointer_field :: secs.flatten) (hne : secs ≠ [])
    (hvalid : ∀ sec ∈ secs, valid_section sec)
    (hd : u.discontinuity = false ∨ pointer_field = 0) :
    ∃ s2 acts, upipe_ts_psim_input env s u = .ok (s2, acts)
      ∧ emitted acts = secs ∧ (emitted acts).length = secs.length
      ∧ (∀ i (h : i < secs.length), ∃ block, (emitted acts).get? i = some block
          ∧ block = secs.get ⟨i, h⟩
          ∧ block.length = psi_get_length (block.take PSI_HEADER_SIZE) + PSI_HEADER_SIZE)
      ∧ s2.next_uref = none
      ∧ (wired s.toOutputHelper → delivered acts = secs) := by
  have hpos := flatten_pos secs hne hvalid
  have hcfg : ∀ sec rest, secs = sec :: rest → 0 < sec.length := fun sec rest h =>
    valid_section_pos sec (hvalid sec (by rw [h]; exact List.mem_cons_self _ _))
  have hdata : secs.flatten = (secs.flatten.drop 0).take secs.flatten.length := by simp
  have key : ∃ s2 acts, upipe_ts_psim_input env s u = .ok (s2, acts)
      ∧ emitted acts = secs ∧ s2.next_uref = none := by
    cases hdisc : u.discontinuity
    · obtain ⟨s2, acts, hin, hem, hacc2, _⟩ :=
        input_start_valid env halloc secs hvalid 0 secs.flatten.length s u secs.flatten hcfg
          (Or.inl ⟨by simp, hnone⟩) hpos (by omega) hdata (Or.inl hs)
          (Or.inl ⟨hst, pointer_field, hb, Or.inl hs⟩)
      refine ⟨s2, acts, ?_, ?_, ?_⟩
      · rw [psim_input_of_no_flush env s u (Or.inr hdisc), hin]
      · rw [hem, Nat.zero_add, completed_all]
      · simp only [Nat.zero_add, pending_all] at hacc2
        exact acc_matches_nil s2 (by simpa using hacc2)
    · have hpf : pointer_field = 0 := by
        rcases hd with h | h
        · rw [hdisc] at h; cases h
        · exact h
      obtain ⟨s2, acts, hin, hem, hacc2, _⟩ :=
        input_start_valid env halloc secs hvalid 0 secs.flatten.length
          { s with next_uref := none, acquired := false } u secs.flatten hcfg
          (Or.inl ⟨by simp, rfl⟩) hpos (by omega) hdata (Or.inr rfl)
          (Or.inl ⟨hst, pointer_field, hb, Or.inr hpf⟩)
      refine ⟨s2, (upipe_ts_psim_flush s).2 ++ acts, ?_, ?_, ?_⟩
      · simp only [upipe_ts_psim_input, hdisc, if_true, psim_flush_state, hin]
      · rw [emitted_append, psim_flush_actions, hnone, hs, hem, Nat.zero_add, completed_all]
        rfl
      · simp only [Nat.zero_add, pending_all] at hacc2
        exact acc_matches_nil s2 (by simpa using hacc2)
  obtain ⟨s2, acts, hin, hem, hn2⟩ := key
  refine ⟨s2, acts, hin, hem, by rw [hem], ?_, hn2, ?_⟩
  · intro i h
    refine ⟨secs.get ⟨i, h⟩, ?_, rfl, ?_⟩
    · rw [hem]; exact List.get?_eq_get h
    · exact (hvalid _ (List.get_mem secs i h)).2.2.1
  · intro hw
    rw [(psim_input_delivered env halloc s u hw _ hin).1, hem]

/-- C2, amended, on a record carrying two sections after a pointer_field of 7,
for a pipe with its output wired. -/
theorem C2_witness :
    (match upipe_ts_psim_input example_env wired_psim
        (mk_uref false true [7, 2, 0, 3, 1, 2, 3, 0x42, 0, 0]) with
      | .ok r => some (emitted r.2, delivered r.2, r.1.next_uref)
      | .error _ => none)
      = some ([[2, 0, 3, 1, 2, 3], [0x42, 0, 0]], [[2, 0, 3, 1, 2, 3], [0x42, 0, 0]], none) := by
  obtain ⟨s2, acts, hin, hem, _, _, hn, hdel⟩ :=
    C2_complete_sections_are_emitted example_env wired_psim
      (mk_uref false true [7, 2, 0, 3, 1, 2, 3, 0x42, 0, 0]) 7
      [[2, 0, 3, 1, 2, 3], [0x42, 0, 0]] rfl rfl rfl rfl rfl (by decide) (by decide)
      (Or.inl rfl)
  rw [hin]
  simp only [hem, hn, hdel ⟨1, C5_flow_def, rfl, rfl⟩]

/-- C3. For a non-paused trick-play pipe (`rate.num` and `rate.den` non-zero,
`rate.num` a 64-bit integer), `upipe_trickp_get_systime` returns
`(max(ts, ts_origin) - ts_origin) * rate.den / rate.num + systime_offset` in
unsigned 64-bit arithmetic, and `upipe_trickp_sub_process` returns true after
handing to the output helper the input record with its rate attribute set to the
current rate, pts-sys (resp. dts-sys) set to that value for its pts (resp. dts)
when present, and pts, dts and every other attribute unchanged; with an output
wired and a flow definition stored the helper forwards that record downstream. -/
theorem C3_process_stamps_and_emits (env : Env) (t : upipe_trickp) (sub : upipe_trickp_sub)
    (uref : Uref) (hnum : t.rate.num ≠ 0) (hden : t.rate.den ≠ 0)
    (hlo : -(2 ^ 63) ≤ t.rate.num) (hhi : t.rate.num < 2 ^ 64) :
    (∀ ts, upipe_trickp_get_systime t ts
        = .ok (((max ts t.ts_origin - t.ts_origin) * t.rate.den % 2 ^ 64
                  / u64_of_int t.rate.num + t.systime_offset) % 2 ^ 64))
    ∧ (stamped_spec t uref).pts = uref.pts ∧ (stamped_spec t uref).dts = uref.dts
    ∧ (stamped_spec t uref).rate = some t.rate
    ∧ ∃ h2 a, upipe_trickp_sub_process env t sub uref
          = .ok ({ sub with toOutputHelper := h2 },
              Action.output (stamped_spec t uref) :: a, true)
        ∧ emitted a = []
        ∧ ∀ o f, env.alloc = true → sub.output = some o → sub.flow_def = some f →
            a = (if sub.flow_def_sent then [] else [Action.flow_def o f])
                  ++ [Action.input o (stamped_spec t uref)] :=
  ⟨fun ts => get_systime_eq t ts (u64_of_int_ne_zero _ hnum hlo hhi), rfl, rfl, rfl,
    sub_process_stamps env t sub uref hnum hden hlo hhi⟩

/-- C3 on a record with pts 3000 and dts 500 at rate 1/2. -/
theorem C3_witness :
    upipe_trickp_sub_process example_env C3_pipe C3_sub C3_uref
      = .ok (C3_sub,
          [Action.output { C3_uref with pts_sys := some 2714000, dts_sys := some 2710000,
                                        rate := some { num := 1, den := 2 } },
           Action.input 1 { C3_uref with pts_sys := some 2714000, dts_sys := some 2710000,
                                         rate := some { num := 1, den := 2 } }], true) := by
  obtain ⟨_, _, _, _, h2, a, h, _, ha⟩ :=
    C3_process_stamps_and_emits example_env C3_pipe C3_sub C3_uref
      (by decide) (by decide) (by decide) (by decide)
  decide

/-- C4. When `upipe_trickp_check_start` runs with a clock attached and every
subpipe that is not a subpicture holds at least one dated record, it returns
with `ts_origin` set to the minimum of the dates of the first dated record (dts
if present, otherwise pts) of the held queues of the subpipes that are not
subpictures, and `systime_offset` set to the clock's current time plus
2,700,000 ticks (in 64-bit arithmetic); the queues of subpicture subpipes do not
enter the computation. -/
theorem C4_check_start_anchors (env : Env) (t : upipe_trickp) (clock : Nat)
    (hclock : t.uclock = some clock)
    (hlo : -(2 ^ 63) ≤ t.rate.num) (hhi : t.rate.num < 2 ^ 64)
    (hready : ∀ sub ∈ t.subs, sub.type ≠ upipe_trickp_sub_type.UPIPE_TRICKP_SUBPIC →
      ∃ u ∈ sub.urefs, upipe_trickp_uref_ts u ≠ none)
    (h64 : ∀ d ∈ anchor_dates t.subs, d < 2 ^ 64) :
    ∃ t2 acts, upipe_trickp_check_start env t = .ok (t2, acts)
      ∧ t2.ts_origin = (anchor_dates t.subs).foldl min UINT64_MAX
      ∧ (∀ d ∈ anchor_dates t.subs, t2.ts_origin ≤ d)
      ∧ (anchor_dates t.subs ≠ [] → t2.ts_origin ∈ anchor_dates t.subs)
      ∧ t2.systime_offset = (env.now + 2700000) % 2 ^ 64
      ∧ (env.now + 2700000 < 2 ^ 64 → t2.systime_offset = env.now + 2700000) := by
  have hscan := scan_ready t.subs UINT64_MAX hready
  obtain ⟨⟨subs2, a2⟩, hdrain⟩ := drain_ok env
    { t with subs := (upipe_trickp_scan t.subs UINT64_MAX).1,
             ts_origin := (anchor_dates t.subs).foldl min UINT64_MAX,
             systime_offset := (env.now + UPIPE_TRICKP_PTS_DELAY) % 2 ^ 64 }
    (upipe_trickp_scan t.subs UINT64_MAX).1 hlo hhi
  have hdelay : UPIPE_TRICKP_PTS_DELAY = 2700000 := by decide
  have hcs : upipe_trickp_check_start env t
      = .ok ({ t with subs := subs2,
                      ts_origin := (anchor_dates t.subs).foldl min UINT64_MAX,
                      systime_offset := (env.now + UPIPE_TRICKP_PTS_DELAY) % 2 ^ 64 },
          (upipe_trickp_scan t.subs UINT64_MAX).2.1 ++ a2) := by
    simp only [hclock] at hdrain
    simp only [upipe_trickp_check_start, hscan, hclock, hdrain]
  refine ⟨_, _, hcs, rfl, ?_, ?_, ?_, ?_⟩
  · intro d hd
    exact foldl_min_le_mem _ _ d hd
  · intro hne
    rcases foldl_min_mem_or_init (anchor_dates t.subs) UINT64_MAX with h | h
    · obtain ⟨d, ds, hds⟩ := List.exists_cons_of_ne_nil hne
      have hmem : d ∈ anchor_dates t.subs := by rw [hds]; exact List.mem_cons_self _ _
      have h1 := foldl_min_le_mem (anchor_dates t.subs) UINT64_MAX d hmem
      have h2 := h64 d hmem
      have h3 : (anchor_dates t.subs).foldl min UINT64_MAX = d := by
        rw [h] at h1 ⊢
        unfold UINT64_MAX at h1 ⊢
        omega
      show (anchor_dates t.subs).foldl min UINT64_MAX ∈ anchor_dates t.subs
      rw [h3]; exact hmem
    · exact h
  · show (env.now + UPIPE_TRICKP_PTS_DELAY) % 2 ^ 64 = _
    rw [hdelay]
  · intro hlt
    show (env.now + UPIPE_TRICKP_PTS_DELAY) % 2 ^ 64 = _
    rw [hdelay]
    exact Nat.mod_eq_of_lt hlt

/-- C4 on a picture, a sound and a subpicture subpipe. -/
theorem C4_witness :
    (match upipe_trickp_check_start example_env C4_pipe with
      | .ok r => some (r.1.ts_origin, r.1.systime_offset)
      | .error _ => none) = some (1000, 2710000) := by
  obtain ⟨t2, acts, h, ho, _, _, hs, _⟩ :=
    C4_check_start_anchors example_env C4_pipe 0 rfl (by decide) (by decide)
      (by decide) (by decide)
  rw [h]
  simp only [ho, hs]
  decide

/-- C5 fails on the code: after a flow definition is stored, output 1 is wired
and a record is sent, wiring output 2 and sending a second record delivers that
record to output 2 with no flow definition before it (`set_output` leaves
`flow_def_sent` set). -/
theorem C5_new_output_gets_no_flow_def :
    (match helper_run example_env helper_init_output C5_ops with
      | .ok r => some (received 1 r.2, received 2 r.2)
      | .error _ => none)
      = some ([Sum.inl C5_flow_def, Sum.inr (mk_uref false false [1])],
              [Sum.inr (mk_uref false false [2])]) := by
  decide

/-- C6. In a synchronised state, with or without an accumulated section, a
record carrying the discontinuity flag and no unit-start flag makes
`upipe_ts_psim_input` free the accumulator (nothing is handed to the output),
throw sync-lost and leave the pipe in desync with an empty accumulator; every
later sequence of records without unit-start is then freed record by record,
with no other effect and no change of state. -/
theorem C6_discontinuity_drops_and_desyncs (env : Env) (s : upipe_ts_psim) (u : Uref)
    (hs : s.acquired = true) (hd : u.discontinuity = true) (hst : u.start = false) :
    upipe_ts_psim_input env s u
      = .ok ({ s with next_uref := none, acquired := false },
          (match s.next_uref with | some acc => [Action.free acc] | none => []) ++
            [Action.throw Event.sync_lost, Action.free u])
    ∧ ∀ later : List Uref, (∀ r ∈ later, r.start = false) →
        upipe_ts_psim_run env { s with next_uref := none, acquired := false } later
          = .ok ({ s with next_uref := none, acquired := false }, later.map Action.free) := by
  constructor
  · rcases s with ⟨h, n, a⟩
    simp only at hs
    subst hs
    cases n <;>
      simp [upipe_ts_psim_input, upipe_ts_psim_input_start, hd, hst, upipe_ts_psim_flush,
        upipe_ts_psim_sync_lost]
  · intro later
    induction later with
    | nil => intro _; rfl
    | cons r rs ih =>
      intro hall
      have hr : r.start = false := hall r (List.mem_cons_self _ _)
      have hrs := ih (fun x hx => hall x (List.mem_cons_of_mem _ hx))
      have hin : upipe_ts_psim_input env { s with next_uref := none, acquired := false } r
          = .ok ({ s with next_uref := none, acquired := false }, [Action.free r]) := by
        cases hdr : r.discontinuity <;>
          simp [upipe_ts_psim_input, upipe_ts_psim_input_start, hdr, hr, upipe_ts_psim_flush,
            upipe_ts_psim_sync_lost]
      simp [upipe_ts_psim_run, hin, hrs]

/-- C6 on a pipe accumulating four octets. -/
theorem C6_witness :
    upipe_ts_psim_input example_env
        { upipe_ts_psim_alloc with next_uref := some (mk_uref false false [2, 0, 12, 1]),
                                   acquired := true }
        (mk_uref true false [5, 6])
      = .ok ({ upipe_ts_psim_alloc with next_uref := none, acquired := false },
          [Action.free (mk_uref false false [2, 0, 12, 1]),
           Action.throw Event.sync_lost, Action.free (mk_uref true false [5, 6])]) :=
  (C6_discontinuity_drops_and_desyncs example_env
    { upipe_ts_psim_alloc with next_uref := some (mk_uref false false [2, 0, 12, 1]),
                               acquired := true }
    (mk_uref true false [5, 6]) rfl rfl rfl).1

/-- C7. When the accumulated data (the accumulator with the input appended, or
the input itself when the accumulator was empty and the input does not start
with stuffing) holds at least 3 octets and the length field of its header has
`length + 3 > 4096`, `upipe_ts_psim_merge` hands nothing to the output, frees
the accumulated record, leaves the accumulator empty and the pipe in desync
(sync-lost being thrown exactly when sync was acquired), and returns false. -/
theorem C7_oversized_header_flushes (env : Env) (s : upipe_ts_psim) (uref data : Uref)
    (halloc : env.alloc = true)
    (hdata : (∃ acc, s.next_uref = some acc ∧ data = uref_block_append acc uref.block) ∨
      (s.next_uref = none ∧ data = uref ∧ uref.block.head? ≠ some 0xff))
    (hsize : PSI_HEADER_SIZE ≤ data.block.length)
    (hlen : psi_get_length (data.block.take PSI_HEADER_SIZE) + PSI_HEADER_SIZE
              > PSI_PRIVATE_MAX_SIZE) :
    upipe_ts_psim_merge env s uref
      = .ok ({ s with next_uref := none, acquired := false }, uref,
          Action.free data :: (if s.acquired then [Action.throw Event.sync_lost] else []),
          false) := by
  have hsec : upipe_ts_psim_merge_section env s data uref
      = .ok ({ s with next_uref := none, acquired := false }, uref,
          Action.free data :: (if s.acquired then [Action.throw Event.sync_lost] else []),
          false) := by
    have h1 : ¬ data.block.length < PSI_HEADER_SIZE := by omega
    simp only [upipe_ts_psim_merge_section, h1, if_false, hlen, if_true]
    rw [psim_flush_state, psim_flush_actions]
    simp
  rcases hdata with ⟨acc, hacc, hd⟩ | ⟨hnone, hd, hff⟩
  · simp only [upipe_ts_psim_merge, hacc, halloc, if_true]
    rw [← hd]; exact hsec
  · subst hd
    have hne : data.block ≠ [] := by
      intro h; rw [h] at hsize; simp [PSI_HEADER_SIZE] at hsize
    obtain ⟨b, bs, hb⟩ := List.exists_cons_of_ne_nil hne
    have hbff : b ≠ 0xff := by
      intro h; apply hff; simp [hb, h]
    have hm : upipe_ts_psim_merge env s data = upipe_ts_psim_merge_section env s data data := by
      simp [upipe_ts_psim_merge, hnone, uref_block_extract, hb, hbff, halloc]
    rw [hm]; exact hsec

/-- C7 on an accumulator `[02 FF]` completed by `[FF 07]`: length 0xFFF. -/
theorem C7_witness :
    upipe_ts_psim_merge example_env
        { upipe_ts_psim_alloc with next_uref := some (mk_uref false false [2, 0xff]),
                                   acquired := true }
        (mk_uref false false [0xff, 7])
      = .ok ({ upipe_ts_psim_alloc with next_uref := none, acquired := false },
          mk_uref false false [0xff, 7],
          [Action.free (mk_uref false false [2, 0xff, 0xff, 7]),
           Action.throw Event.sync_lost], false) :=
  C7_oversized_header_flushes example_env
    { upipe_ts_psim_alloc with next_uref := some (mk_uref false false [2, 0xff]),
                               acquired := true }
    (mk_uref false false [0xff, 7]) (mk_uref false false [2, 0xff, 0xff, 7]) rfl
    (Or.inl ⟨mk_uref false false [2, 0xff], rfl, rfl⟩) (by decide) (by decide)

/-- C8 as stated fails: in the synchronised state with an empty accumulator, the
unit-start record `[FF FF FF FF]` that also carries the discontinuity flag makes
the pipe throw sync-lost and end in desync. -/
theorem C8_counterexample :
    upipe_ts_psim_input example_env
        { upipe_ts_psim_alloc with acquired := true }
        (mk_uref true true [0xff, 0xff, 0xff, 0xff])
      = .ok ({ upipe_ts_psim_alloc with acquired := false },
          [Action.throw Event.sync_lost,
           Action.free (mk_uref true true [0xff, 0xff, 0xff, 0xff])]) := by
  decide

/-- C8, amended. In the synchronised state with an empty accumulator, a
unit-start record without the discontinuity flag whose first octet after the
pointer_field is 0xFF is only freed: nothing is handed to the output, no event
is thrown, and the pipe is left as it was (synchronised, accumulator empty). -/
theorem C8_stuffing_is_dropped (env : Env) (s : upipe_ts_psim) (u : Uref)
    (pointer_field : Nat) (rest : List Nat)
    (hs : s.acquired = true) (hn : s.next_uref = none) (hst : u.start = true)
    (hd : u.discontinuity = false) (hb : u.block = pointer_field :: 0xff :: rest) :
    upipe_ts_psim_input env s u
      = .ok (s, [Action.free { u with start := false, block := 0xff :: rest }]) := by
  rw [psim_input_of_no_flush env s u (Or.inr hd),
    psim_input_start_acquired env s u pointer_field (0xff :: rest) hs hst hb]
  simp [upipe_ts_psim_input_sections, upipe_ts_psim_merge_loop, upipe_ts_psim_merge, hn,
    uref_block_extract]

/-- C8, amended, on the record `[FF FF FF FF]` of scenario S2. -/
theorem C8_witness :
    upipe_ts_psim_input example_env
        { upipe_ts_psim_alloc with acquired := true }
        (mk_uref false true [0xff, 0xff, 0xff, 0xff])
      = .ok ({ upipe_ts_psim_alloc with acquired := true },
          [Action.free { mk_uref false true [0xff, 0xff, 0xff, 0xff] with
                         start := false, block := 0xff :: [0xff, 0xff] }]) :=
  C8_stuffing_is_dropped example_env
    { upipe_ts_psim_alloc with acquired := true }
    (mk_uref false true [0xff, 0xff, 0xff, 0xff]) 0xff [0xff, 0xff] rfl rfl rfl rfl rfl

/-- C9. In the desync state (sync not acquired, accumulator empty), a
unit-start record whose first octet is `pointer_field` and which holds more
than `1 + pointer_field` octets is handled as follows: sync-acquired is thrown,
the pipe is synchronised, and the merge loop is run on the record with its
first `1 + pointer_field` octets (and its start flag) removed. -/
theorem C9_desync_skips_pointer_field (env : Env) (s : upipe_ts_psim) (u : Uref)
    (pointer_field : Nat) (rest : List Nat)
    (hs : s.acquired = false) (hn : s.next_uref = none) (hst : u.start = true)
    (hb : u.block = pointer_field :: rest) (hlen : 1 + pointer_field < u.block.length) :
    upipe_ts_psim_input env s u
      = match upipe_ts_psim_input_sections env { s with acquired := true }
            { u with start := false, block := u.block.drop (1 + pointer_field) } with
        | .error e => .error e
        | .ok r => .ok (r.1, Action.throw Event.sync_acquired :: r.2) := by
  have hflush : upipe_ts_psim_flush s = (s, []) := by
    simp [upipe_ts_psim_flush, hn, upipe_ts_psim_sync_lost, hs]
  rw [psim_input_of_no_flush env s u (Or.inl hflush)]
  exact psim_input_start_desync env s u pointer_field rest hs hst hb (Nat.le_of_lt hlen)

/-- C9 on a record with pointer_field 2 followed by a four-octet section and stuffing. -/
theorem C9_witness :
    upipe_ts_psim_input example_env upipe_ts_psim_alloc
        (mk_uref false true [2, 9, 9, 0x42, 0, 1, 7, 0xff])
      = .ok ({ upipe_ts_psim_alloc with acquired := true },
          [Action.throw Event.sync_acquired,
           Action.output (mk_uref false false [0x42, 0, 1, 7]),
           Action.free (mk_uref false false [0x42, 0, 1, 7]),
           Action.free (mk_uref false false [0xff])]) :=
  (C9_desync_skips_pointer_field example_env upipe_ts_psim_alloc
    (mk_uref false true [2, 9, 9, 0x42, 0, 1, 7, 0xff]) 2 [9, 9, 0x42, 0, 1, 7, 0xff]
    rfl rfl rfl rfl (by decide)).trans (by decide)

/-- C10 as stated fails: at rate 1/1, three records with pts 1000, 2000 and 1500
fed in that order to the same subpipe are emitted in that order with pts-sys
2710000, 2711000 and 2710500: the third is below the second. -/
theorem C10_counterexample :
    (match upipe_trickp_run example_env C10_pipe
        [(0, { mk_uref false false [] with pts := some 1000 }),
         (0, { mk_uref false false [] with pts := some 2000 }),
         (0, { mk_uref false false [] with pts := some 1500 })] with
      | .ok r => received_pts_sys 1 r.2
      | .error _ => [])
      = [some 2710000, some 2711000, some 2710500] ∧ ¬ (2711000 ≤ 2710500) := by
  decide

/-- C10, amended. For a pipe with a non-zero rate (`rate.num ≠ 0`, an `int64_t`,
of either sign, and `rate.den ≠ 0`) whose `ts_origin`, `systime_offset` and rate
do not change between the two calls, if `upipe_trickp_sub_process` handles `r1`
and then `r2`, the pts of `r1` is not above the pts of `r2`, and the conversion
of the pts of `r2` does not overflow 64 bits, then the pts-sys written on `r2`
is greater than or equal to the pts-sys written on `r1`; likewise for dts and
dts-sys. -/
theorem C10_sys_monotone_in_prog (env : Env) (t : upipe_trickp)
    (sub1 sub2 : upipe_trickp_sub) (r1 r2 : Uref)
    (hnum : t.rate.num ≠ 0) (hlo : -(2 ^ 63) ≤ t.rate.num) (hhi : t.rate.num < 2 ^ 64)
    (hden : t.rate.den ≠ 0)
    (hov : ∀ ts, (r2.pts = some ts ∨ r2.dts = some ts) →
      (max ts t.ts_origin - t.ts_origin) * t.rate.den < 2 ^ 64 ∧
      (max ts t.ts_origin - t.ts_origin) * t.rate.den / u64_of_int t.rate.num
        + t.systime_offset < 2 ^ 64) :
    ∃ u1 u2 h1 a1 h2 a2,
      upipe_trickp_sub_process env t sub1 r1
        = .ok ({ sub1 with toOutputHelper := h1 }, Action.output u1 :: a1, true)
      ∧ upipe_trickp_sub_process env t sub2 r2
        = .ok ({ sub2 with toOutputHelper := h2 }, Action.output u2 :: a2, true)
      ∧ (∀ p1 p2, r1.pts = some p1 → r2.pts = some p2 → p1 ≤ p2 →
          ∃ v1 v2, u1.pts_sys = some v1 ∧ u2.pts_sys = some v2 ∧ v1 ≤ v2)
      ∧ (∀ d1 d2, r1.dts = some d1 → r2.dts = some d2 → d1 ≤ d2 →
          ∃ v1 v2, u1.dts_sys = some v1 ∧ u2.dts_sys = some v2 ∧ v1 ≤ v2) := by
  obtain ⟨h1, a1, hp1, _, _⟩ := sub_process_stamps env t sub1 r1 hnum hden hlo hhi
  obtain ⟨h2, a2, hp2, _, _⟩ := sub_process_stamps env t sub2 r2 hnum hden hlo hhi
  refine ⟨_, _, h1, a1, h2, a2, hp1, hp2, ?_, ?_⟩
  · intro p1 p2 e1 e2 hle
    obtain ⟨hm, hs⟩ := hov p2 (Or.inl e2)
    exact ⟨systime_spec t p1, systime_spec t p2, by simp [stamped_spec, e1],
      by simp [stamped_spec, e2], systime_spec_mono t p1 p2 hle hm hs⟩
  · intro d1 d2 e1 e2 hle
    obtain ⟨hm, hs⟩ := hov d2 (Or.inr e2)
    exact ⟨systime_spec t d1, systime_spec t d2, by simp [stamped_spec, e1],
      by simp [stamped_spec, e2], systime_spec_mono t d1 d2 hle hm hs⟩

/-- C10, amended, on records with pts 2000 and 3000 at rate 1/2. -/
theorem C10_witness :
    ∃ u1 u2 h1 a1 h2 a2,
      upipe_trickp_sub_process example_env C3_pipe C3_sub
          { C3_uref with pts := some 2000, dts := none }
        = .ok ({ C3_sub with toOutputHelper := h1 }, Action.output u1 :: a1, true)
      ∧ upipe_trickp_sub_process example_env C3_pipe C3_sub C3_uref
        = .ok ({ C3_sub with toOutputHelper := h2 }, Action.output u2 :: a2, true)
      ∧ (∀ p1 p2, some 2000 = some p1 → C3_uref.pts = some p2 → p1 ≤ p2 →
          ∃ v1 v2, u1.pts_sys = some v1 ∧ u2.pts_sys = some v2 ∧ v1 ≤ v2)
      ∧ (∀ d1 d2, none = some d1 → C3_uref.dts = some d2 → d1 ≤ d2 →
          ∃ v1 v2, u1.dts_sys = some v1 ∧ u2.dts_sys = some v2 ∧ v1 ≤ v2) :=
  C10_sys_monotone_in_prog example_env C3_pipe C3_sub C3_sub
    { C3_uref with pts := some 2000, dts := none } C3_uref
    (by decide) (by decide) (by decide) (by decide)
    (by
      intro ts h
      rcases h with h | h
      · have : ts = 3000 := by simpa [C3_uref] using h.symm
        subst this; decide
      · have : ts = 500 := by simpa [C3_uref] using h.symm
        subst this; decide)

/-- C11 fails on the code: on a freshly allocated pipe (no subpipe, no clock
attached) the set-rate control with any rate `r` does not return.
`_upipe_trickp_set_rate` stores the rate, resets the anchors and calls
`upipe_trickp_check_start`, which finds no subpipe waiting for a dated record
and goes on to `uclock_now(upipe_trickp->uclock)` (line 360) with a null clock,
so get-rate never gets to return `r`. The same happens on every pipe without
clock in which no subpipe other than a subpicture lacks a dated record.
`upipe_trickp_sub_input` has the guard set-rate lacks (lines 209-215): on a
pipe without clock it throws need-uclock and, no clock being provided, drops
the record. Everywhere else the claim holds: when some subpipe that is not a
subpicture holds no dated record the call returns, get-rate gives `r` and
`systime_offset` and `ts_origin` are both 0; with a clock attached and a rate
that fits `int64_t` the call returns and get-rate gives `r`. -/
theorem C11_set_rate_without_clock_faults :
    (∀ (env : Env) (r : urational),
        _upipe_trickp_set_rate env upipe_trickp_alloc r = .error Fault.null_deref)
    ∧ (∀ (env : Env) (r : urational),
        upipe_trickp_control env upipe_trickp_alloc
            (upipe_trickp_command.UPIPE_TRICKP_SET_RATE UPIPE_TRICKP_SIGNATURE r)
          = .error Fault.null_deref)
    ∧ (∀ (env : Env) (t : upipe_trickp) (r : urational),
        t.uclock = none → ¬ not_ready t.subs →
          _upipe_trickp_set_rate env t r = .error Fault.null_deref)
    ∧ upipe_trickp_sub_input example_env { upipe_trickp_alloc with subs := [C3_sub] } 0
          C3_uref none
        = .ok ({ upipe_trickp_alloc with subs := [C3_sub] },
            [Action.throw Event.need_uclock, Action.free C3_uref])
    ∧ (∀ (env : Env) (t : upipe_trickp) (r : urational),
        not_ready t.subs →
          ∃ t2 acts, _upipe_trickp_set_rate env t r = .ok (t2, acts, false)
            ∧ _upipe_trickp_get_rate t2 = (r, true)
            ∧ t2.systime_offset = 0 ∧ t2.ts_origin = 0)
    ∧ (∀ (env : Env) (t : upipe_trickp) (r : urational) (clock : Nat),
        t.uclock = some clock → -(2 ^ 63) ≤ r.num → r.num < 2 ^ 64 →
          ∃ t2 acts, _upipe_trickp_set_rate env t r = .ok (t2, acts, false)
            ∧ _upipe_trickp_get_rate t2 = (r, true)) := by
  have hfresh : ¬ not_ready upipe_trickp_alloc.subs := by
    intro h
    obtain ⟨sub, hs, _⟩ := h
    cases hs
  refine ⟨?_, ?_, ?_, by decide, ?_, ?_⟩
  · intro env r
    exact set_rate_unclocked_ready env upipe_trickp_alloc r rfl hfresh
  · intro env r
    simp only [upipe_trickp_control, if_true,
      set_rate_unclocked_ready env upipe_trickp_alloc r rfl hfresh]
  · intro env t r hclock hready
    exact set_rate_unclocked_ready env t r hclock hready
  · intro env t r hnr
    exact set_rate_not_ready env t r hnr
  · intro env t r clock hclock hlo hhi
    exact set_rate_clocked env t r clock hclock hlo hhi

/-- C12. While the rate is paused (`rate.num = 0` or `rate.den = 0`), a record fed
to a subpipe of a trick-play pipe that has a clock attached is appended to the
held queue of that subpipe and the producing pump, if any, is among its
blockers afterwards; the call returns, so the conversion (which divides by
`rate.num`) has not been evaluated, nothing is handed to an output or delivered,
and the only possible effect is the blocking of the pump. -/
theorem C12_paused_holds_and_blocks (env : Env) (t : upipe_trickp) (i : Nat)
    (sub : upipe_trickp_sub) (uref : Uref) (upump : Option Nat) (clock : Nat)
    (hsub : t.subs.get? i = some sub) (hclock : t.uclock = some clock)
    (hpause : t.rate.num = 0 ∨ t.rate.den = 0) :
    ∃ sub2 acts,
      upipe_trickp_sub_input env t i uref upump
        = .ok ({ t with subs := t.subs.set i sub2 }, acts)
      ∧ sub2.urefs = sub.urefs ++ [uref]
      ∧ (∀ p, upump = some p → p ∈ sub2.blockers)
      ∧ sub2.toOutputHelper = sub.toOutputHelper ∧ sub2.type = sub.type
      ∧ emitted acts = [] ∧ delivered acts = []
      ∧ (∀ a ∈ acts, ∃ p, upump = some p ∧ a = Action.block p) := by
  refine ⟨(upipe_trickp_sub_block_sink (upipe_trickp_sub_hold_sink sub uref) upump).1,
    (upipe_trickp_sub_block_sink (upipe_trickp_sub_hold_sink sub uref) upump).2, ?_, ?_⟩
  · simp only [upipe_trickp_sub_input, hsub, hclock, upipe_trickp_sub_input_clocked, hpause,
      if_true, upipe_trickp_set_sub]
  · unfold upipe_trickp_sub_block_sink upipe_trickp_sub_hold_sink
    cases upump with
    | none => simp [emitted, delivered]
    | some p =>
      by_cases hp : p ∈ sub.blockers
      · simp [hp, emitted, delivered]
      · simp [hp, emitted, delivered]

/-- C12 on a paused pipe (rate 0/1) with one picture subpipe, fed a record by
pump 7. -/
theorem C12_witness :
    upipe_trickp_sub_input example_env
        { C3_pipe with rate := { num := 0, den := 1 }, subs := [C3_sub] } 0 C3_uref (some 7)
      = .ok ({ C3_pipe with
                 rate := { num := 0, den := 1 },
                 subs := [{ C3_sub with urefs := [C3_uref], blockers := [7] }] },
          [Action.block 7]) := by
  obtain ⟨sub2, acts, h, _⟩ :=
    C12_paused_holds_and_blocks example_env
      { C3_pipe with rate := { num := 0, den := 1 }, subs := [C3_sub] } 0 C3_sub C3_uref
      (some 7) 0 rfl rfl (Or.inl rfl)
  decide

/-- C13. If, when `upipe_trickp_check_start` runs, some subpipe that is not a
subpicture holds no dated record, the call returns with `ts_origin`,
`systime_offset`, the rate and the clock unchanged; every subpipe is left as it
was or has only lost the leading undated records of its held queue; and every
effect is the release of an undated record: nothing is emitted, no pump is
unblocked. Exactly: the list of subpipes splits as `pre ++ sub :: post`, where
`sub` is the first subpipe that is not a subpicture and holds no dated record;
among `pre ++ [sub]` the subpicture subpipes are unchanged and every other has
lost the leading undated records of its held queue (`scanned_spec`); the
subpipes of `post`, which the loop never reaches, are unchanged whatever their
type and held queue; and the effects are exactly the releases of the records
dropped, in order (`dropped_spec`). -/
theorem C13_not_ready_changes_nothing_else (env : Env) (t : upipe_trickp)
    (h : not_ready t.subs) :
    ∃ subs2 acts, upipe_trickp_check_start env t = .ok ({ t with subs := subs2 }, acts)
      ∧ List.Forall₂
          (fun sub sub2 => sub2 = sub ∨ sub2 = { sub with urefs := drop_undated sub.urefs })
          t.subs subs2
      ∧ (∀ a ∈ acts, ∃ u, a = Action.free u ∧ upipe_trickp_uref_ts u = none)
      ∧ emitted acts = [] ∧ delivered acts = []
      ∧ ∃ pre sub post, t.subs = pre ++ sub :: post
          ∧ sub.type ≠ upipe_trickp_sub_type.UPIPE_TRICKP_SUBPIC
          ∧ (∀ u ∈ sub.urefs, upipe_trickp_uref_ts u = none)
          ∧ (∀ x ∈ pre, x.type ≠ upipe_trickp_sub_type.UPIPE_TRICKP_SUBPIC →
              ∃ u ∈ x.urefs, upipe_trickp_uref_ts u ≠ none)
          ∧ subs2 = (pre ++ [sub]).map scanned_spec ++ post
          ∧ acts = dropped_spec (pre ++ [sub]) := by
  have hscan := scan_not_ready t.subs UINT64_MAX h
  have heff := scan_effect t.subs UINT64_MAX
  have hstop := scan_stops t.subs UINT64_MAX h
  have hquiet : ∀ acts : List Action,
      (∀ a ∈ acts, ∃ u, a = Action.free u ∧ upipe_trickp_uref_ts u = none) →
      emitted acts = [] ∧ delivered acts = [] := by
    intro acts
    induction acts with
    | nil => intro _; exact ⟨rfl, rfl⟩
    | cons a as ih =>
      intro hall
      obtain ⟨u, hu, _⟩ := hall a (List.mem_cons_self _ _)
      subst hu
      exact ih (fun x hx => hall x (List.mem_cons_of_mem _ hx))
  refine ⟨(upipe_trickp_scan t.subs UINT64_MAX).1, (upipe_trickp_scan t.subs UINT64_MAX).2.1,
    ?_, heff.1, heff.2, (hquiet _ heff.2).1, (hquiet _ heff.2).2, hstop⟩
  simp only [upipe_trickp_check_start, hscan]

/-- C13 on a pipe with four subpipes: a subpicture subpipe holding an undated
record, a picture subpipe holding an undated record before a dated one, a sound
subpipe holding one undated record, and a picture subpipe holding an undated
record. The scan stops at the sound subpipe: the first and the last queue are
as they were. -/
theorem C13_witness :
    upipe_trickp_check_start example_env
        { C3_pipe with subs := [
            { C3_sub with type := upipe_trickp_sub_type.UPIPE_TRICKP_SUBPIC,
                          urefs := [mk_uref false false [3]] },
            { C3_sub with urefs := [mk_uref false false [], C3_uref] },
            { C3_sub with type := upipe_trickp_sub_type.UPIPE_TRICKP_SOUND,
                          urefs := [mk_uref false false [1]] },
            { C3_sub with urefs := [mk_uref false false [2]] }] }
      = .ok ({ C3_pipe with subs := [
            { C3_sub with type := upipe_trickp_sub_type.UPIPE_TRICKP_SUBPIC,
                          urefs := [mk_uref false false [3]] },
            { C3_sub with urefs := [C3_uref] },
            { C3_sub with type := upipe_trickp_sub_type.UPIPE_TRICKP_SOUND, urefs := [] },
            { C3_sub with urefs := [mk_uref false false [2]] }] },
          [Action.free (mk_uref false false []), Action.free (mk_uref false false [1])]) := by
  obtain ⟨subs2, acts, h, _⟩ :=
    C13_not_ready_changes_nothing_else example_env
      { C3_pipe with subs := [
          { C3_sub with type := upipe_trickp_sub_type.UPIPE_TRICKP_SUBPIC,
                        urefs := [mk_uref false false [3]] },
          { C3_sub with urefs := [mk_uref false false [], C3_uref] },
          { C3_sub with type := upipe_trickp_sub_type.UPIPE_TRICKP_SOUND,
                        urefs := [mk_uref false false [1]] },
          { C3_sub with urefs := [mk_uref false false [2]] }] }
      ⟨{ C3_sub with type := upipe_trickp_sub_type.UPIPE_TRICKP_SOUND,
                     urefs := [mk_uref false false [1]] },
        by decide, by decide, by decide⟩
  decide

/-- C14. `upipe_trickp_sub_alloc` adds a subpipe whose type is decided by the
beginning of the definition string of its flow definition: subpicture when the
string begins with "pic.sub." or is absent, picture when it begins with "pic."
but not with "pic.sub.", sound in every other case; in particular a definition
beginning with "sound." gives a sound subpipe. -/
theorem C14_sub_alloc_classifies (env : Env) (t : upipe_trickp) (flow_def : FlowDef) :
    (env.alloc = true →
      ∃ sub, (upipe_trickp_sub_alloc env t flow_def).1.subs = t.subs ++ [sub]
        ∧ sub.type = upipe_trickp_sub_alloc_type flow_def
        ∧ sub.flow_def = some flow_def ∧ sub.output = none ∧ sub.urefs = [])
    ∧ (flow_def.def_str = none →
        upipe_trickp_sub_alloc_type flow_def = upipe_trickp_sub_type.UPIPE_TRICKP_SUBPIC)
    ∧ (∀ d, flow_def.def_str = some d →
        (begins_with d "pic.sub." →
          upipe_trickp_sub_alloc_type flow_def = upipe_trickp_sub_type.UPIPE_TRICKP_SUBPIC)
        ∧ (begins_with d "pic." → ¬ begins_with d "pic.sub." →
          upipe_trickp_sub_alloc_type flow_def = upipe_trickp_sub_type.UPIPE_TRICKP_PIC)
        ∧ (¬ begins_with d "pic." →
          upipe_trickp_sub_alloc_type flow_def = upipe_trickp_sub_type.UPIPE_TRICKP_SOUND)
        ∧ (begins_with d "sound." →
          upipe_trickp_sub_alloc_type flow_def = upipe_trickp_sub_type.UPIPE_TRICKP_SOUND)) := by
  have hsub_pic : ∀ d, begins_with d "pic.sub." → begins_with d "pic." := by
    rintro d ⟨rest, h⟩
    exact ⟨"sub.".toList ++ rest, by rw [h]; rfl⟩
  have hsound : ∀ d, begins_with d "sound." → ¬ begins_with d "pic." := by
    rintro d ⟨rest, h⟩ ⟨rest2, h2⟩
    rw [h] at h2
    cases h2
  have hnotpic : ∀ d, flow_def.def_str = some d → ¬ begins_with d "pic." →
      upipe_trickp_sub_alloc_type flow_def = upipe_trickp_sub_type.UPIPE_TRICKP_SOUND := by
    intro d hd hn
    have h1 : ubase_ncmp d "pic." = true := by
      cases h : ubase_ncmp d "pic."
      · exact absurd ((ubase_ncmp_eq_false_iff d "pic.").mp h) hn
      · rfl
    have h2 : ubase_ncmp d "pic.sub." = true := by
      cases h : ubase_ncmp d "pic.sub."
      · exact absurd (hsub_pic d ((ubase_ncmp_eq_false_iff d "pic.sub.").mp h)) hn
      · rfl
    simp [upipe_trickp_sub_alloc_type, hd, h1, h2]
  refine ⟨?_, ?_, ?_⟩
  · intro ha
    refine ⟨{ toOutputHelper := (helper_store_flow_def helper_init_output (some flow_def)).1,
              type := upipe_trickp_sub_alloc_type flow_def, urefs := [], blockers := [] },
      ?_, rfl, rfl, rfl, rfl⟩
    simp [upipe_trickp_sub_alloc, ha]
  · intro h
    simp [upipe_trickp_sub_alloc_type, h]
  · intro d hd
    refine ⟨?_, ?_, hnotpic d hd, fun h => hnotpic d hd (hsound d h)⟩
    · intro h
      have h2 := (ubase_ncmp_eq_false_iff d "pic.sub.").mpr h
      simp [upipe_trickp_sub_alloc_type, hd, h2]
    · intro hp hns
      have h1 := (ubase_ncmp_eq_false_iff d "pic.").mpr hp
      have h2 : ubase_ncmp d "pic.sub." = true := by
        cases h : ubase_ncmp d "pic.sub."
        · exact absurd ((ubase_ncmp_eq_false_iff d "pic.sub.").mp h) hns
        · rfl
      simp [upipe_trickp_sub_alloc_type, hd, h1, h2]

/-- C14 on a flow definition whose definition string begins with "sound.". -/
theorem C14_witness :
    upipe_trickp_sub_alloc_type ⟨some "sound.s16.", 0⟩
      = upipe_trickp_sub_type.UPIPE_TRICKP_SOUND :=
  ((C14_sub_alloc_classifies example_env C3_pipe ⟨some "sound.s16.", 0⟩).2.2
    "sound.s16." rfl).2.2.2 ⟨"s16.".toList, rfl⟩

/-- C15. When the output helper is asked to emit a record while no output is
wired and a flow definition is stored, it throws need-output with that
flow definition once; if no output is wired in answer, the record is freed, nothing
is forwarded downstream, and the helper (its flow-definition-sent flag
included) is left unchanged. -/
theorem C15_unwired_output_throws_then_frees (env : Env) (h : OutputHelper) (uref : Uref)
    (f : FlowDef) (ho : h.output = none) (hf : h.flow_def = some f) :
    ∃ h2 acts, helper_output env h uref = .ok (h2, acts)
      ∧ (thrown acts).count (Event.need_output f) = 1
      ∧ (h2.output = none →
          h2 = h ∧ acts = [Action.output uref, Action.throw (Event.need_output f),
                           Action.free uref]
          ∧ delivered acts = [] ∧ h2.flow_def_sent = h.flow_def_sent) := by
  rcases h with ⟨o, fd, sent⟩
  simp only at ho hf
  subst ho hf
  cases hn : env.need_output f with
  | none =>
    refine ⟨⟨none, some f, sent⟩,
      [Action.output uref, Action.throw (Event.need_output f), Action.free uref], ?_, ?_, ?_⟩
    · simp [helper_output, helper_throw_need_output, hn]
    · simp [thrown]
    · intro _
      simp [delivered]
  | some o =>
    cases sent <;> cases ha : env.alloc <;>
      simp only [helper_output, helper_throw_need_output, helper_set_output, helper_flow_def, hn,
        ha] <;>
      refine ⟨_, _, rfl, ?_, ?_⟩ <;> simp [thrown]

/-- C15 on a helper holding a flow definition, with probes that wire nothing. -/
theorem C15_witness :
    helper_output example_env { helper_init_output with flow_def := some C5_flow_def }
        (mk_uref false false [1])
      = .ok ({ helper_init_output with flow_def := some C5_flow_def },
          [Action.output (mk_uref false false [1]),
           Action.throw (Event.need_output C5_flow_def),
           Action.free (mk_uref false false [1])]) := by
  obtain ⟨h2, acts, h, _⟩ :=
    C15_unwired_output_throws_then_frees example_env
      { helper_init_output with flow_def := some C5_flow_def } (mk_uref false false [1])
      C5_flow_def rfl rfl
  decide

/-- C16. On a state of the merge stage whose accumulator, if any, is an
incomplete section (the state after allocation is one, and every call leaves
one), every call of `upipe_ts_psim_input` returns, and on every path the
ownership events of the call, read off the code, are accepted by the ledger:
the input record is received once and freed once by the stage
(`input_free` counts 1), an accumulator is created only when none is held,
every accumulator held before or created during the call is freed by a flush,
handed to the output helper, or still held after the call, each exactly once,
and every record handed to the output helper is forwarded to the output or
freed by the helper, exactly once and never both. Over a whole life (any
sequence of calls followed by `upipe_ts_psim_free`) nothing is left: as many
input records are freed as were received, and the accumulators held at the
start or created are all forwarded or freed, the last one by the teardown.
The labelled functions are the functions of the stage: with the labels erased
they give the same state and the same effects. -/
theorem C16_records_released_exactly_once (env : Env) (s : upipe_ts_psim)
    (hinv : acc_incomplete s) :
    (∀ uref : Uref, ∃ s1 evs,
        upipe_ts_psim_input_own env s uref = .ok (s1, evs) ∧
        upipe_ts_psim_input env s uref = .ok (s1, own_erase evs) ∧
        ledger ⟨false, s.next_uref.isSome, none⟩ evs
          = some ⟨false, s1.next_uref.isSome, none⟩ ∧
        own_count OwnKind.received evs = 1 ∧
        own_count OwnKind.input_free evs = 1 ∧
        (if s.next_uref.isSome then 1 else 0) + own_count OwnKind.acc_new evs
          = own_count OwnKind.acc_free evs + own_count OwnKind.handed evs
            + (if s1.next_uref.isSome then 1 else 0) ∧
        own_count OwnKind.handed evs
          = own_count OwnKind.forwarded evs + own_count OwnKind.out_free evs ∧
        acc_incomplete s1) ∧
    (∀ urefs : List Uref, ∃ s1 acts evs,
        upipe_ts_psim_life_own env s urefs = .ok evs ∧
        upipe_ts_psim_run env s urefs = .ok (s1, acts) ∧
        own_erase evs = acts ++ upipe_ts_psim_free s1 ∧
        ledger ⟨false, s.next_uref.isSome, none⟩ evs = some ⟨false, false, none⟩ ∧
        own_count OwnKind.received evs = urefs.length ∧
        own_count OwnKind.input_free evs = urefs.length ∧
        (if s.next_uref.isSome then 1 else 0) + own_count OwnKind.acc_new evs
          = own_count OwnKind.acc_free evs + own_count OwnKind.forwarded evs
            + own_count OwnKind.out_free evs) := by
  constructor
  · intro uref
    obtain ⟨s1, evs, e1, e2, e3, e4⟩ := psim_input_own_spec env s uref hinv
    have ec := psim_input_own_received env s uref _ e1
    obtain ⟨b1, b2, b3⟩ := ledger_balance evs _ _ e3
    simp only at ec b1 b2 b3
    refine ⟨s1, evs, e1, e2, e3, ec, ?_, b2, ?_, e4⟩
    · simp only [ec, Bool.false_eq_true, if_false] at b1
      omega
    · simp only [Option.isSome_none, Bool.false_eq_true, if_false] at b3
      omega
  · intro urefs
    obtain ⟨s1, evs, e1, e2, e3, ec, e4⟩ := psim_run_own_spec env urefs s hinv
    obtain ⟨f1, f2, f3⟩ := psim_free_own_spec s1
    have hl : ledger ⟨false, s.next_uref.isSome, none⟩ (evs ++ upipe_ts_psim_free_own s1)
        = some ⟨false, false, none⟩ := by
      simp only [ledger_append, e3, Option.bind]
      exact f2
    obtain ⟨b1, b2, b3⟩ := ledger_balance _ _ _ hl
    have hc : own_count OwnKind.received (evs ++ upipe_ts_psim_free_own s1) = urefs.length := by
      rw [own_count_append, ec, f3]
      rfl
    simp only [Option.isSome_none, Bool.false_eq_true, if_false] at b1 b2 b3
    refine ⟨s1, own_erase evs, evs ++ upipe_ts_psim_free_own s1, ?_, e2, ?_, hl, hc, ?_, ?_⟩
    · simp only [upipe_ts_psim_life_own, e1]
    · rw [own_erase_append, f1]
    · omega
    · omega

/-- C16 on the stage of scenario S1 fed its three records and then freed. -/
theorem C16_witness :
    ∃ s1 acts evs,
      upipe_ts_psim_life_own example_env S1_stage S1_urefs = .ok evs ∧
      upipe_ts_psim_run example_env S1_stage S1_urefs = .ok (s1, acts) ∧
      own_erase evs = acts ++ upipe_ts_psim_free s1 ∧
      ledger ⟨false, false, none⟩ evs = some ⟨false, false, none⟩ ∧
      own_count OwnKind.received evs = 3 ∧
      own_count OwnKind.input_free evs = 3 ∧
      0 + own_count OwnKind.acc_new evs
        = own_count OwnKind.acc_free evs + own_count OwnKind.forwarded evs
          + own_count OwnKind.out_free evs :=
  (C16_records_released_exactly_once example_env S1_stage
    (fun _ h => Option.noConfusion h)).2 S1_urefs

/-- C17 as stated fails: on the three records of S1 the stage delivers nothing
to its output, so not one record of payload
02 00 00 0C AA BB CC DD EE FF 11 22 33 44 55. -/
theorem C17_counterexample :
    (match upipe_ts_psim_run example_env S1_stage S1_urefs with
      | .ok r => delivered r.2
      | .error _ => [])
      ≠ [[0x02, 0x00, 0x00, 0x0C, 0xAA, 0xBB, 0xCC, 0xDD, 0xEE, 0xFF, 0x11, 0x22, 0x33,
          0x44, 0x55]] := by
  decide

/-- C17, amended. Scenario S1: feeding a freshly allocated merge stage
(flow definition set, output wired) three records, each flagged unit-start, with
payloads [02 00 00 0C AA BB CC], [DD EE FF 11 22 33] and [44 55], emits no
record: the first byte of a unit-start record is its pointer_field, so the
stage (in desync) skips 1 + 2 bytes of the first record, throws sync-acquired,
drops the first byte of the second and of the third record, and ends holding
the 10 bytes 0C AA BB CC EE FF 11 22 33 55, whose header announces a section
of 0xABB + 3 bytes. With a pointer_field of 00 in front of each fragment and a
section header 02 00 0C (length 12), the records [00 02 00 0C AA BB CC],
[00 DD EE FF 11 22 33] and [00 44 55 66] emit exactly one record, of length
15, whose payload is 02 00 0C AA BB CC DD EE FF 11 22 33 44 55 66. -/
theorem C17_S1_three_fragments :
    psim_outcome S1_stage S1_urefs
      = some ⟨[], [Event.sync_acquired],
          some [0x0C, 0xAA, 0xBB, 0xCC, 0xEE, 0xFF, 0x11, 0x22, 0x33, 0x55], true⟩
    ∧ psi_get_length [0x0C, 0xAA, 0xBB] = 0xABB
    ∧ psim_outcome S1_stage
        [mk_uref false true [0x00, 0x02, 0x00, 0x0C, 0xAA, 0xBB, 0xCC],
         mk_uref false true [0x00, 0xDD, 0xEE, 0xFF, 0x11, 0x22, 0x33],
         mk_uref false true [0x00, 0x44, 0x55, 0x66]]
      = some ⟨[[0x02, 0x00, 0x0C, 0xAA, 0xBB, 0xCC, 0xDD, 0xEE, 0xFF, 0x11, 0x22, 0x33,
            0x44, 0x55, 0x66]], [Event.sync_acquired], none, true⟩ := by
  decide

/-- C18 as stated fails: after S4 (clock reading 10000) the stage has
`systime_offset` 2710000, not 12700000, and the picture and sound records are
emitted with pts-sys 2710000 and 2710500, not 12700000 and 12700500. -/
theorem C18_counterexample :
    S4_outcome S4_ops
      ≠ some ⟨1000, 12700000, [⟨some 1000, some 12700000, some ⟨1, 1⟩⟩],
          [⟨some 1500, some 12700500, some ⟨1, 1⟩⟩]⟩ := by
  decide

/-- C18, amended. Scenario S4: for a trick-play stage at rate 1/1 with one
picture subpipe and one sound subpipe, after feeding the picture subpipe a
record with pts=1000 and the sound subpipe a record with pts=1500 while the
clock reads 10000, the stage has ts_origin=1000 and
systime_offset = 10000 + 2700000 = 2710000 (`UPIPE_TRICKP_PTS_DELAY` is
`UCLOCK_FREQ / 10`), the picture record is emitted with sys=2710000 and the
sound record with sys=2710500, both with rate attribute 1/1, and nothing is
left in the queues. -/
theorem C18_S4_start_alignment :
    S4_outcome S4_ops
      = some ⟨1000, example_env.now + UPIPE_TRICKP_PTS_DELAY,
          [⟨some 1000, some 2710000, some ⟨1, 1⟩⟩],
          [⟨some 1500, some 2710500, some ⟨1, 1⟩⟩]⟩
    ∧ example_env.now = 10000 ∧ UPIPE_TRICKP_PTS_DELAY = 2700000
    ∧ S4_held S4_ops = some [[], []] := by
  decide

/-- C19 as stated fails: continuing S4, after set-rate 1/2 and one picture
record with pts=2000 the stage has not re-anchored (`ts_origin` and
`systime_offset` are both 0) and the record is not emitted: the sound queue is
empty, so `upipe_trickp_check_start` returns before anchoring and the picture
record stays in the picture queue. -/
theorem C19_counterexample :
    S4_outcome (S4_ops ++ S5_ops)
      = some ⟨0, 0, [⟨some 1000, some 2710000, some ⟨1, 1⟩⟩],
          [⟨some 1500, some 2710500, some ⟨1, 1⟩⟩]⟩
    ∧ S4_held (S4_ops ++ S5_ops) = some [[some 2000], []] := by
  decide

/-- C19, amended. Scenario S5: continuing S4, after set-rate 1/2 and one
picture record with pts=2000 the record is held and nothing is anchored until
the sound subpipe also has a dated record; once a sound record with pts=2500
arrives the stage re-anchors with ts_origin=2000 and
systime_offset = now + `UPIPE_TRICKP_PTS_DELAY` and emits the picture record
with sys = systime_offset and rate attribute 1/2 (and the sound record with
sys = systime_offset + 1000); a subsequent picture record with pts=3000 is
emitted with sys = systime_offset + 2000 and rate attribute 1/2. -/
theorem C19_S5_half_rate :
    S4_outcome (S4_ops ++ S5_ops ++ [TrickpOp.sub_input 1 (uref_with_pts 2500)])
      = some ⟨2000, example_env.now + UPIPE_TRICKP_PTS_DELAY,
          [⟨some 1000, some 2710000, some ⟨1, 1⟩⟩,
           ⟨some 2000, some (example_env.now + UPIPE_TRICKP_PTS_DELAY), some ⟨1, 2⟩⟩],
          [⟨some 1500, some 2710500, some ⟨1, 1⟩⟩,
           ⟨some 2500, some (example_env.now + UPIPE_TRICKP_PTS_DELAY + 1000), some ⟨1, 2⟩⟩]⟩
    ∧ S4_outcome (S4_ops ++ S5_ops ++ [TrickpOp.sub_input 1 (uref_with_pts 2500),
          TrickpOp.sub_input 0 (uref_with_pts 3000)])
      = some ⟨2000, example_env.now + UPIPE_TRICKP_PTS_DELAY,
          [⟨some 1000, some 2710000, some ⟨1, 1⟩⟩,
           ⟨some 2000, some (example_env.now + UPIPE_TRICKP_PTS_DELAY), some ⟨1, 2⟩⟩,
           ⟨some 3000, some (example_env.now + UPIPE_TRICKP_PTS_DELAY + 2000), some ⟨1, 2⟩⟩],
          [⟨some 1500, some 2710500, some ⟨1, 1⟩⟩,
           ⟨some 2500, some (example_env.now + UPIPE_TRICKP_PTS_DELAY + 1000), some ⟨1, 2⟩⟩]⟩ := by
  decide

/-- C20 fails on the code: the set-rate control on the S4 pipe with rate 1/2
replaces the rate (and resets the anchors) with no fault, yet the boolean it
returns is false; and no call of the set-rate control ever returns true. -/
theorem C20_set_rate_returns_false_on_success :
    (match upipe_trickp_control example_env S4_pipe
        (upipe_trickp_command.UPIPE_TRICKP_SET_RATE UPIPE_TRICKP_SIGNATURE ⟨1, 2⟩) with
      | .ok r => some (r.1.rate, r.1.ts_origin, r.1.systime_offset, r.2.2.ret)
      | .error _ => none)
      = some (⟨1, 2⟩, 0, 0, false)
    ∧ ∀ (env : Env) (t : upipe_trickp) (signature : Nat) (rate : urational),
        (match upipe_trickp_control env t
            (upipe_trickp_command.UPIPE_TRICKP_SET_RATE signature rate) with
          | .ok r => r.2.2.ret
          | .error _ => false) = false := by
  constructor
  · decide
  · intro env t signature rate
    simp only [upipe_trickp_control, _upipe_trickp_set_rate]
    split_ifs
    · cases upipe_trickp_check_start env
        (upipe_trickp_reset_uclock { t with rate := rate }) <;> rfl
    · rfl

/-- C21. With allocations succeeding, `upipe_ts_psim_set_flow_def` returns true
exactly when the flow definition is non-null and its definition string begins
with "block.mpegtspsi."; it then stores the flow definition as the output
flow definition (freeing the one stored before, if any, and clearing the
flow-definition-sent flag in that case). When the flow definition is null or
does not begin so, whatever the allocator does, it returns false, has no
effect at all (no event is thrown) and leaves the pipe, stored flow definition
and flow-definition-sent flag included, unchanged. -/
theorem C21_set_flow_def_accepts_psi_only (env : Env) (s : upipe_ts_psim)
    (flow_def : Option FlowDef) :
    (env.alloc = true →
      ((upipe_ts_psim_set_flow_def env s flow_def).2.2 = true ↔ psim_acceptable flow_def))
    ∧ (env.alloc = true → psim_acceptable flow_def →
        (upipe_ts_psim_set_flow_def env s flow_def).1.flow_def = flow_def
        ∧ (upipe_ts_psim_set_flow_def env s flow_def).1.output = s.output
        ∧ (upipe_ts_psim_set_flow_def env s flow_def).1.next_uref = s.next_uref
        ∧ (upipe_ts_psim_set_flow_def env s flow_def).1.acquired = s.acquired
        ∧ (upipe_ts_psim_set_flow_def env s flow_def).1.flow_def_sent
            = (if s.flow_def.isSome then false else s.flow_def_sent)
        ∧ (upipe_ts_psim_set_flow_def env s flow_def).2.1
            = (match s.flow_def with
                | some old => [Action.free_flow_def old]
                | none => []))
    ∧ (¬ psim_acceptable flow_def →
        upipe_ts_psim_set_flow_def env s flow_def = (s, [], false)) := by
  have hacc : ∀ f, psim_acceptable (some f) ↔ uref_flow_match_def f EXPECTED_FLOW_DEF = true := by
    intro f
    rw [uref_flow_match_def_iff]
    unfold psim_acceptable EXPECTED_FLOW_DEF
    constructor
    · rintro ⟨f1, d, h1, h2, h3⟩
      cases h1
      exact ⟨d, h2, h3⟩
    · rintro ⟨d, h2, h3⟩
      exact ⟨f, d, rfl, h2, h3⟩
  cases flow_def with
  | none =>
    have hno : ¬ psim_acceptable none := by
      rintro ⟨f, d, h, _⟩
      cases h
    refine ⟨fun _ => ?_, fun _ h => absurd h hno, fun _ => rfl⟩
    simp [upipe_ts_psim_set_flow_def, hno]
  | some f =>
    by_cases hm : uref_flow_match_def f EXPECTED_FLOW_DEF = true
    · have ha := (hacc f).2 hm
      refine ⟨fun halloc => ?_, fun halloc _ => ?_, fun h => absurd ha h⟩
      · simp [upipe_ts_psim_set_flow_def, hm, halloc, ha]
      · rcases s with ⟨⟨o, fd, sent⟩, n, a⟩
        cases fd <;>
          simp [upipe_ts_psim_set_flow_def, hm, halloc, helper_store_flow_def]
    · have ha : ¬ psim_acceptable (some f) := fun h => hm ((hacc f).1 h)
      have hr : upipe_ts_psim_set_flow_def env s (some f) = (s, [], false) := by
        simp [upipe_ts_psim_set_flow_def, hm]
      refine ⟨fun _ => ?_, fun _ h => absurd h ha, fun _ => hr⟩
      rw [hr]
      simp [ha]

/-- C21 on a freshly allocated pipe: "block.mpegtspsi.mpegtspat." is accepted
and stored. -/
theorem C21_witness :
    (upipe_ts_psim_set_flow_def example_env upipe_ts_psim_alloc
      (some ⟨some "block.mpegtspsi.mpegtspat.", 0⟩)).1.flow_def
      = some ⟨some "block.mpegtspsi.mpegtspat.", 0⟩ :=
  ((C21_set_flow_def_accepts_psi_only example_env upipe_ts_psim_alloc
    (some ⟨some "block.mpegtspsi.mpegtspat.", 0⟩)).2.1 rfl
    ⟨_, _, rfl, rfl, "mpegtspat.".toList, by decide⟩).1

/-- C22 as stated fails: on the S4 pipe a set-rate control and a get-rate
control whose signature argument is not `UPIPE_TRICKP_SIGNATURE` do not return
a failure to the caller: they stop at
`assert(signature == UPIPE_TRICKP_SIGNATURE)` and return nothing. -/
theorem C22_counterexample :
    (match upipe_trickp_control example_env S4_pipe
        (upipe_trickp_command.UPIPE_TRICKP_SET_RATE (UPIPE_TRICKP_SIGNATURE + 1) ⟨1, 2⟩) with
      | .ok r => some r.2.2.ret
      | .error _ => none) = none
    ∧ (match upipe_trickp_control example_env S4_pipe
        (upipe_trickp_command.UPIPE_TRICKP_GET_RATE (UPIPE_TRICKP_SIGNATURE + 1)) with
      | .ok r => some r.2.2.ret
      | .error _ => none) = none := by
  decide

/-- C22, amended. A trick-play get-rate or set-rate control whose signature
argument differs from the trick-play manager signature trips the assertion
`signature == UPIPE_TRICKP_SIGNATURE` before the rate, `ts_origin` or
`systime_offset` is read or written: the control does not return, so no
failure is reported to the caller. With the manager signature, get-rate
returns true with the current rate and changes nothing. -/
theorem C22_signature_mismatch_asserts (env : Env) (t : upipe_trickp) (signature : Nat)
    (rate : urational) :
    (signature ≠ UPIPE_TRICKP_SIGNATURE →
      upipe_trickp_control env t (upipe_trickp_command.UPIPE_TRICKP_SET_RATE signature rate)
        = .error Fault.assert
      ∧ upipe_trickp_control env t (upipe_trickp_command.UPIPE_TRICKP_GET_RATE signature)
        = .error Fault.assert)
    ∧ upipe_trickp_control env t
        (upipe_trickp_command.UPIPE_TRICKP_GET_RATE UPIPE_TRICKP_SIGNATURE)
        = .ok (t, [], { ret := true, uclock_p := none, rate_p := some t.rate }) := by
  constructor
  · intro h
    simp [upipe_trickp_control, h]
  · simp [upipe_trickp_control, _upipe_trickp_get_rate]

/-- C22, amended, on the S4 pipe with signature 0. -/
theorem C22_witness :
    upipe_trickp_control example_env S4_pipe
        (upipe_trickp_command.UPIPE_TRICKP_SET_RATE 0 ⟨1, 2⟩) = .error Fault.assert
    ∧ upipe_trickp_control example_env S4_pipe
        (upipe_trickp_command.UPIPE_TRICKP_GET_RATE 0) = .error Fault.assert :=
  (C22_signature_mismatch_asserts example_env S4_pipe 0 ⟨1, 2⟩).1 (by decide)

/-- C23 fails on the code: with the codec not open, no deal pending and
`avcodec_open2` failing (no pump manager), or the deal pump impossible to
allocate (pump manager present), `upipe_avcdec_input` does not return: the
`while` loop calls `upipe_avcdec_open` again and again, throwing fatal each
time, and whatever bound is put on its iterations it has not returned. When
`avcodec_open2` succeeds the same call returns after the second test of the
loop, the record decoded. -/
theorem C23_open_failure_is_retried_without_bound :
    (∀ (fuel : Nat) (uref : Uref) (upump : Option Nat),
      upipe_avcdec_input avcdec_failing_env fuel avcdec_unopened uref upump
        = .error Fault.fuel)
    ∧ (∀ (fuel : Nat) (uref : Uref) (upump : Option Nat),
      upipe_avcdec_input avcdec_failing_env fuel
          { avcdec_unopened with upump_mgr := some 3 } uref upump
        = .error Fault.fuel)
    ∧ upipe_avcdec_start_av_deal avcdec_failing_env avcdec_unopened
        = .ok (avcdec_unopened, [AvAction.avcodec_open2, AvAction.throw_fatal])
    ∧ (match upipe_avcdec_input avcdec_env 2 avcdec_unopened (mk_uref false false [1]) none with
        | .ok r => some r.2
        | .error _ => none)
      = some [AvAction.avcodec_open2, AvAction.decode_avpkt (mk_uref false false [1])] := by
  refine ⟨?_, ?_, by decide, by decide⟩
  · intro fuel uref upump
    exact avcdec_input_never_returns avcdec_failing_env uref upump ⟨rfl, rfl⟩ fuel _ _
      rfl rfl rfl
  · intro fuel uref upump
    exact avcdec_input_never_returns avcdec_failing_env uref upump ⟨rfl, rfl⟩ fuel _ _
      rfl rfl rfl

/-- C24 as stated fails: on a pipe with a codec-open deal pending and two
records held, the set-pump-manager control frees the pump of the deal and
returns true with the two records still held and the producing pump still
blocked: the held queue is not flushed. -/
theorem C24_counterexample :
    upipe_avcdec_control_set_upump_mgr avcdec_pending (some 9)
      = ({ avcdec_pending with upump_mgr := some 9, upump_av_deal := none },
          [AvAction.upump_free 5], true)
    ∧ (upipe_avcdec_control_set_upump_mgr avcdec_pending (some 9)).1.urefs
      = [mk_uref false false [1], mk_uref false false [2]]
    ∧ (upipe_avcdec_control_set_upump_mgr avcdec_pending (some 9)).1.urefs ≠ [] := by
  decide

/-- C24, amended. In the avcodec decoder stage, a record received while the
codec is not open and a codec-open deal is pending is appended to the held
queue (and its producing pump blocked). A set-pump-manager control frees the
pump of the pending deal and leaves the held queue and the blockers as they
are: nothing is flushed. When the pump of the deal obtains the exclusive
access (the pipe not being closed): if `avcodec_open2` succeeds the held
records are passed to the decoding in order and the queue is empty
afterwards; if it fails, fatal is thrown, the held records are freed (the
queue is flushed) and the queue is empty afterwards; in both cases the
blockers are released. -/
theorem C24_held_queue_on_deal (env : AvEnv) (s : upipe_avcdec) (context : AVCodecContext)
    (p : Nat) (hc : s.context = some context) (ho : context.is_open = false)
    (hd : s.upump_av_deal = some p) :
    (∀ (fuel : Nat) (uref : Uref) (upump : Option Nat),
      ∃ s1 acts, upipe_avcdec_input env (fuel + 1) s uref upump = .ok (s1, acts)
        ∧ s1.urefs = s.urefs ++ [uref]
        ∧ (∀ q, upump = some q → q ∈ s1.blockers)
        ∧ (∀ a ∈ acts, ∃ q, a = AvAction.block q))
    ∧ (∀ upump_mgr : Option Nat,
        upipe_avcdec_control_set_upump_mgr s upump_mgr
          = ({ s with upump_mgr := upump_mgr, upump_av_deal := none },
              [AvAction.upump_free p], true))
    ∧ (env.upipe_av_deal_grab = true → s.close = false →
        context.codec_type ≠ AVMediaType.AVMEDIA_TYPE_UNKNOWN →
        ∀ upump : Nat, ∃ s1 acts, upipe_avcdec_cb_av_deal env s upump = .ok (s1, acts)
          ∧ s1.urefs = [] ∧ s1.blockers = [] ∧ s1.upump_av_deal = none
          ∧ (env.avcodec_open2 = true →
              s1.context = some { context with is_open := true }
              ∧ acts = [AvAction.avcodec_open2, AvAction.upipe_av_deal_yield upump,
                    AvAction.upump_free p]
                  ++ s.urefs.flatMap (avcdec_decode_effects env)
                  ++ [AvAction.unblock s.blockers])
          ∧ (env.avcodec_open2 = false →
              s1.context = some context
              ∧ acts = [AvAction.avcodec_open2, AvAction.throw_fatal,
                    AvAction.upipe_av_deal_yield upump, AvAction.upump_free p]
                  ++ s.urefs.map AvAction.free
                  ++ [AvAction.unblock s.blockers])) := by
  rcases s with ⟨mgr, deal, urefs, blockers, counter, u, ctx, close⟩
  simp only at hc hd
  subst hc hd
  rcases context with ⟨ty, isopen⟩
  simp only at ho
  subst ho
  refine ⟨?_, ?_, ?_⟩
  · intro fuel uref upump
    cases upump with
    | none =>
      refine ⟨_, _, by simp only [upipe_avcdec_input]; rfl, ?_, ?_, ?_⟩
      · simp [upipe_avcdec_block_sink, upipe_avcdec_hold_sink]
      · intro q hq; cases hq
      · simp [upipe_avcdec_block_sink]
    | some q =>
      by_cases hq : q ∈ blockers
      · refine ⟨_, _, by simp only [upipe_avcdec_input]; rfl, ?_, ?_, ?_⟩
        · simp [upipe_avcdec_block_sink, upipe_avcdec_hold_sink, hq]
        · intro q2 h2
          cases h2
          simp [upipe_avcdec_block_sink, upipe_avcdec_hold_sink, hq]
        · simp [upipe_avcdec_block_sink, hq]
      · refine ⟨_, _, by simp only [upipe_avcdec_input]; rfl, ?_, ?_, ?_⟩
        · simp [upipe_avcdec_block_sink, upipe_avcdec_hold_sink, hq]
        · intro q2 h2
          cases h2
          simp [upipe_avcdec_block_sink, upipe_avcdec_hold_sink, hq]
        · simp [upipe_avcdec_block_sink, hq]
  · intro upump_mgr
    simp [upipe_avcdec_control_set_upump_mgr, upipe_avcdec_set_upump_av_deal,
      upipe_avcdec_abort_av_deal, upipe_avcdec_set_upump_mgr]
  · intro hg hclose hty upump
    simp only at hclose hty
    subst hclose
    cases h2 : env.avcodec_open2 with
    | true =>
      obtain ⟨l1, l2, l3, l4, l5, l6, l7⟩ := avcdec_output_sink_loop_spec env urefs
        { upump_mgr := mgr, upump_av_deal := none, urefs := urefs, blockers := blockers,
          counter := counter, uref := u, context := some ⟨ty, true⟩, close := false }
      refine ⟨_, _, by
        simp only [upipe_avcdec_cb_av_deal, hg, if_true, upipe_avcdec_do_av_deal, hty, h2,
          if_false, Bool.false_eq_true]
        rfl, ?_, ?_, ?_, ?_, ?_⟩
      · simp [upipe_avcdec_unblock_sink, upipe_avcdec_output_sink, l1]
      · simp [upipe_avcdec_unblock_sink]
      · simp [upipe_avcdec_unblock_sink, upipe_avcdec_output_sink, l4]
      · intro _
        refine ⟨?_, ?_⟩
        · simp [upipe_avcdec_unblock_sink, upipe_avcdec_output_sink, l6]
        · simp [upipe_avcdec_unblock_sink, upipe_avcdec_output_sink, l2, l3]
      · intro h
        cases h
    | false =>
      refine ⟨_, _, by
        simp only [upipe_avcdec_cb_av_deal, hg, if_true, upipe_avcdec_do_av_deal, hty, h2,
          if_false, Bool.false_eq_true]
        rfl, ?_, ?_, ?_, ?_, ?_⟩
      · simp [upipe_avcdec_unblock_sink, upipe_avcdec_flush_sink]
      · simp [upipe_avcdec_unblock_sink]
      · simp [upipe_avcdec_unblock_sink, upipe_avcdec_flush_sink]
      · intro h
        cases h
      · intro _
        refine ⟨?_, ?_⟩
        · simp [upipe_avcdec_unblock_sink, upipe_avcdec_flush_sink]
        · simp [upipe_avcdec_unblock_sink, upipe_avcdec_flush_sink]

/-- C24, amended, on the pipe with a pending deal and two held records: the
set-pump-manager control leaves the two records held. -/
theorem C24_witness :
    upipe_avcdec_control_set_upump_mgr avcdec_pending none
      = ({ avcdec_pending with upump_mgr := none, upump_av_deal := none },
          [AvAction.upump_free 5], true) :=
  (C24_held_queue_on_deal avcdec_env avcdec_pending ⟨AVMediaType.AVMEDIA_TYPE_VIDEO, false⟩ 5
    rfl rfl rfl).2.1 none

/-- C25 fails on the code: when the third plane of the input picture cannot be
read-mapped, `upipe_sws_input` returns with the first two planes read-mapped
and never unmapped; when the output buffer cannot be allocated it returns with
the three input planes read-mapped and never unmapped; when the second plane
of the output buffer cannot be write-mapped it returns with the three input
planes and the first output plane mapped and never unmapped. Only the paths
that reach `sws_scale` (conversion failed or succeeded) unmap what they
mapped. -/
theorem C25_early_returns_leave_planes_mapped :
    (sws_maps (upipe_sws_input { sws_env with uref_pic_plane_read := fun c => c != "v8" }
        sws_pipe sws_uref).2 = (["y8", "u8"], [])
      ∧ sws_unmaps (upipe_sws_input { sws_env with uref_pic_plane_read := fun c => c != "v8" }
        sws_pipe sws_uref).2 = ([], []))
    ∧ (sws_maps (upipe_sws_input { sws_env with ubuf_pic_alloc := false }
        sws_pipe sws_uref).2 = (["y8", "u8", "v8"], [])
      ∧ sws_unmaps (upipe_sws_input { sws_env with ubuf_pic_alloc := false }
        sws_pipe sws_uref).2 = ([], []))
    ∧ (sws_maps (upipe_sws_input { sws_env with ubuf_pic_plane_write := fun c => c != "u8" }
        sws_pipe sws_uref).2 = (["y8", "u8", "v8"], ["y8"])
      ∧ sws_unmaps (upipe_sws_input { sws_env with ubuf_pic_plane_write := fun c => c != "u8" }
        sws_pipe sws_uref).2 = ([], []))
    ∧ (sws_maps (upipe_sws_input { sws_env with sws_scale := 0 } sws_pipe sws_uref).2
        = (["y8", "u8", "v8"], ["y8", "u8", "v8"])
      ∧ sws_unmaps (upipe_sws_input { sws_env with sws_scale := 0 } sws_pipe sws_uref).2
        = (["y8", "u8", "v8"], ["y8", "u8", "v8"]))
    ∧ (sws_maps (upipe_sws_input sws_env sws_pipe sws_uref).2
        = (["y8", "u8", "v8"], ["y8", "u8", "v8"])
      ∧ sws_unmaps (upipe_sws_input sws_env sws_pipe sws_uref).2
        = (["y8", "u8", "v8"], ["y8", "u8", "v8"])) := by
  decide

/-- C26. For fixed `ts_origin`, `systime_offset` and rate n/d with n > 0 (a
64-bit signed integer; d may be any value), `upipe_trickp_get_systime` returns
for every timestamp and is monotonically non-decreasing in it: `ts1 ≤ ts2`
implies `systime(ts1) ≤ systime(ts2)`, provided `(ts2 - ts_origin) * d` and the
final sum do not overflow 64 bits; and every timestamp below `ts_origin` maps
to exactly `systime_offset`. -/
theorem C26_get_systime_monotone (t : upipe_trickp) (ts1 ts2 : Nat)
    (hnum : 0 < t.rate.num) (hhi : t.rate.num < 2 ^ 63) (hle : ts1 ≤ ts2)
    (hmul : (max ts2 t.ts_origin - t.ts_origin) * t.rate.den < 2 ^ 64)
    (hsum : (max ts2 t.ts_origin - t.ts_origin) * t.rate.den / u64_of_int t.rate.num
              + t.systime_offset < 2 ^ 64) :
    (∃ v1 v2, upipe_trickp_get_systime t ts1 = .ok v1
      ∧ upipe_trickp_get_systime t ts2 = .ok v2 ∧ v1 ≤ v2)
    ∧ ∀ ts, ts < t.ts_origin → upipe_trickp_get_systime t ts = .ok t.systime_offset := by
  have hne : u64_of_int t.rate.num ≠ 0 :=
    u64_of_int_ne_zero _ (by omega) (by omega) (by omega)
  constructor
  · exact ⟨_, _, get_systime_eq t ts1 hne, get_systime_eq t ts2 hne,
      systime_spec_mono t ts1 ts2 hle hmul hsum⟩
  · intro ts hts
    rw [get_systime_eq t ts hne]
    unfold systime_spec
    rw [Nat.max_eq_right (Nat.le_of_lt hts)]
    simp only [Nat.sub_self, Nat.zero_mul, Nat.zero_mod, Nat.zero_div, Nat.zero_add]
    exact congrArg Except.ok (Nat.mod_eq_of_lt (Nat.lt_of_le_of_lt (Nat.le_add_left _ _) hsum))

/-- C26 at rate 1/2 with `ts_origin` 1000 and `systime_offset` 2710000:
timestamps 1500 and 3000 map to 2711000 and 2714000, and 500 maps to
2710000. -/
theorem C26_witness :
    (∃ v1 v2, upipe_trickp_get_systime C3_pipe 1500 = .ok v1
      ∧ upipe_trickp_get_systime C3_pipe 3000 = .ok v2 ∧ v1 ≤ v2)
    ∧ ∀ ts, ts < C3_pipe.ts_origin → upipe_trickp_get_systime C3_pipe ts
        = .ok C3_pipe.systime_offset :=
  C26_get_systime_monotone C3_pipe 1500 3000 (by decide) (by decide) (by decide)
    (by decide) (by decide)

/-- C27 as stated fails when the product overflows 64 bits: a 2x1 picture with
SAR (2^62 + 1)/1 scaled to 1x2, the output attributes fixing no SAR, leaves
`upipe_sws_input` with SAR 4/1, because `sar.num *= input_hsize * output_vsize`
wraps (2^62 + 1) * 4 = 2^64 + 4 to 4. The fraction the claim names,
(n * in_hsize * out_vsize) / (d * in_vsize * out_hsize) reduced by the GCD, is
(2^64 + 4)/1, and the display aspect ratio is not kept: it is (2^63 + 2)/1
before and 2/1 after. -/
theorem C27_counterexample :
    (upipe_sws_input sws_env { sws_pipe with flow_def_attr := ⟨some 1, some 2, none⟩ }
        ⟨some (2, 1), some ⟨2 ^ 62 + 1, 1⟩⟩).2
      = [SwsAction.uref_pic_plane_read "y8", SwsAction.uref_pic_plane_read "u8",
         SwsAction.uref_pic_plane_read "v8", SwsAction.ubuf_pic_plane_write "y8",
         SwsAction.ubuf_pic_plane_write "u8", SwsAction.ubuf_pic_plane_write "v8",
         SwsAction.sws_scale, SwsAction.uref_pic_plane_unmap "y8",
         SwsAction.uref_pic_plane_unmap "u8", SwsAction.uref_pic_plane_unmap "v8",
         SwsAction.ubuf_pic_plane_unmap "y8", SwsAction.ubuf_pic_plane_unmap "u8",
         SwsAction.ubuf_pic_plane_unmap "v8",
         SwsAction.output ⟨some (1, 2), some ⟨4, 1⟩⟩]
    ∧ urational_simplify ⟨(2 ^ 62 + 1) * ((2 * 2 : Nat) : Int), 1 * (1 * 1)⟩
        = ⟨2 ^ 64 + 4, 1⟩
    ∧ (⟨4, 1⟩ : urational) ≠ ⟨2 ^ 64 + 4, 1⟩
    ∧ ¬ ((4 : Int) * ((1 : Int) * 1 * 1) = (2 ^ 62 + 1) * 2 * 2 * 1) := by
  decide

/-- C27, amended. When the output attributes of the scaler fix no sample
aspect ratio,
the input record carries SAR n/d, and the record is converted (buffer manager
set, planes mapped, output buffer allocated, conversion and attribute write
succeeding), `upipe_sws_input` hands exactly one record to the output, with
the output size and with SAR (n * in_hsize * out_vsize) /
(d * in_vsize * out_hsize) simplified by the GCD, provided the two products
fit in 64 bits (signed for the numerator): it is the same fraction, so the
display aspect ratio SAR * hsize / vsize is the same before and after, and it
is in lowest terms; when the output attributes give no size (output size =
input size, not zero) it is n/d simplified by the GCD. -/
theorem C27_sar_keeps_display_aspect (env : SwsEnv) (s : upipe_sws) (uref : PicUref)
    (mgr input_hsize input_vsize : Nat) (n : Int) (d : Nat)
    (hmgr : s.ubuf_mgr = some mgr) (hsize : uref.size = some (input_hsize, input_vsize))
    (hctx : env.sws_getCachedContext = true)
    (hin : (upipe_sws_map_input env s.input_chroma_map).2 = true)
    (halloc : env.ubuf_pic_alloc = true)
    (hout : (upipe_sws_map_output env s.output_chroma_map).2 = true)
    (hscale : 0 < env.sws_scale)
    (hattr : s.flow_def_attr.sar = none) (hsar : uref.sar = some ⟨n, d⟩)
    (hset : env.uref_pic_flow_set_sar = true)
    (hx : input_hsize * (upipe_sws_output_size s input_hsize input_vsize).2 < 2 ^ 64)
    (hy : input_vsize * (upipe_sws_output_size s input_hsize input_vsize).1 < 2 ^ 64)
    (hlo : -(2 ^ 63) ≤
      n * ((input_hsize * (upipe_sws_output_size s input_hsize input_vsize).2 : Nat) : Int))
    (hhi : n * ((input_hsize * (upipe_sws_output_size s input_hsize input_vsize).2 : Nat) : Int)
      < 2 ^ 63)
    (hden : d * (input_vsize * (upipe_sws_output_size s input_hsize input_vsize).1) < 2 ^ 64) :
    ∃ sar : urational,
      (upipe_sws_input env s uref).2
        = s.input_chroma_map.map SwsAction.uref_pic_plane_read
          ++ s.output_chroma_map.map SwsAction.ubuf_pic_plane_write
          ++ [SwsAction.sws_scale]
          ++ s.input_chroma_map.map SwsAction.uref_pic_plane_unmap
          ++ s.output_chroma_map.map SwsAction.ubuf_pic_plane_unmap
          ++ [SwsAction.output
                ⟨some (upipe_sws_output_size s input_hsize input_vsize), some sar⟩]
      ∧ sar = urational_simplify
          ⟨n * ((input_hsize * (upipe_sws_output_size s input_hsize input_vsize).2 : Nat) : Int),
           d * (input_vsize * (upipe_sws_output_size s input_hsize input_vsize).1)⟩
      ∧ sar.num * ((d : Int) * input_vsize
            * (upipe_sws_output_size s input_hsize input_vsize).1)
          = n * input_hsize * (upipe_sws_output_size s input_hsize input_vsize).2 * sar.den
      ∧ ((n ≠ 0 ∨ d ≠ 0) → 0 < input_hsize → 0 < input_vsize →
          0 < (upipe_sws_output_size s input_hsize input_vsize).1 →
          0 < (upipe_sws_output_size s input_hsize input_vsize).2 →
          Nat.gcd sar.num.natAbs sar.den = 1)
      ∧ ((s.flow_def_attr.hsize = none ∨ s.flow_def_attr.vsize = none) →
          0 < input_hsize → 0 < input_vsize → sar = urational_simplify ⟨n, d⟩) := by
  have hsucc := sws_input_success env s uref mgr input_hsize input_vsize hmgr hsize hctx hin
    halloc hout hscale
  generalize hos : upipe_sws_output_size s input_hsize input_vsize = os at *
  obtain ⟨oh, ov⟩ := os
  simp only at hx hy hlo hhi hden
  have hnum : s64_of_nat (u64_of_int n * (input_hsize * ov % 2 ^ 64))
      = n * ((input_hsize * ov : Nat) : Int) := by
    rw [Nat.mod_eq_of_lt hx]
    exact s64_mul_exact n (input_hsize * ov) hlo hhi
  have hdn : d * (input_vsize * oh % 2 ^ 64) % 2 ^ 64 = d * (input_vsize * oh) := by
    rw [Nat.mod_eq_of_lt hy, Nat.mod_eq_of_lt hden]
  have hsarv : upipe_sws_sar env { s with convert_ctx := true } ⟨some (oh, ov), uref.sar⟩
      input_hsize input_vsize oh ov
      = (⟨some (oh, ov), some (urational_simplify
          ⟨n * ((input_hsize * ov : Nat) : Int), d * (input_vsize * oh)⟩)⟩, []) := by
    simp only [upipe_sws_sar, hattr, hsar, hset, if_true, hnum, hdn]
  rw [hsarv] at hsucc
  refine ⟨_, ?_, rfl, ?_, ?_, ?_⟩
  · rw [hsucc]
    simp
  · have hc := urational_simplify_cross
      ⟨n * ((input_hsize * ov : Nat) : Int), d * (input_vsize * oh)⟩
    simp only at hc
    push_cast at hc ⊢
    linear_combination hc
  · intro hnd h1 h2 h3 h4
    apply urational_simplify_coprime
    simp only
    rcases hnd with h | h
    · left
      have : (0 : Int) < ((input_hsize * ov : Nat) : Int) := by
        exact_mod_cast Nat.mul_pos h1 h4
      exact mul_ne_zero h (ne_of_gt this)
    · right
      exact Nat.mul_ne_zero h (Nat.mul_ne_zero (Nat.pos_iff_ne_zero.mp h2)
        (Nat.pos_iff_ne_zero.mp h3))
  · intro hno h1 h2
    have hsame : (oh, ov) = (input_hsize, input_vsize) := by
      rw [← hos]
      unfold upipe_sws_output_size
      rcases hno with h | h
      · simp [h]
      · rw [h]
        cases s.flow_def_attr.hsize <;> rfl
    injection hsame with e1 e2
    have hk : d * (input_vsize * input_hsize) = d * (input_hsize * input_vsize) := by
      rw [Nat.mul_comm input_vsize]
    rw [e1, e2, hk]
    exact urational_simplify_scale n d (input_hsize * input_vsize) (Nat.mul_pos h1 h2)

/-- C27 on a 1280x720 picture with SAR 4/3 scaled to 720x576: the output record
has SAR 256/135, the same display aspect ratio 64/27. -/
theorem C27_witness :
    ∃ sar : urational,
      (upipe_sws_input sws_env { sws_pipe with flow_def_attr := ⟨some 720, some 576, none⟩ }
          { sws_uref with sar := some ⟨4, 3⟩ }).2
        = [SwsAction.uref_pic_plane_read "y8", SwsAction.uref_pic_plane_read "u8",
           SwsAction.uref_pic_plane_read "v8", SwsAction.ubuf_pic_plane_write "y8",
           SwsAction.ubuf_pic_plane_write "u8", SwsAction.ubuf_pic_plane_write "v8",
           SwsAction.sws_scale, SwsAction.uref_pic_plane_unmap "y8",
           SwsAction.uref_pic_plane_unmap "u8", SwsAction.uref_pic_plane_unmap "v8",
           SwsAction.ubuf_pic_plane_unmap "y8", SwsAction.ubuf_pic_plane_unmap "u8",
           SwsAction.ubuf_pic_plane_unmap "v8",
           SwsAction.output ⟨some (720, 576), some sar⟩]
      ∧ sar = urational_simplify ⟨4 * ((1280 * 576 : Nat) : Int), 3 * (720 * 720)⟩ := by
  obtain ⟨sar, h1, h2, _⟩ := C27_sar_keeps_display_aspect sws_env
    { sws_pipe with flow_def_attr := ⟨some 720, some 576, none⟩ }
    { sws_uref with sar := some ⟨4, 3⟩ } 1 1280 720 4 3 rfl rfl rfl (by decide) rfl
    (by decide) (by decide) rfl rfl rfl (by decide) (by decide) (by decide) (by decide)
    (by decide)
  exact ⟨sar, h1, h2⟩

/-- C28. The accumulator of a freshly allocated merge stage is empty, and on
every state whose accumulator is empty or a strictly incomplete section (at
least one byte, the first one not 0xFF, and fewer than 3 bytes or fewer than
`length + 3 ≤ 4096` bytes, `length` being the 12-bit field of its own header)
every call of `upipe_ts_psim_input`, and so every sequence of calls, returns
and leaves the accumulator empty or a strictly incomplete section again; such
an accumulator never holds more than 4095 bytes. -/
theorem C28_accumulator_strictly_incomplete (env : Env) (s : upipe_ts_psim)
    (hinv : acc_strict s) :
    upipe_ts_psim_alloc.next_uref = none
    ∧ (∀ uref : Uref, ∃ s1 acts,
        upipe_ts_psim_input env s uref = .ok (s1, acts) ∧ acc_strict s1
        ∧ ∀ acc, s1.next_uref = some acc → acc.block.length ≤ 4095)
    ∧ (∀ urefs : List Uref, ∃ s1 acts,
        upipe_ts_psim_run env s urefs = .ok (s1, acts) ∧ acc_strict s1
        ∧ ∀ acc, s1.next_uref = some acc → acc.block.length ≤ 4095) := by
  refine ⟨rfl, ?_, ?_⟩
  · intro uref
    obtain ⟨s1, acts, e, h⟩ := psim_input_strict_total env s uref hinv
    exact ⟨s1, acts, e, h, acc_strict_bound s1 h⟩
  · intro urefs
    obtain ⟨s1, acts, e, h⟩ := psim_run_strict_total env urefs s hinv
    exact ⟨s1, acts, e, h, acc_strict_bound s1 h⟩

/-- C28 on the stage of scenario S1 and its three records: the run returns and
the 10 bytes it leaves in the accumulator are a strictly incomplete section. -/
theorem C28_witness :
    ∃ s1 acts,
      upipe_ts_psim_run example_env S1_stage S1_urefs = .ok (s1, acts) ∧ acc_strict s1
      ∧ ∀ acc, s1.next_uref = some acc → acc.block.length ≤ 4095 :=
  (C28_accumulator_strictly_incomplete example_env S1_stage
    (fun _ h => Option.noConfusion h)).2.2 S1_urefs

/-- C29. The loop `while (upipe_ts_psim_merge(...))` of `upipe_ts_psim_input`
terminates for every input record and every state: run with the size of the
record plus two as a bound on its iterations, it never stops for lack of
iterations. Every iteration that returns true has handed exactly one section
to the output, leaves no accumulator and leaves the input record non-empty
and not longer; on a state whose accumulator is empty or incomplete, as every
state the stage reaches is, it has shortened the record by at least one byte,
so that the loop returns within as many iterations as the record has bytes
(one iteration for an empty record), with the result the input computes. -/
theorem C29_merge_loop_terminates (env : Env) (s : upipe_ts_psim) (uref : Uref) :
    upipe_ts_psim_merge_loop env (uref.block.length + 2) s uref ≠ .error Fault.fuel
    ∧ (∀ s1 u1 a, upipe_ts_psim_merge env s uref = .ok (s1, u1, a, true) →
        s1.next_uref = none ∧ (∃ sec, emitted a = [sec]) ∧ 0 < u1.block.length
        ∧ u1.block.length ≤ uref.block.length
        ∧ (acc_incomplete s → u1.block.length < uref.block.length))
    ∧ (acc_incomplete s →
        ∃ r, upipe_ts_psim_merge_loop env (max 1 uref.block.length) s uref = .ok r
          ∧ upipe_ts_psim_merge_loop env (uref.block.length + 2) s uref = .ok r) := by
  refine ⟨psim_merge_loop_no_fuel env s uref, ?_, ?_⟩
  · intro s1 u1 a hr
    obtain ⟨h1, h2, h3, h4⟩ := psim_merge_true env s uref s1 u1 a hr
    refine ⟨h1, h2, h3, h4, ?_⟩
    intro hinv
    obtain ⟨s2, u2, evs, b, _, e2, _, _, e5⟩ := psim_merge_own_spec env s uref false hinv
    rw [hr] at e2
    injection e2 with e2
    injection e2 with _ e2
    injection e2 with hu e2
    injection e2 with _ hb
    rw [hu]
    exact (e5 hb.symm).2.2
  · intro hinv
    obtain ⟨r, hr⟩ := psim_merge_loop_bound env (max 1 uref.block.length) s uref hinv
      (by omega) (by omega)
    refine ⟨r, hr, ?_⟩
    have h := psim_merge_loop_fuel_add env (uref.block.length + 2 - max 1 uref.block.length)
      _ s uref r hr
    have he : max 1 uref.block.length + (uref.block.length + 2 - max 1 uref.block.length)
        = uref.block.length + 2 := by omega
    rw [he] at h
    exact h

/-- C29 on a synchronised stage and a record of 8 bytes holding two complete
sections and the beginning of a third: the loop returns within 8 iterations. -/
theorem C29_witness :
    ∃ r, upipe_ts_psim_merge_loop example_env
          (max 1 (mk_uref false false [0, 0, 0, 1, 0, 0, 2, 0]).block.length) wired_psim
          (mk_uref false false [0, 0, 0, 1, 0, 0, 2, 0]) = .ok r
      ∧ upipe_ts_psim_merge_loop example_env
          ((mk_uref false false [0, 0, 0, 1, 0, 0, 2, 0]).block.length + 2) wired_psim
          (mk_uref false false [0, 0, 0, 1, 0, 0, 2, 0]) = .ok r :=
  (C29_merge_loop_terminates example_env wired_psim
    (mk_uref false false [0, 0, 0, 1, 0, 0, 2, 0])).2.2 (fun _ h => Option.noConfusion h)

/-- C30. If a trick-play pipe with a clock attached has no picture or sound
subpipe (no subpipe at all, or only subpicture ones), `upipe_trickp_check_start`
returns having anchored: `ts_origin` is `UINT64_MAX` (2^64 - 1) and
`systime_offset` is now + 2,700,000 (in 64-bit arithmetic), the rate is
unchanged; afterwards, unless the pipe is paused, every 64-bit timestamp
converts to `systime_offset`, and every record `upipe_trickp_sub_process`
handles is emitted with pts-sys and dts-sys equal to `systime_offset` where it
has a pts or a dts. -/
theorem C30_no_av_subpipe_anchors_at_max (env : Env) (t : upipe_trickp) (clock : Nat)
    (hclock : t.uclock = some clock)
    (hlo : -(2 ^ 63) ≤ t.rate.num) (hhi : t.rate.num < 2 ^ 63)
    (hsub : ∀ sub ∈ t.subs, sub.type = upipe_trickp_sub_type.UPIPE_TRICKP_SUBPIC) :
    ∃ t2 acts, upipe_trickp_check_start env t = .ok (t2, acts)
      ∧ t2.ts_origin = UINT64_MAX ∧ UINT64_MAX = 2 ^ 64 - 1
      ∧ t2.systime_offset = (env.now + 2700000) % 2 ^ 64
      ∧ (env.now + 2700000 < 2 ^ 64 → t2.systime_offset = env.now + 2700000)
      ∧ t2.rate = t.rate
      ∧ (∀ ts, ts ≤ UINT64_MAX → t.rate.num ≠ 0 →
          upipe_trickp_get_systime t2 ts = .ok t2.systime_offset)
      ∧ (∀ (sub : upipe_trickp_sub) (uref : Uref), t.rate.num ≠ 0 → t.rate.den ≠ 0 →
          (∀ ts, uref.pts = some ts ∨ uref.dts = some ts → ts ≤ UINT64_MAX) →
          ∃ h2 a u, upipe_trickp_sub_process env t2 sub uref
              = .ok ({ sub with toOutputHelper := h2 }, Action.output u :: a, true)
            ∧ u.rate = some t.rate
            ∧ (uref.pts ≠ none → u.pts_sys = some t2.systime_offset)
            ∧ (uref.dts ≠ none → u.dts_sys = some t2.systime_offset)) := by
  have hready : ∀ sub ∈ t.subs, sub.type ≠ upipe_trickp_sub_type.UPIPE_TRICKP_SUBPIC →
      ∃ u ∈ sub.urefs, upipe_trickp_uref_ts u ≠ none :=
    fun sub hs hne => absurd (hsub sub hs) hne
  have hscan := scan_ready t.subs UINT64_MAX hready
  rw [anchor_dates_subpic t.subs hsub] at hscan
  simp only [List.foldl_nil] at hscan
  have hhi64 : t.rate.num < 2 ^ 64 := by omega
  obtain ⟨⟨subs2, a2⟩, hdrain⟩ := drain_ok env
    { t with subs := (upipe_trickp_scan t.subs UINT64_MAX).1,
             ts_origin := UINT64_MAX,
             systime_offset := (env.now + UPIPE_TRICKP_PTS_DELAY) % 2 ^ 64 }
    (upipe_trickp_scan t.subs UINT64_MAX).1 hlo hhi64
  have hdelay : UPIPE_TRICKP_PTS_DELAY = 2700000 := by decide
  have hcs : upipe_trickp_check_start env t
      = .ok ({ t with subs := subs2,
                      ts_origin := UINT64_MAX,
                      systime_offset := (env.now + UPIPE_TRICKP_PTS_DELAY) % 2 ^ 64 },
          (upipe_trickp_scan t.subs UINT64_MAX).2.1 ++ a2) := by
    simp only [hclock] at hdrain
    simp only [upipe_trickp_check_start, hscan, hclock, hdrain]
  have hoff : (env.now + UPIPE_TRICKP_PTS_DELAY) % 2 ^ 64 < 2 ^ 64 :=
    Nat.mod_lt _ (by decide)
  obtain ⟨t2, hcs2, hr, ho, hs⟩ : ∃ t2 : upipe_trickp,
      upipe_trickp_check_start env t
        = .ok (t2, (upipe_trickp_scan t.subs UINT64_MAX).2.1 ++ a2)
      ∧ t2.rate = t.rate ∧ t2.ts_origin = UINT64_MAX
      ∧ t2.systime_offset = (env.now + UPIPE_TRICKP_PTS_DELAY) % 2 ^ 64 :=
    ⟨_, hcs, rfl, rfl, rfl⟩
  have hoff2 : t2.systime_offset < 2 ^ 64 := by rw [hs]; exact hoff
  have hlo2 : -(2 ^ 63) ≤ t2.rate.num := by rw [hr]; exact hlo
  have hhi2 : t2.rate.num < 2 ^ 64 := by rw [hr]; omega
  refine ⟨t2, _, hcs2, ho, by decide, ?_, ?_, hr, ?_, ?_⟩
  · rw [hs, hdelay]
  · intro hlt
    rw [hs, hdelay]
    exact Nat.mod_eq_of_lt hlt
  · intro ts hts hnum
    have hnum2 : t2.rate.num ≠ 0 := by rw [hr]; exact hnum
    rw [get_systime_eq t2 ts (u64_of_int_ne_zero _ hnum2 hlo2 hhi2)]
    exact congrArg Except.ok (systime_spec_clamped t2 ts (by rw [ho]; exact hts) hoff2)
  · intro sub uref hnum hden hts
    have hnum2 : t2.rate.num ≠ 0 := by rw [hr]; exact hnum
    have hden2 : t2.rate.den ≠ 0 := by rw [hr]; exact hden
    obtain ⟨h2, a, hp, _, _⟩ := sub_process_stamps env t2 sub uref hnum2 hden2 hlo2 hhi2
    refine ⟨h2, a, _, hp, ?_, ?_, ?_⟩
    · simp only [stamped_spec, hr]
    · intro hne
      cases hpts : uref.pts with
      | none => exact absurd hpts hne
      | some ts =>
        simp only [stamped_spec, hpts]
        rw [systime_spec_clamped t2 ts (by rw [ho]; exact hts ts (Or.inl hpts)) hoff2]
    · intro hne
      cases hdts : uref.dts with
      | none => exact absurd hdts hne
      | some ts =>
        simp only [stamped_spec, hdts]
        rw [systime_spec_clamped t2 ts (by rw [ho]; exact hts ts (Or.inr hdts)) hoff2]

/-- C30 on a pipe at rate 1/2 with a clock and no subpipe, the clock reading
10000. -/
theorem C30_witness :
    (match upipe_trickp_check_start example_env C3_pipe with
      | .ok r => some (r.1.ts_origin, r.1.systime_offset)
      | .error _ => none) = some (2 ^ 64 - 1, 2710000) := by
  obtain ⟨t2, acts, h, ho, hm, hs, _⟩ :=
    C30_no_av_subpipe_anchors_at_max example_env C3_pipe 0 rfl (by decide) (by decide)
      (by intro sub hsub; cases hsub)
  rw [h]
  simp only [ho, hs, hm]
  decide

end Upipe
